import Mathlib

/-!
# Projeto-EntradaNF: the data pipeline of `src/main.js`

A shallow embedding of the spreadsheet pipeline (header-row detection, column typing,
value parsing, row normalisation, filtering, aggregation, summary) and the properties
proved about it.

Modelling conventions.

* A JavaScript string is a Lean `String`; the string functions work on its list of
  characters.  Only well-formed text is considered (no lone surrogates).
* A finite JavaScript number is the rational it denotes (`ℚ`); `NaN` and the two
  infinities are separate constructors of `JSNumber`.  A numeral read from text stands for
  its exact value, with overflow to `Infinity`; the results of the operators `+` and `/`
  are rounded to binary64 (to nearest, ties to even), as `roundToDouble` defines it.
* What the language leaves to the engine, the locale or the time zone, and the one
  function of the spreadsheet library the code calls on cell values, are the fields of
  `Host`; every general theorem holds for every host.
* Objects used as string-keyed maps (`types`, the records) are association lists read
  with `JSObject.get`; assignment puts the new binding in front, so the latest write wins.
-/

namespace EntradaNF

/-! ## Characters and strings -/

/-- The code points `trim` removes and the regex class `\s` matches (ECMAScript WhiteSpace and
LineTerminator). -/
def isJSWhiteSpace (c : Char) : Bool :=
  let n := c.toNat
  n == 9 || n == 10 || n == 11 || n == 12 || n == 13 || n == 32 || n == 0xA0 || n == 0x1680 ||
  (0x2000 ≤ n && n ≤ 0x200A) || n == 0x2028 || n == 0x2029 || n == 0x202F || n == 0x205F ||
  n == 0x3000 || n == 0xFEFF

/-- The list form of `String.prototype.trim`. -/
def trimChars (cs : List Char) : List Char :=
  ((cs.dropWhile isJSWhiteSpace).reverse.dropWhile isJSWhiteSpace).reverse

/-- The method `String.prototype.trim`. -/
def jsTrim (s : String) : String := ⟨trimChars s.data⟩

/-- The call `s.replace(/c/g, "")` for a single character `c`. -/
def removeChar (c : Char) (cs : List Char) : List Char := cs.filter (fun x => x != c)

/-- The call `s.replace(/a/g, b)` for single characters `a` and `b`. -/
def replaceChar (a b : Char) (cs : List Char) : List Char :=
  cs.map (fun x => if x = a then b else x)

/-- Loop of `lastIndexOf`: `i` is the index of the head, `acc` the last match so far. -/
def lastIndexOfAux (c : Char) : List Char → Nat → Int → Int
  | [], _, acc => acc
  | x :: xs, i, acc => lastIndexOfAux c xs (i + 1) (if x = c then (i : Int) else acc)

/-- The method `String.prototype.lastIndexOf` for a single character: `-1` when absent. -/
def lastIndexOf (c : Char) (cs : List Char) : Int := lastIndexOfAux c cs 0 (-1)

/-- ASCII lower-casing of one character. -/
def asciiLowerChar (c : Char) : Char :=
  if 65 ≤ c.toNat ∧ c.toNat ≤ 90 then Char.ofNat (c.toNat + 32) else c

/-- Whether `p` is an initial segment of `cs`; the rest of `cs` when it is. -/
def dropLeading : List Char → List Char → Option (List Char)
  | [], cs => some cs
  | _ :: _, [] => none
  | p :: ps, c :: cs => if p = c then dropLeading ps cs else none

/-! ## Numbers -/

/-- A JavaScript number: `NaN`, the infinities, or a finite value. -/
inductive JSNumber where
  | nan
  | posInf
  | negInf
  | fin (q : ℚ)
  deriving DecidableEq

/-- The test `Number.isFinite`. -/
def JSNumber.isFinite : JSNumber → Bool
  | .fin _ => true
  | _ => false

/-- Unary minus. -/
def JSNumber.neg : JSNumber → JSNumber
  | .nan => .nan
  | .posInf => .negInf
  | .negInf => .posInf
  | .fin q => .fin (-q)

/-- From this magnitude on a decimal literal rounds to `Infinity` in binary64. -/
def doubleOverflow : ℚ := 2 ^ 1024 - 2 ^ 970

/-- The value of a literal as a number: itself, or an infinity on overflow. -/
def clipToDouble (q : ℚ) : JSNumber :=
  if doubleOverflow ≤ q then .posInf else if q ≤ -doubleOverflow then .negInf else .fin q

/-- The number of binary digits of `n`, at most `fuel` of them. -/
def bitLength : Nat → Nat → Nat
  | 0, _ => 0
  | fuel + 1, n => if n = 0 then 0 else bitLength fuel (n / 2) + 1

/-- The integer nearest to `n / d`, the even one of two equally near. -/
def roundHalfEven (n d : Nat) : Nat :=
  if 2 * (n % d) < d then n / d
  else if d < 2 * (n % d) then n / d + 1
  else if n / d % 2 = 0 then n / d else n / d + 1

/-- The binary64 magnitude nearest to `num / den`, for positive `num` and `den`, before
overflow is looked at: with `2 ^ e ≤ num / den < 2 ^ (e + 1)` the multiple of
`2 ^ (max e (-1022) - 52)` nearest to `num / den`, the even one of two equally near. -/
def roundPositive (num den : Nat) : ℚ :=
  let e0 : Int := (bitLength (num + 1) num : Int) - (bitLength (den + 1) den : Int)
  let e : Int := if den * 2 ^ e0.toNat ≤ num * 2 ^ (-e0).toNat then e0 else e0 - 1
  let k : Int := max e (-1022) - 52
  let m := roundHalfEven (num * 2 ^ (-k).toNat) (den * 2 ^ k.toNat)
  ((m * 2 ^ k.toNat : Nat) : ℚ) / ((2 ^ (-k).toNat : Nat) : ℚ)

/-- The binary64 number a real result is rounded to: the nearest one, the one with even
mantissa of two equally near, an infinity from `2 ^ 1024` on. -/
def roundToDouble (q : ℚ) : JSNumber :=
  if q = 0 then .fin 0
  else
    let r := roundPositive q.num.natAbs q.den
    if (2 : ℚ) ^ 1024 ≤ r then (if q < 0 then .negInf else .posInf)
    else .fin (if q < 0 then -r else r)

/-- The operator `+` on numbers. -/
def JSNumber.add : JSNumber → JSNumber → JSNumber
  | .fin a, .fin b => roundToDouble (a + b)
  | .nan, _ => .nan
  | _, .nan => .nan
  | .posInf, .negInf => .nan
  | .negInf, .posInf => .nan
  | .posInf, _ => .posInf
  | _, .posInf => .posInf
  | .negInf, _ => .negInf
  | _, .negInf => .negInf

/-- The operator `/` with the length of an array, not zero, as divisor. -/
def JSNumber.div (a : JSNumber) (n : Nat) : JSNumber :=
  match a with
  | .fin q => roundToDouble (q / (n : ℚ))
  | other => other

/-- The operator `<` on numbers. -/
def JSNumber.lt : JSNumber → JSNumber → Bool
  | .fin a, .fin b => decide (a < b)
  | .negInf, .fin _ => true
  | .negInf, .posInf => true
  | .fin _, .posInf => true
  | _, _ => false

/-- The value of a run of decimal digits. -/
def digitsValue (cs : List Char) : Nat :=
  cs.foldl (fun acc c => 10 * acc + (c.toNat - 48)) 0

/-- A non-empty run of decimal digits. -/
def isDecimalDigits (cs : List Char) : Bool := !cs.isEmpty && cs.all Char.isDigit

/-- The mantissa of a decimal literal: `digits`, `digits.`, `digits.digits` or `.digits`. -/
def parseMantissa (cs : List Char) : Option ℚ :=
  match cs.span (fun c => c != '.') with
  | (ip, []) => if isDecimalDigits ip then some (digitsValue ip : ℚ) else none
  | (ip, _ :: fp) =>
    if ip.all Char.isDigit && fp.all Char.isDigit && !(ip.isEmpty && fp.isEmpty) then
      some ((digitsValue ip : ℚ) + (digitsValue fp : ℚ) / 10 ^ fp.length)
    else none

/-- The exponent of a decimal literal, after the `e`: an optional sign and digits. -/
def parseExponent (cs : List Char) : Option Int :=
  match cs with
  | '+' :: ds => if isDecimalDigits ds then some (digitsValue ds : Int) else none
  | '-' :: ds => if isDecimalDigits ds then some (-(digitsValue ds : Int)) else none
  | ds => if isDecimalDigits ds then some (digitsValue ds : Int) else none

/-- The production StrUnsignedDecimalLiteral: `Infinity` or mantissa and optional exponent. -/
def strUnsignedDecimal (cs : List Char) : Option JSNumber :=
  if cs = "Infinity".data then some .posInf
  else
    match cs.span (fun c => !(c == 'e' || c == 'E')) with
    | (m, []) => (parseMantissa m).map clipToDouble
    | (m, _ :: e) =>
      match parseMantissa m, parseExponent e with
      | some q, some k => some (clipToDouble (q * (10 : ℚ) ^ k))
      | _, _ => none

/-- The value of one digit in base `b`, if it is one. -/
def digitInBase (b : Nat) (c : Char) : Option Nat :=
  let n := c.toNat
  let v : Option Nat :=
    if 48 ≤ n ∧ n ≤ 57 then some (n - 48)
    else if 97 ≤ n ∧ n ≤ 102 then some (n - 87)
    else if 65 ≤ n ∧ n ≤ 70 then some (n - 55)
    else none
  v.filter (fun d => d < b)

/-- The value of a run of digits in base `b`, most significant first, from `acc`. -/
def digitsInBase (b : Nat) : List Char → Nat → Option Nat
  | [], acc => some acc
  | c :: cs, acc =>
    match digitInBase b c with
    | some d => digitsInBase b cs (b * acc + d)
    | none => none

/-- A literal `0x…`, `0o…` or `0b…` after its prefix: at least one digit of the base. -/
def nonDecimalLiteral (b : Nat) (ds : List Char) : JSNumber :=
  if ds.isEmpty then .nan
  else
    match digitsInBase b ds 0 with
    | some n => clipToDouble (n : ℚ)
    | none => .nan

/-- The abstract operation StringToNumber on a list of characters. -/
def charsToNumber (s : List Char) : JSNumber :=
  match trimChars s with
  | [] => .fin 0
  | '0' :: 'x' :: ds => nonDecimalLiteral 16 ds
  | '0' :: 'X' :: ds => nonDecimalLiteral 16 ds
  | '0' :: 'o' :: ds => nonDecimalLiteral 8 ds
  | '0' :: 'O' :: ds => nonDecimalLiteral 8 ds
  | '0' :: 'b' :: ds => nonDecimalLiteral 2 ds
  | '0' :: 'B' :: ds => nonDecimalLiteral 2 ds
  | '+' :: ds => (strUnsignedDecimal ds).getD .nan
  | '-' :: ds => ((strUnsignedDecimal ds).map JSNumber.neg).getD .nan
  | ds => (strUnsignedDecimal ds).getD .nan

/-- The call `Number(s)` on a string. -/
def stringToNumber (s : String) : JSNumber := charsToNumber s.data

/-! ## Cells and the host -/

/-- A raw cell of the sheet matrix; `undefined` is what indexing past the end of a row gives. -/
inductive Cell where
  | undefined
  | null
  | str (s : String)
  | num (x : ℚ)
  deriving DecidableEq

/-- The object `XLSX.SSF.parse_date_code` returns: the calendar fields the code reads. -/
structure DateCode where
  y : Int
  m : Int
  d : Int
  H : Int
  M : Int
  S : Int
  deriving DecidableEq

/-- What the code takes from its environment.  A date is its time value, in milliseconds
since the epoch. -/
structure Host where
  /-- The call `String(x)` on a finite number. -/
  numberToString : ℚ → String
  /-- The method `String.prototype.toLowerCase`. -/
  toLowerCase : String → String
  /-- The time value of `new Date(s)` for a string, `none` for an invalid date. -/
  dateFromString : String → Option Int
  /-- The library call `XLSX.SSF.parse_date_code(v)`, `none` for its `null`. -/
  parse_date_code : ℚ → Option DateCode
  /-- The time value of `new Date(y, m - 1, d, H, M, S)` in the local time zone. -/
  dateFromCode : DateCode → Int
  /-- The time value after `setHours(23, 59, 59, 999)` in the local time zone. -/
  endOfDay : Int → Int
  /-- The method `getFullYear` of a valid date, in the local time zone. -/
  getFullYear : Int → Int
  /-- The method `getMonth` of a valid date, in the local time zone: 0 to 11. -/
  getMonth : Int → Int
  /-- The call `toLocaleDateString("pt-BR", ...)` with a short month and a numeric year. -/
  monthYearLabel : Int → String

/-- The call `String(cell)`. -/
def cellToString (h : Host) : Cell → String
  | .undefined => "undefined"
  | .null => "null"
  | .str s => s
  | .num x => h.numberToString x

/-! ## parseNumber -/

/-- The function `parseNumber` of `src/main.js`. -/
def parseNumber (value : Cell) : JSNumber :=
  match value with
  | .num x => .fin x
  | .str s =>
    let normalized := trimChars s.data
    if normalized.isEmpty then .nan
    else
      let normalized := removeChar (Char.ofNat 0) normalized
      let normalized :=
        normalized.filter (fun c => !(c == 'R' || c == 'r' || c == '$' || isJSWhiteSpace c))
      let normalized :=
        normalized.filter (fun c => c.isDigit || c == ',' || c == '.' || c == '-')
      let hasComma := normalized.contains ','
      let hasDot := normalized.contains '.'
      let normalized :=
        if hasComma && hasDot then
          if lastIndexOf ',' normalized > lastIndexOf '.' normalized then
            replaceChar ',' '.' (removeChar '.' normalized)
          else removeChar ',' normalized
        else if hasComma && !hasDot then
          replaceChar ',' '.' (removeChar '.' normalized)
        else removeChar ',' normalized
      let numeric := charsToNumber normalized
      if numeric.isFinite then numeric else .nan
  | _ => .nan

/-! ## Header-row detection -/

/-- The tail `\s*\d+$` of `GENERIC_HEADER_PATTERN`, after its alternation. -/
def matchesSpacesDigitsEnd (cs : List Char) : Bool :=
  isDecimalDigits (cs.dropWhile isJSWhiteSpace)

/-- The test `GENERIC_HEADER_PATTERN.test(s)` for `/^(coluna|column|campo)\s*\d+$/i`; without
the `u` flag only ASCII letters match the letters of the pattern. -/
def GENERIC_HEADER_PATTERN (s : String) : Bool :=
  let cs := s.data.map asciiLowerChar
  ["coluna", "column", "campo"].any fun w =>
    match dropLeading w.data cs with
    | some rest => matchesSpacesDigitsEnd rest
    | none => false

/-- The function `isLikelyNumeric` of `src/main.js`. -/
def isLikelyNumeric (value : String) : Bool :=
  if value.data.isEmpty then false
  else
    let normalized := replaceChar ',' '.' (removeChar '.' value.data)
    if normalized.isEmpty then false else (charsToNumber normalized).isFinite

/-- One step of `new Set(values)`: a value already present is not added again. -/
def setInsert (seen : List String) (x : String) : List String :=
  if seen.contains x then seen else seen ++ [x]

/-- The size `new Set(values).size`. -/
def setSize (xs : List String) : Nat := (xs.foldl setInsert []).length

/-- The three counters of the `forEach` in `findHeaderRow`. -/
structure CellCounts where
  stringCount : Nat
  numericLikeCount : Nat
  genericCount : Nat
  deriving DecidableEq

/-- The body of the `forEach` over the filled cells in `findHeaderRow`. -/
def countCell (acc : CellCounts) (value : String) : CellCounts :=
  let acc :=
    if GENERIC_HEADER_PATTERN value then { acc with genericCount := acc.genericCount + 1 }
    else acc
  if isLikelyNumeric value then { acc with numericLikeCount := acc.numericLikeCount + 1 }
  else { acc with stringCount := acc.stringCount + 1 }

/-- The array `filled` of `findHeaderRow`: the trimmed string forms of the cells, blanks
dropped. -/
def filledCells (h : Host) (row : List Cell) : List String :=
  let normalized := row.map fun cell =>
    match cell with
    | .null => ""
    | .undefined => ""
    | c => jsTrim (cellToString h c)
  normalized.filter fun s => !s.data.isEmpty

/-- The score `findHeaderRow` gives a row; `none` for a row it skips (fewer than two filled
cells). -/
def rowScore (h : Host) (row : List Cell) : Option ℚ :=
  let filled := filledCells h row
  if filled.length < 2 then none
  else
    let c := filled.foldl countCell ⟨0, 0, 0⟩
    let uniquenessPenalty : ℚ := (filled.length : ℚ) - (setSize (filled.map h.toLowerCase) : ℚ)
    some ((c.stringCount : ℚ) * 2 - (c.numericLikeCount : ℚ) * (3 / 2) - (c.genericCount : ℚ) * 3
      - uniquenessPenalty + (filled.length : ℚ))

/-- The comparison `score > bestScore`, where `none` is the initial `-Infinity`. -/
def beatsBest (score : ℚ) : Option ℚ → Bool
  | none => true
  | some best => decide (best < score)

/-- The `for` loop of `findHeaderRow` over the inspected rows, `i` the index of the first
of them; the state is `(bestIndex, bestScore)`. -/
def findHeaderRowLoop (h : Host) : List (List Cell) → Nat → Nat × Option ℚ → Nat × Option ℚ
  | [], _, best => best
  | row :: rest, i, best =>
    match rowScore h row with
    | none => findHeaderRowLoop h rest (i + 1) best
    | some score =>
      if beatsBest score best.2 then findHeaderRowLoop h rest (i + 1) (i, some score)
      else findHeaderRowLoop h rest (i + 1) best

/-- The function `findHeaderRow` of `src/main.js`. -/
def findHeaderRow (h : Host) (data : List (List Cell)) : Nat :=
  let inspectLimit := min data.length 30
  (findHeaderRowLoop h (data.take inspectLimit) 0 (0, none)).1

/-- The function `sanitizeHeaderName` of `src/main.js`. -/
def sanitizeHeaderName (h : Host) (value : Cell) (index : Nat) : String :=
  match value with
  | .null => "Coluna " ++ toString (index + 1)
  | .undefined => "Coluna " ++ toString (index + 1)
  | v =>
    let text := jsTrim (cellToString h v)
    if text.data.isEmpty || GENERIC_HEADER_PATTERN text then "Coluna " ++ toString (index + 1)
    else text

/-! ## Normalised header names -/

/-- The canonical decompositions that matter to `normalizeKey`: every code point outside
U+0300..U+036F whose decomposition holds an ASCII letter or digit (Unicode 14). -/
def nfdTable : List (Nat × List Nat) := [
  (192, [65, 768]), (193, [65, 769]), (194, [65, 770]), (195, [65, 771]), (196, [65, 776]),
  (197, [65, 778]), (199, [67, 807]), (200, [69, 768]), (201, [69, 769]), (202, [69, 770]),
  (203, [69, 776]), (204, [73, 768]), (205, [73, 769]), (206, [73, 770]), (207, [73, 776]),
  (209, [78, 771]), (210, [79, 768]), (211, [79, 769]), (212, [79, 770]), (213, [79, 771]),
  (214, [79, 776]), (217, [85, 768]), (218, [85, 769]), (219, [85, 770]), (220, [85, 776]),
  (221, [89, 769]), (224, [97, 768]), (225, [97, 769]), (226, [97, 770]), (227, [97, 771]),
  (228, [97, 776]), (229, [97, 778]), (231, [99, 807]), (232, [101, 768]), (233, [101, 769]),
  (234, [101, 770]), (235, [101, 776]), (236, [105, 768]), (237, [105, 769]), (238, [105, 770]),
  (239, [105, 776]), (241, [110, 771]), (242, [111, 768]), (243, [111, 769]), (244, [111, 770]),
  (245, [111, 771]), (246, [111, 776]), (249, [117, 768]), (250, [117, 769]), (251, [117, 770]),
  (252, [117, 776]), (253, [121, 769]), (255, [121, 776]), (256, [65, 772]), (257, [97, 772]),
  (258, [65, 774]), (259, [97, 774]), (260, [65, 808]), (261, [97, 808]), (262, [67, 769]),
  (263, [99, 769]), (264, [67, 770]), (265, [99, 770]), (266, [67, 775]), (267, [99, 775]),
  (268, [67, 780]), (269, [99, 780]), (270, [68, 780]), (271, [100, 780]), (274, [69, 772]),
  (275, [101, 772]), (276, [69, 774]), (277, [101, 774]), (278, [69, 775]), (279, [101, 775]),
  (280, [69, 808]), (281, [101, 808]), (282, [69, 780]), (283, [101, 780]), (284, [71, 770]),
  (285, [103, 770]), (286, [71, 774]), (287, [103, 774]), (288, [71, 775]), (289, [103, 775]),
  (290, [71, 807]), (291, [103, 807]), (292, [72, 770]), (293, [104, 770]), (296, [73, 771]),
  (297, [105, 771]), (298, [73, 772]), (299, [105, 772]), (300, [73, 774]), (301, [105, 774]),
  (302, [73, 808]), (303, [105, 808]), (304, [73, 775]), (308, [74, 770]), (309, [106, 770]),
  (310, [75, 807]), (311, [107, 807]), (313, [76, 769]), (314, [108, 769]), (315, [76, 807]),
  (316, [108, 807]), (317, [76, 780]), (318, [108, 780]), (323, [78, 769]), (324, [110, 769]),
  (325, [78, 807]), (326, [110, 807]), (327, [78, 780]), (328, [110, 780]), (332, [79, 772]),
  (333, [111, 772]), (334, [79, 774]), (335, [111, 774]), (336, [79, 779]), (337, [111, 779]),
  (340, [82, 769]), (341, [114, 769]), (342, [82, 807]), (343, [114, 807]), (344, [82, 780]),
  (345, [114, 780]), (346, [83, 769]), (347, [115, 769]), (348, [83, 770]), (349, [115, 770]),
  (350, [83, 807]), (351, [115, 807]), (352, [83, 780]), (353, [115, 780]), (354, [84, 807]),
  (355, [116, 807]), (356, [84, 780]), (357, [116, 780]), (360, [85, 771]), (361, [117, 771]),
  (362, [85, 772]), (363, [117, 772]), (364, [85, 774]), (365, [117, 774]), (366, [85, 778]),
  (367, [117, 778]), (368, [85, 779]), (369, [117, 779]), (370, [85, 808]), (371, [117, 808]),
  (372, [87, 770]), (373, [119, 770]), (374, [89, 770]), (375, [121, 770]), (376, [89, 776]),
  (377, [90, 769]), (378, [122, 769]), (379, [90, 775]), (380, [122, 775]), (381, [90, 780]),
  (382, [122, 780]), (416, [79, 795]), (417, [111, 795]), (431, [85, 795]), (432, [117, 795]),
  (461, [65, 780]), (462, [97, 780]), (463, [73, 780]), (464, [105, 780]), (465, [79, 780]),
  (466, [111, 780]), (467, [85, 780]), (468, [117, 780]), (469, [85, 776, 772]),
  (470, [117, 776, 772]), (471, [85, 776, 769]), (472, [117, 776, 769]), (473, [85, 776, 780]),
  (474, [117, 776, 780]), (475, [85, 776, 768]), (476, [117, 776, 768]), (478, [65, 776, 772]),
  (479, [97, 776, 772]), (480, [65, 775, 772]), (481, [97, 775, 772]), (486, [71, 780]),
  (487, [103, 780]), (488, [75, 780]), (489, [107, 780]), (490, [79, 808]), (491, [111, 808]),
  (492, [79, 808, 772]), (493, [111, 808, 772]), (496, [106, 780]), (500, [71, 769]),
  (501, [103, 769]), (504, [78, 768]), (505, [110, 768]), (506, [65, 778, 769]),
  (507, [97, 778, 769]), (512, [65, 783]), (513, [97, 783]), (514, [65, 785]), (515, [97, 785]),
  (516, [69, 783]), (517, [101, 783]), (518, [69, 785]), (519, [101, 785]), (520, [73, 783]),
  (521, [105, 783]), (522, [73, 785]), (523, [105, 785]), (524, [79, 783]), (525, [111, 783]),
  (526, [79, 785]), (527, [111, 785]), (528, [82, 783]), (529, [114, 783]), (530, [82, 785]),
  (531, [114, 785]), (532, [85, 783]), (533, [117, 783]), (534, [85, 785]), (535, [117, 785]),
  (536, [83, 806]), (537, [115, 806]), (538, [84, 806]), (539, [116, 806]), (542, [72, 780]),
  (543, [104, 780]), (550, [65, 775]), (551, [97, 775]), (552, [69, 807]), (553, [101, 807]),
  (554, [79, 776, 772]), (555, [111, 776, 772]), (556, [79, 771, 772]), (557, [111, 771, 772]),
  (558, [79, 775]), (559, [111, 775]), (560, [79, 775, 772]), (561, [111, 775, 772]),
  (562, [89, 772]), (563, [121, 772]), (7680, [65, 805]), (7681, [97, 805]), (7682, [66, 775]),
  (7683, [98, 775]), (7684, [66, 803]), (7685, [98, 803]), (7686, [66, 817]), (7687, [98, 817]),
  (7688, [67, 807, 769]), (7689, [99, 807, 769]), (7690, [68, 775]), (7691, [100, 775]),
  (7692, [68, 803]), (7693, [100, 803]), (7694, [68, 817]), (7695, [100, 817]),
  (7696, [68, 807]), (7697, [100, 807]), (7698, [68, 813]), (7699, [100, 813]),
  (7700, [69, 772, 768]), (7701, [101, 772, 768]), (7702, [69, 772, 769]),
  (7703, [101, 772, 769]), (7704, [69, 813]), (7705, [101, 813]), (7706, [69, 816]),
  (7707, [101, 816]), (7708, [69, 807, 774]), (7709, [101, 807, 774]), (7710, [70, 775]),
  (7711, [102, 775]), (7712, [71, 772]), (7713, [103, 772]), (7714, [72, 775]),
  (7715, [104, 775]), (7716, [72, 803]), (7717, [104, 803]), (7718, [72, 776]),
  (7719, [104, 776]), (7720, [72, 807]), (7721, [104, 807]), (7722, [72, 814]),
  (7723, [104, 814]), (7724, [73, 816]), (7725, [105, 816]), (7726, [73, 776, 769]),
  (7727, [105, 776, 769]), (7728, [75, 769]), (7729, [107, 769]), (7730, [75, 803]),
  (7731, [107, 803]), (7732, [75, 817]), (7733, [107, 817]), (7734, [76, 803]),
  (7735, [108, 803]), (7736, [76, 803, 772]), (7737, [108, 803, 772]), (7738, [76, 817]),
  (7739, [108, 817]), (7740, [76, 813]), (7741, [108, 813]), (7742, [77, 769]),
  (7743, [109, 769]), (7744, [77, 775]), (7745, [109, 775]), (7746, [77, 803]),
  (7747, [109, 803]), (7748, [78, 775]), (7749, [110, 775]), (7750, [78, 803]),
  (7751, [110, 803]), (7752, [78, 817]), (7753, [110, 817]), (7754, [78, 813]),
  (7755, [110, 813]), (7756, [79, 771, 769]), (7757, [111, 771, 769]), (7758, [79, 771, 776]),
  (7759, [111, 771, 776]), (7760, [79, 772, 768]), (7761, [111, 772, 768]),
  (7762, [79, 772, 769]), (7763, [111, 772, 769]), (7764, [80, 769]), (7765, [112, 769]),
  (7766, [80, 775]), (7767, [112, 775]), (7768, [82, 775]), (7769, [114, 775]),
  (7770, [82, 803]), (7771, [114, 803]), (7772, [82, 803, 772]), (7773, [114, 803, 772]),
  (7774, [82, 817]), (7775, [114, 817]), (7776, [83, 775]), (7777, [115, 775]),
  (7778, [83, 803]), (7779, [115, 803]), (7780, [83, 769, 775]), (7781, [115, 769, 775]),
  (7782, [83, 780, 775]), (7783, [115, 780, 775]), (7784, [83, 803, 775]),
  (7785, [115, 803, 775]), (7786, [84, 775]), (7787, [116, 775]), (7788, [84, 803]),
  (7789, [116, 803]), (7790, [84, 817]), (7791, [116, 817]), (7792, [84, 813]),
  (7793, [116, 813]), (7794, [85, 804]), (7795, [117, 804]), (7796, [85, 816]),
  (7797, [117, 816]), (7798, [85, 813]), (7799, [117, 813]), (7800, [85, 771, 769]),
  (7801, [117, 771, 769]), (7802, [85, 772, 776]), (7803, [117, 772, 776]), (7804, [86, 771]),
  (7805, [118, 771]), (7806, [86, 803]), (7807, [118, 803]), (7808, [87, 768]),
  (7809, [119, 768]), (7810, [87, 769]), (7811, [119, 769]), (7812, [87, 776]),
  (7813, [119, 776]), (7814, [87, 775]), (7815, [119, 775]), (7816, [87, 803]),
  (7817, [119, 803]), (7818, [88, 775]), (7819, [120, 775]), (7820, [88, 776]),
  (7821, [120, 776]), (7822, [89, 775]), (7823, [121, 775]), (7824, [90, 770]),
  (7825, [122, 770]), (7826, [90, 803]), (7827, [122, 803]), (7828, [90, 817]),
  (7829, [122, 817]), (7830, [104, 817]), (7831, [116, 776]), (7832, [119, 778]),
  (7833, [121, 778]), (7840, [65, 803]), (7841, [97, 803]), (7842, [65, 777]), (7843, [97, 777]),
  (7844, [65, 770, 769]), (7845, [97, 770, 769]), (7846, [65, 770, 768]), (7847, [97, 770, 768]),
  (7848, [65, 770, 777]), (7849, [97, 770, 777]), (7850, [65, 770, 771]), (7851, [97, 770, 771]),
  (7852, [65, 803, 770]), (7853, [97, 803, 770]), (7854, [65, 774, 769]), (7855, [97, 774, 769]),
  (7856, [65, 774, 768]), (7857, [97, 774, 768]), (7858, [65, 774, 777]), (7859, [97, 774, 777]),
  (7860, [65, 774, 771]), (7861, [97, 774, 771]), (7862, [65, 803, 774]), (7863, [97, 803, 774]),
  (7864, [69, 803]), (7865, [101, 803]), (7866, [69, 777]), (7867, [101, 777]),
  (7868, [69, 771]), (7869, [101, 771]), (7870, [69, 770, 769]), (7871, [101, 770, 769]),
  (7872, [69, 770, 768]), (7873, [101, 770, 768]), (7874, [69, 770, 777]),
  (7875, [101, 770, 777]), (7876, [69, 770, 771]), (7877, [101, 770, 771]),
  (7878, [69, 803, 770]), (7879, [101, 803, 770]), (7880, [73, 777]), (7881, [105, 777]),
  (7882, [73, 803]), (7883, [105, 803]), (7884, [79, 803]), (7885, [111, 803]),
  (7886, [79, 777]), (7887, [111, 777]), (7888, [79, 770, 769]), (7889, [111, 770, 769]),
  (7890, [79, 770, 768]), (7891, [111, 770, 768]), (7892, [79, 770, 777]),
  (7893, [111, 770, 777]), (7894, [79, 770, 771]), (7895, [111, 770, 771]),
  (7896, [79, 803, 770]), (7897, [111, 803, 770]), (7898, [79, 795, 769]),
  (7899, [111, 795, 769]), (7900, [79, 795, 768]), (7901, [111, 795, 768]),
  (7902, [79, 795, 777]), (7903, [111, 795, 777]), (7904, [79, 795, 771]),
  (7905, [111, 795, 771]), (7906, [79, 795, 803]), (7907, [111, 795, 803]), (7908, [85, 803]),
  (7909, [117, 803]), (7910, [85, 777]), (7911, [117, 777]), (7912, [85, 795, 769]),
  (7913, [117, 795, 769]), (7914, [85, 795, 768]), (7915, [117, 795, 768]),
  (7916, [85, 795, 777]), (7917, [117, 795, 777]), (7918, [85, 795, 771]),
  (7919, [117, 795, 771]), (7920, [85, 795, 803]), (7921, [117, 795, 803]), (7922, [89, 768]),
  (7923, [121, 768]), (7924, [89, 803]), (7925, [121, 803]), (7926, [89, 777]),
  (7927, [121, 777]), (7928, [89, 771]), (7929, [121, 771]), (8490, [75]), (8491, [65, 778])]

/-- The canonical decomposition of one character.  Canonical reordering of marks and the
decompositions without an ASCII letter are left out: the two replacements after
`normalize("NFD")` in `normalizeKey` erase their effect. -/
def nfdChar (c : Char) : List Char :=
  match nfdTable.lookup c.toNat with
  | some ds => ds.map Char.ofNat
  | none => [c]

/-- The class `[̀-ͯ]`. -/
def isCombiningMark (c : Char) : Bool := 0x300 ≤ c.toNat && c.toNat ≤ 0x36F

/-- The class `[a-zA-Z0-9]`. -/
def isAsciiAlnum (c : Char) : Bool :=
  let n := c.toNat
  (97 ≤ n && n ≤ 122) || (65 ≤ n && n ≤ 90) || (48 ≤ n && n ≤ 57)

/-- The call `s.replace(/[^a-zA-Z0-9]+/g, " ")`; `inRun` says the previous character was
already replaced. -/
def collapseNonAlnum : Bool → List Char → List Char
  | _, [] => []
  | inRun, c :: cs =>
    if isAsciiAlnum c then c :: collapseNonAlnum false cs
    else if inRun then collapseNonAlnum true cs
    else ' ' :: collapseNonAlnum true cs

/-- The function `normalizeKey` of `src/main.js`.  Its final `toLowerCase` runs on ASCII
letters, digits and spaces only, where it is ASCII lower-casing. -/
def normalizeKey (text : String) : String :=
  if text.data.isEmpty then ""
  else
    let s := (text.data.map nfdChar).flatten
    let s := s.filter fun c => !isCombiningMark c
    let s := collapseNonAlnum false s
    ⟨(trimChars s).map asciiLowerChar⟩

/-! ## Column types -/

/-- The three column types. -/
inductive ColumnType where
  | string
  | number
  | date
  deriving DecidableEq

/-- An object used as a map from strings: the bindings, latest first. -/
abbrev JSObject (α : Type) := List (String × α)

/-- The read `o[k]`; `none` is `undefined`. -/
def JSObject.get {α : Type} (o : JSObject α) (k : String) : Option α := List.lookup k o

/-- The write `o[k] = v`. -/
def JSObject.set {α : Type} (o : JSObject α) (k : String) (v : α) : JSObject α := (k, v) :: o

/-- The entries `TYPE_OVERRIDES` is built from, as the source lists them. -/
def typeOverrideEntries : List (String × ColumnType) := [
  ("N° NF", .string), ("Nº NF", .string), ("Numero NF", .string), ("Número NF", .string),
  ("Série", .string), ("Serie", .string), ("CNPJ Emitente", .string),
  ("CNPJ EMITENTE", .string), ("CNPJ Destinatário", .string), ("CNPJ DESTINATÁRIO", .string),
  ("CNPJ Destinatario", .string), ("CNPJ DESTINATARIO", .string),
  ("Chave de Acesso", .string), ("Chave de acesso", .string), ("Valor do Produto", .number),
  ("Valor Total NF", .number), ("Valor Produtos", .number)]

/-- The map `TYPE_OVERRIDES`: `new Map` of the entries keyed by `normalizeKey`, a later entry
replacing an earlier one with the same key. -/
def TYPE_OVERRIDES : JSObject ColumnType :=
  typeOverrideEntries.foldl (fun m e => m.set (normalizeKey e.1) e.2) []

/-- The read `row[i]`. -/
def cellAt (row : List Cell) (i : Nat) : Cell := row.getD i .undefined

/-- The global `isFinite(value)`, which converts its argument to a number first. -/
def globalIsFinite : Cell → Bool
  | .undefined => false
  | .null => true
  | .str s => (stringToNumber s).isFinite
  | .num _ => true

/-- The test that raises `dateCount` in `detectColumnTypes`. -/
def countsAsDate (h : Host) : Cell → Bool
  | .num x => (h.parse_date_code x).isSome
  | .str s => (h.dateFromString s).isSome
  | _ => false

/-- The type `detectColumnTypes` decides for one column, from its rows. -/
def detectColumnType (h : Host) (rows : List (List Cell)) (columnIndex : Nat) : ColumnType :=
  let columnValues := (rows.map fun row => cellAt row columnIndex).filter fun value =>
    value != Cell.null && value != Cell.str ""
  let numericCount := (columnValues.filter globalIsFinite).length
  let dateCount := (columnValues.filter (countsAsDate h)).length
  if dateCount ≥ numericCount && dateCount > 0 then .date
  else if numericCount > 0 then .number
  else .string

/-- The function `detectColumnTypes` of `src/main.js`. -/
def detectColumnTypes (h : Host) (headers : List String) (rows : List (List Cell)) :
    JSObject ColumnType :=
  headers.enum.foldl (fun types p => types.set p.2 (detectColumnType h rows p.1)) []

/-- The function `applyTypeOverrides` of `src/main.js`; it returns the updated `types`. -/
def applyTypeOverrides (headers : List String) (types : JSObject ColumnType) :
    JSObject ColumnType :=
  headers.foldl (fun types header =>
    match TYPE_OVERRIDES.get (normalizeKey header) with
    | some override => types.set header override
    | none => types) types

/-! ## Row normalisation -/

/-- A value of a typed record.  A date is the time value of a valid `Date` object. -/
inductive Value where
  | null
  | str (s : String)
  | num (x : ℚ)
  | date (t : Int)
  deriving DecidableEq

/-- A typed record: the object `entry` that `normalizeRows` builds for a row. -/
abbrev Record := JSObject Value

/-- The time value of `new Date(x)` for a finite number: truncated, invalid beyond
8.64e15 milliseconds. -/
def dateFromNumber (x : ℚ) : Option Int :=
  if x < -8640000000000000 ∨ 8640000000000000 < x then none
  else some (if 0 ≤ x then Rat.floor x else -Rat.floor (-x))

/-- The date parser inside `normalizeRows`: the serial decoded by the library when the cell
is a number, else `new Date(value)`; `none` is the `null` stored for an invalid date. -/
def parseDateCell (h : Host) (value : Cell) : Option Int :=
  let date : Option Int :=
    match value with
    | .num x => (h.parse_date_code x).map h.dateFromCode
    | _ => none
  match date with
  | some t => some t
  | none =>
    match value with
    | .num x => dateFromNumber x
    | .str s => h.dateFromString s
    | _ => none

/-- The body of the inner `forEach` of `normalizeRows`: the value stored for one cell under
the type `types[header]`. -/
def normalizeCell (h : Host) (type : Option ColumnType) (value : Cell) : Value :=
  if value = .undefined ∨ value = .null ∨ value = .str "" then .null
  else
    match type with
    | some .number =>
      match parseNumber value with
      | .fin x => .num x
      | _ => .null
    | some .date =>
      match parseDateCell h value with
      | some t => .date t
      | none => .null
    | _ => .str (jsTrim (cellToString h value))

/-- The record `normalizeRows` builds for one row. -/
def normalizeRow (h : Host) (headers : List String) (types : JSObject ColumnType)
    (row : List Cell) : Record :=
  headers.enum.foldl
    (fun entry p => entry.set p.2 (normalizeCell h (types.get p.2) (cellAt row p.1))) []

/-- The function `normalizeRows` of `src/main.js`. -/
def normalizeRows (h : Host) (headers : List String) (rows : List (List Cell))
    (types : JSObject ColumnType) : List Record :=
  rows.map (normalizeRow h headers types)

/-! ## Loading a workbook -/

/-- The part of `state` the pipeline fills on load. -/
structure State where
  rawRows : List Record
  headers : List String
  types : JSObject ColumnType
  deriving DecidableEq

/-- The function `processWorkbook` of `src/main.js` from the decoded matrix `data` on;
`none` is a thrown error, the new state otherwise. -/
def processWorkbook (h : Host) (data : List (List Cell)) : Option State :=
  if data.isEmpty then none
  else
    let headerRowIndex := findHeaderRow h data
    let headerRow := data.getD headerRowIndex []
    let headers := headerRow.enum.map fun p => sanitizeHeaderName h p.2 p.1
    let rowsMatrix := (data.drop (headerRowIndex + 1)).filter fun row =>
      row.any fun cell => cell != Cell.null && cell != Cell.str ""
    if rowsMatrix.isEmpty then none
    else
      let types := applyTypeOverrides headers (detectColumnTypes h headers rowsMatrix)
      some { rawRows := normalizeRows h headers rowsMatrix types, headers := headers,
             types := types }

/-! ## Filters -/

/-- A `Date` object by its time value; `none` is an invalid date. -/
abbrev JSDate := Option Int

/-- The object `collectFilters` returns; `none` in a field is `null`. -/
structure FilterSpec where
  categoryField : Option String
  valueField : Option String
  dateField : Option String
  categoryQuery : String
  startDate : Option JSDate
  endDate : Option JSDate
  deriving DecidableEq

/-- A field name used as a condition: `null` and the empty string are falsy. -/
def truthyField (f : Option String) : Option String :=
  f.filter fun s => !s.data.isEmpty

/-- The array `EMISSION_CANDIDATE_KEYS`. -/
def EMISSION_CANDIDATE_KEYS : List String :=
  ["Data Emissão", "Data emissão", "Data de emissão", "Emissão"].map normalizeKey

/-- The function `getEmissionField` of `src/main.js`, on `state.headers`. -/
def getEmissionField (headers : List String) : Option String :=
  truthyField (headers.find? fun header => EMISSION_CANDIDATE_KEYS.contains (normalizeKey header))

/-- The function `getTimelineDateField` of `src/main.js`, on `state.headers` and
`state.types`. -/
def getTimelineDateField (headers : List String) (types : JSObject ColumnType) :
    Option String :=
  match getEmissionField headers with
  | some emissionField => some emissionField
  | none => truthyField (headers.find? fun header => types.get header == some ColumnType.date)

/-- The constant `DEFAULT_METRIC_KEY`. -/
def DEFAULT_METRIC_KEY : String := normalizeKey "Valor Total NF"

/-- The function `getDefaultMetricField` of `src/main.js`. -/
def getDefaultMetricField (headers : List String) : Option String :=
  truthyField (headers.find? fun header => normalizeKey header == DEFAULT_METRIC_KEY)

/-- The options `populateControls` puts in the category select: the headers matching the
preferred names when there is one, whatever their type, the headers typed `string`
otherwise. -/
def categoryOptions (headers : List String) (types : JSObject ColumnType) : List String :=
  let preferredCategoryOptions :=
    ["Nome Emitente", "CNPJ Emitente", "Nome Destinatario"].filterMap fun name =>
      truthyField (headers.find? fun header => normalizeKey header == normalizeKey name)
  if preferredCategoryOptions.length ≠ 0 then preferredCategoryOptions
  else headers.filter fun header => types.get header == some .string

/-- The values of the five controls `collectFilters` reads. -/
structure Controls where
  categorySelect : String
  valueSelect : String
  categoryFilter : String
  startDate : String
  endDate : String

/-- The function `collectFilters` of `src/main.js`. -/
def collectFilters (h : Host) (st : State) (c : Controls) : FilterSpec :=
  { categoryField := truthyField (some c.categorySelect)
    valueField :=
      if c.valueSelect.data.isEmpty then getDefaultMetricField st.headers
      else some c.valueSelect
    categoryQuery := h.toLowerCase (jsTrim c.categoryFilter)
    startDate := if c.startDate.data.isEmpty then none else some (h.dateFromString c.startDate)
    endDate := if c.endDate.data.isEmpty then none else some (h.dateFromString c.endDate)
    dateField := getTimelineDateField st.headers st.types }

/-- The method `String.prototype.includes` on lists of characters. -/
def includesChars : List Char → List Char → Bool
  | [], pat => pat.isEmpty
  | c :: cs, pat => (dropLeading pat (c :: cs)).isSome || includesChars cs pat

/-- The category test of `applyFilters` on one record: `some false` is its `return false`,
`none` the TypeError of calling `toLowerCase` on a value that is not a string. -/
def categoryCheck (h : Host) (filters : FilterSpec) (row : Record) : Option Bool :=
  match truthyField filters.categoryField with
  | none => some true
  | some field =>
    if filters.categoryQuery.data.isEmpty then some true
    else
      match row.get field with
      | none => some false
      | some .null => some false
      | some (.str s) =>
        if s.data.isEmpty then some false
        else some (includesChars (h.toLowerCase s).data filters.categoryQuery.data)
      | some (.num x) => if x = 0 then some false else none
      | some (.date _) => none

/-- The date test of `applyFilters` on one record. -/
def dateCheck (h : Host) (headers : List String) (filters : FilterSpec) (row : Record) : Bool :=
  match getEmissionField headers with
  | none => true
  | some emissionField =>
    if filters.startDate.isSome || filters.endDate.isSome then
      match row.get emissionField with
      | some (.date d) =>
        let beforeStart : Bool :=
          match filters.startDate with
          | some (some s) => decide (d < s)
          | _ => false
        let afterEnd : Bool :=
          match filters.endDate with
          | some (some e) => decide (h.endOfDay e < d)
          | _ => false
        !beforeStart && !afterEnd
      | _ => false
    else true

/-- The callback of `rows.filter` in `applyFilters`. -/
def rowPasses (h : Host) (headers : List String) (filters : FilterSpec) (row : Record) :
    Option Bool :=
  match categoryCheck h filters row with
  | none => none
  | some false => some false
  | some true => some (dateCheck h headers filters row)

/-- The method `Array.prototype.filter` with a callback that may throw. -/
def filterThrowing {α : Type} (p : α → Option Bool) : List α → Option (List α)
  | [] => some []
  | x :: xs =>
    match p x with
    | none => none
    | some keep =>
      match filterThrowing p xs with
      | none => none
      | some ys => some (if keep then x :: ys else ys)

/-- The function `applyFilters` of `src/main.js`, on `state.headers`; `none` is a thrown
TypeError. -/
def applyFilters (h : Host) (headers : List String) (rows : List Record)
    (filters : FilterSpec) : Option (List Record) :=
  filterThrowing (rowPasses h headers filters) rows

/-! ## Summary and aggregation -/

/-- The operand `row[valueField] ?? 0` as a number; `none` for a string or a date, which
turn the `+` into string concatenation. -/
def valueOrZero : Option Value → Option JSNumber
  | none => some (.fin 0)
  | some .null => some (.fin 0)
  | some (.num x) => some (.fin x)
  | some (.str _) => none
  | some (.date _) => none

/-- The operator `+` on an accumulator and an operand: the binary64 sum of two numbers;
`none` is a result that is not a number (a string), and stays so. -/
def jsAdd (acc operand : Option JSNumber) : Option JSNumber :=
  match acc, operand with
  | some a, some b => some (a.add b)
  | _, _ => none

/-- What `formatNumber` shows of a value: the number when `Number.isFinite` holds, `none`
for the dash. -/
def finiteNumber : Option JSNumber → Option ℚ
  | some (.fin q) => some q
  | _ => none

/-- What `updateSummary` shows: the count, and the sum and average, `none` where the text
is the dash (no value field, or a sum that is not a finite number). -/
structure Summary where
  count : Nat
  sum : Option ℚ
  average : Option ℚ
  deriving DecidableEq

/-- The function `updateSummary` of `src/main.js`, before the numbers are formatted. -/
def updateSummary (rows : List Record) (valueField : Option String) : Summary :=
  match truthyField valueField with
  | some field =>
    let sum :=
      rows.foldl (fun acc row => jsAdd acc (valueOrZero (row.get field))) (some (.fin 0))
    let average : Option JSNumber :=
      if rows.length ≠ 0 then sum.map fun s => s.div rows.length else some (.fin 0)
    { count := rows.length, sum := finiteNumber sum, average := finiteNumber average }
  | none => { count := rows.length, sum := none, average := none }

/-- The object kept per key in the `aggregation` maps. -/
structure Bucket where
  total : Option JSNumber
  count : Nat
  deriving DecidableEq

/-- Key equality of `Map` (SameValueZero).  Two `Date` keys are never the same key: every
record holds `Date` objects of its own. -/
def sameValueZero : Value → Value → Bool
  | .null, .null => true
  | .str a, .str b => a == b
  | .num a, .num b => a == b
  | _, _ => false

/-- A `Map` with values as keys: its entries in insertion order. -/
abbrev JSMap := List (Value × Bucket)

/-- The method `Map.prototype.get`. -/
def JSMap.get (m : JSMap) (key : Value) : Option Bucket :=
  (m.find? fun e => sameValueZero e.1 key).map fun e => e.2

/-- The method `Map.prototype.set`: an existing key keeps its place. -/
def JSMap.set : JSMap → Value → Bucket → JSMap
  | [], key, b => [(key, b)]
  | e :: rest, key, b =>
    if sameValueZero e.1 key then (e.1, b) :: rest else e :: JSMap.set rest key b

/-- The key `row[field] || "(Sem valor)"`. -/
def categoryKey (row : Record) (field : String) : Value :=
  match row.get field with
  | none => .str "(Sem valor)"
  | some .null => .str "(Sem valor)"
  | some (.str s) => if s.data.isEmpty then .str "(Sem valor)" else .str s
  | some (.num x) => if x = 0 then .str "(Sem valor)" else .num x
  | some (.date t) => .date t

/-- The operand `valueField ? row[valueField] ?? 0 : 1`. -/
def metricOperand (valueField : Option String) (row : Record) : Option JSNumber :=
  match truthyField valueField with
  | some field => valueOrZero (row.get field)
  | none => some (.fin 1)

/-- The body of the `forEach` that fills `aggregation`, in `updateCategoryChart` and in the
fallback branch of `updateTimelineChart` alike. -/
def aggregateStep (field : String) (valueField : Option String) (aggregation : JSMap)
    (row : Record) : JSMap :=
  let key := categoryKey row field
  let current := (aggregation.get key).getD { total := some (.fin 0), count := 0 }
  let current : Bucket :=
    { total := jsAdd current.total (metricOperand valueField row), count := current.count + 1 }
  aggregation.set key current

/-- The map `aggregation` after the `forEach` over the rows. -/
def aggregateByField (field : String) (valueField : Option String) (rows : List Record) :
    JSMap :=
  rows.foldl (aggregateStep field valueField) []

/-- The number a bucket contributes to a chart: `valueField ? total : count`. -/
def bucketMetric (valueField : Option String) (b : Bucket) : Option JSNumber :=
  match truthyField valueField with
  | some _ => b.total
  | none => some (.fin (b.count : ℚ))

/-- The function `updateCategoryChart` of `src/main.js`: the `labels` and `data` of the chart
it renders, paired. -/
def updateCategoryChart (rows : List Record) (filters : FilterSpec) :
    List (Value × Option JSNumber) :=
  match truthyField filters.categoryField with
  | none => []
  | some categoryField =>
    let aggregation := aggregateByField categoryField filters.valueField rows
    aggregation.map fun e => (e.1, bucketMetric filters.valueField e.2)

/-- The field `fallbackField` of `updateTimelineChart`. -/
def timelineFallbackField (st : State) (filters : FilterSpec) : Option String :=
  match truthyField filters.categoryField with
  | some categoryField => some categoryField
  | none => truthyField (st.headers.find? fun header => st.types.get header == some .string)

/-- The map `aggregation` of the branch of `updateTimelineChart` without a date field;
`none` when that branch is not taken or has no field to group by. -/
def timelineFallbackAggregation (st : State) (rows : List Record) (filters : FilterSpec) :
    Option JSMap :=
  match truthyField filters.dateField with
  | some _ => none
  | none =>
    match timelineFallbackField st filters with
    | none => none
    | some fallbackField => some (aggregateByField fallbackField filters.valueField rows)

/-! ## The timeline chart -/

/-- The constant `FALLBACK_CATEGORY_LIMIT`. -/
def FALLBACK_CATEGORY_LIMIT : Nat := 12

/-- Whether the comparator `(a, b) => bValue - aValue` leaves `a` before `b`: it does unless
the difference is positive, which it is exactly when `aValue < bValue` (the difference of two
binary64 numbers that differ does not round to zero); a difference that is not a number
counts as zero. -/
def keepsBefore (aValue bValue : Option JSNumber) : Bool :=
  match aValue, bValue with
  | some a, some b => !(a.lt b)
  | _, _ => true

/-- One insertion of the stable sort: `a`, which came before every element of the sorted
list, goes in front of the first element the comparator does not put before it. -/
def insertDescending {α : Type} (value : α → Option JSNumber) (a : α) : List α → List α
  | [] => [a]
  | b :: rest =>
    if keepsBefore (value a) (value b) then a :: b :: rest
    else b :: insertDescending value a rest

/-- The method `Array.prototype.sort` with the comparator `(a, b) => bValue - aValue`: the
stable sort the language prescribes (ECMAScript 2019), by insertion from the right. -/
def sortDescending {α : Type} (value : α → Option JSNumber) : List α → List α
  | [] => []
  | a :: rest => insertDescending value a (sortDescending value rest)

/-- The object kept per month in the `aggregation` map of `updateTimelineChart`; `date` is
the latest date met in the month. -/
structure MonthBucket where
  total : Option JSNumber
  count : Nat
  date : Int
  deriving DecidableEq

/-- A `Map` with strings as keys: its entries in insertion order. -/
abbrev MonthMap := List (String × MonthBucket)

/-- The method `Map.prototype.get` on string keys. -/
def MonthMap.get (m : MonthMap) (key : String) : Option MonthBucket :=
  (m.find? fun e => e.1 == key).map fun e => e.2

/-- The method `Map.prototype.set` on string keys: an existing key keeps its place. -/
def MonthMap.set : MonthMap → String → MonthBucket → MonthMap
  | [], key, b => [(key, b)]
  | e :: rest, key, b =>
    if e.1 == key then (e.1, b) :: rest else e :: MonthMap.set rest key b

/-- The method `padStart(2, "0")`. -/
def padStart2 (s : String) : String :=
  ⟨List.replicate (2 - s.data.length) '0' ++ s.data⟩

/-- The key of a date: year, a dash, and the month number padded to two digits. -/
def monthKey (h : Host) (date : Int) : String :=
  h.numberToString (h.getFullYear date) ++ "-" ++
    padStart2 (h.numberToString ((h.getMonth date : ℚ) + 1))

/-- The body of the `forEach` that fills `aggregation` by month in `updateTimelineChart`; a
record without a `Date` under the date field is passed over. -/
def monthStep (h : Host) (dateField : String) (valueField : Option String)
    (aggregation : MonthMap) (row : Record) : MonthMap :=
  match row.get dateField with
  | some (.date date) =>
    let key := monthKey h date
    let current := (aggregation.get key).getD { total := some (.fin 0), count := 0, date := date }
    let current : MonthBucket :=
      { total := jsAdd current.total (metricOperand valueField row)
        count := current.count + 1
        date := if current.date < date then date else current.date }
    aggregation.set key current
  | _ => aggregation

/-- The map `aggregation` of the month branch after the `forEach` over the rows. -/
def aggregateByMonth (h : Host) (dateField : String) (valueField : Option String)
    (rows : List Record) : MonthMap :=
  rows.foldl (monthStep h dateField valueField) []

/-- The function `formatTimelineLabel` of `src/main.js` on the date of a bucket, which is a
valid `Date`: its first branch. -/
def formatTimelineLabel (h : Host) (latestDate : Int) (_key : String) : String :=
  h.monthYearLabel latestDate

/-- An element of the array the month branch sorts. -/
structure TimelineEntry where
  key : String
  label : String
  value : Option JSNumber
  deriving DecidableEq

/-- The array `Array.from(aggregation.entries()).map(...)` of the month branch, before it
is sorted. -/
def monthEntries (h : Host) (valueField : Option String) (aggregation : MonthMap) :
    List TimelineEntry :=
  aggregation.map fun e =>
    { key := e.1
      label := formatTimelineLabel h e.2.date e.1
      value :=
        match truthyField valueField with
        | some _ => e.2.total
        | none => some (.fin (e.2.count : ℚ)) }

/-- The function `updateTimelineChart` of `src/main.js`: the `labels` and `data` of the chart
it renders, paired. -/
def updateTimelineChart (h : Host) (st : State) (rows : List Record) (filters : FilterSpec) :
    List (Value × Option JSNumber) :=
  match truthyField filters.dateField with
  | none =>
    match timelineFallbackField st filters with
    | none => []
    | some fallbackField =>
      let aggregation := aggregateByField fallbackField filters.valueField rows
      let sortedEntries :=
        sortDescending (fun e => bucketMetric filters.valueField e.2) aggregation
      let limitedEntries := sortedEntries.take FALLBACK_CATEGORY_LIMIT
      limitedEntries.map fun e => (e.1, bucketMetric filters.valueField e.2)
  | some dateField =>
    let aggregation := aggregateByMonth h dateField filters.valueField rows
    if aggregation.isEmpty then []
    else
      let sortedEntries :=
        sortDescending (fun e => e.value) (monthEntries h filters.valueField aggregation)
      let limitedEntries := sortedEntries.take FALLBACK_CATEGORY_LIMIT
      limitedEntries.map fun e => (Value.str e.label, e.value)

/-- What one pass of `updateAllVisuals` computes for the summary, the category chart and
the table. -/
structure Visuals where
  filteredRows : List Record
  summary : Summary
  categoryChart : List (Value × Option JSNumber)
  deriving DecidableEq

/-- The function `updateAllVisuals` of `src/main.js`; `none` is a thrown TypeError. -/
def updateAllVisuals (h : Host) (st : State) (c : Controls) : Option Visuals :=
  let filters := collectFilters h st c
  (applyFilters h st.headers st.rawRows filters).map fun filteredRows =>
    { filteredRows := filteredRows
      summary := updateSummary filteredRows filters.valueField
      categoryChart := updateCategoryChart filteredRows filters }

/-! ## A reference host

A concrete environment for the closed examples: UTC as the local time zone, ISO dates,
lower-casing of ASCII and Latin-1 letters, and the date-serial decoding of SheetJS. -/

/-- Days from 1970-01-01 to the civil date `y-m-d` (proleptic Gregorian); a day outside
the month counts on from its first day. -/
def daysFromCivil (y m d : Int) : Int :=
  let y := if m ≤ 2 then y - 1 else y
  let era := y / 400
  let yoe := y - era * 400
  let doy := (153 * (if m > 2 then m - 3 else m + 9) + 2) / 5 + d - 1
  let doe := yoe * 365 + yoe / 4 - yoe / 100 + doy
  era * 146097 + doe - 719468

/-- The civil date `(y, m, d)` of a day count from 1970-01-01. -/
def civilFromDays (z : Int) : Int × Int × Int :=
  let z := z + 719468
  let era := z / 146097
  let doe := z - era * 146097
  let yoe := (doe - doe / 1460 + doe / 36524 - doe / 146096) / 365
  let doy := doe - (365 * yoe + yoe / 4 - yoe / 100)
  let mp := (5 * doy + 2) / 153
  let d := doy - (153 * mp + 2) / 5 + 1
  let m := if mp < 10 then mp + 3 else mp - 9
  (if m ≤ 2 then yoe + era * 400 + 1 else yoe + era * 400, m, d)

/-- The number of days of month `m` in year `y`. -/
def daysInMonth (y m : Int) : Int :=
  if m = 2 then (if y % 4 = 0 ∧ (y % 100 ≠ 0 ∨ y % 400 = 0) then 29 else 28)
  else if m = 4 ∨ m = 6 ∨ m = 9 ∨ m = 11 then 30
  else 31

/-- The date-only ISO form `YYYY-MM-DD`, read as UTC midnight; any other text is an
invalid date here. -/
def isoDateFromChars (cs : List Char) : Option Int :=
  match cs with
  | [y1, y2, y3, y4, '-', m1, m2, '-', d1, d2] =>
    if [y1, y2, y3, y4, m1, m2, d1, d2].all Char.isDigit then
      let y : Int := digitsValue [y1, y2, y3, y4]
      let m : Int := digitsValue [m1, m2]
      let d : Int := digitsValue [d1, d2]
      if 1 ≤ m ∧ m ≤ 12 ∧ 1 ≤ d ∧ d ≤ daysInMonth y m then
        some (daysFromCivil y m d * 86400000)
      else none
    else none
  | _ => none

/-- The function `SSF_parse_date_code` of SheetJS in the 1900 date system. -/
def sheetParseDateCode (v : ℚ) : Option DateCode :=
  if v > 2958465 ∨ v < 0 then none
  else
    let date : Int := Rat.floor v
    let time : Int := Rat.floor (86400 * (v - date))
    let u : ℚ := 86400 * (v - date) - time
    let bump : Bool := decide (u > 9999 / 10000)
    let wrap : Bool := bump && decide (time + 1 = 86400)
    let time : Int := if wrap then 0 else if bump then time + 1 else time
    let date : Int := if wrap then date + 1 else date
    let ymd : Int × Int × Int :=
      if date = 60 then (1900, 2, 29)
      else if date = 0 then (1900, 1, 0)
      else civilFromDays (daysFromCivil 1900 1 1 + (if date > 60 then date - 1 else date) - 1)
    some { y := ymd.1, m := ymd.2.1, d := ymd.2.2,
           S := time % 60, M := (time / 60) % 60, H := time / 60 / 60 }

/-- Lower-casing of one ASCII or Latin-1 letter. -/
def latin1LowerChar (c : Char) : Char :=
  let n := c.toNat
  if (65 ≤ n ∧ n ≤ 90) ∨ (192 ≤ n ∧ n ≤ 222 ∧ n ≠ 215) then Char.ofNat (n + 32) else c

/-- The least `m`, at most `fuel`, for which `n * 10 ^ m` is a multiple of `d`. -/
def decimalPlaces : Nat → Nat → Nat → Nat
  | 0, _, _ => 0
  | fuel + 1, n, d => if n % d = 0 then 0 else decimalPlaces fuel (10 * n) d + 1

/-- The number of zeros at the end of the decimal digits of `n`, at most `fuel`. -/
def trailingZeros : Nat → Nat → Nat
  | 0, _ => 0
  | fuel + 1, n => if n ≠ 0 ∧ n % 10 = 0 then trailingZeros fuel (n / 10) + 1 else 0

/-- The operation Number::toString of ECMAScript on a finite number with a finite decimal
expansion (every binary64 number has one): with `k` digits and the decimal point after
`n` of them, plain decimal notation for `-6 < n ≤ 21`, exponent notation otherwise. -/
def decimalString (x : ℚ) : String :=
  if x = 0 then "0"
  else
    let sign := if x < 0 then "-" else ""
    let a := x.num.natAbs
    let m := decimalPlaces 1100 a x.den
    let big := a * 10 ^ m / x.den
    let z := trailingZeros 400 big
    let digits := Nat.toDigits 10 (big / 10 ^ z)
    let k := digits.length
    let n : Int := (k : Int) + (z : Int) - (m : Int)
    let body : List Char :=
      if (k : Int) ≤ n ∧ n ≤ 21 then digits ++ List.replicate (n - k).toNat '0'
      else if 0 < n ∧ n ≤ 21 then digits.take n.toNat ++ '.' :: digits.drop n.toNat
      else if -6 < n ∧ n ≤ 0 then '0' :: '.' :: (List.replicate (-n).toNat '0' ++ digits)
      else
        let mantissa :=
          match digits with
          | [] => []
          | [d] => [d]
          | d :: rest => d :: '.' :: rest
        mantissa ++ 'e' :: (if 0 < n - 1 then '+' else '-') :: Nat.toDigits 10 (n - 1).natAbs
    sign ++ String.mk body

/-- The short month names of the locale `pt-BR`. -/
def shortMonthNames : List String :=
  ["jan.", "fev.", "mar.", "abr.", "mai.", "jun.", "jul.", "ago.", "set.", "out.", "nov.",
   "dez."]

/-- The reference host. -/
def refHost : Host where
  numberToString := decimalString
  toLowerCase := fun s => ⟨s.data.map latin1LowerChar⟩
  dateFromString := fun s => isoDateFromChars s.data
  parse_date_code := sheetParseDateCode
  dateFromCode := fun c =>
    (daysFromCivil c.y c.m 1 + (c.d - 1)) * 86400000 + c.H * 3600000 + c.M * 60000 + c.S * 1000
  endOfDay := fun t => t - t % 86400000 + 86399999
  getFullYear := fun t => (civilFromDays (t / 86400000)).1
  getMonth := fun t => (civilFromDays (t / 86400000)).2.1 - 1
  monthYearLabel := fun t =>
    shortMonthNames.getD ((civilFromDays (t / 86400000)).2.1 - 1).toNat "" ++ " de " ++
      toString (civilFromDays (t / 86400000)).1

/-- The matrix of the end-to-end scenario: a header row and three data rows. -/
def scenarioData : List (List Cell) :=
  [[.str "Nome Emitente", .str "Valor Total NF", .str "Data Emissão"],
   [.str "Acme", .str "1.500,00", .str "2024-01-15"],
   [.str "Acme", .str "250,00", .str "2024-02-01"],
   [.str "Beta", .str "", .null]]

/-- The controls of the end-to-end scenario: category and value field chosen, no filter. -/
def scenarioControls : Controls :=
  { categorySelect := "Nome Emitente", valueSelect := "Valor Total NF", categoryFilter := "",
    startDate := "", endDate := "" }

/-! ## Definitions in the words of the spec -/

/-- The characters `parseNumber` keeps: digits, comma, period, minus. -/
def isNumberChar (c : Char) : Bool := c.isDigit || c == ',' || c == '.' || c == '-'

/-- The separator (comma or period) occurring last in a string, if there is one. -/
def lastSeparator (cs : List Char) : Option Char :=
  (cs.filter fun c => c == ',' || c == '.').getLast?

/-- The decimal point of a string in the words of the spec: with both separators the one
occurring last, with a comma only the comma, otherwise the period. -/
def specDecimalPoint (cs : List Char) : Char :=
  if ',' ∈ cs ∧ '.' ∈ cs then (lastSeparator cs).getD '.'
  else if ',' ∈ cs then ','
  else '.'

/-- The canonical numeral of a string in the words of the spec: everything but digits,
separators and minus stripped, the other separator removed, the decimal point written as a
period. -/
def specCanonical (cs : List Char) : List Char :=
  let dec := specDecimalPoint cs
  let other := if dec = ',' then '.' else ','
  ((cs.filter isNumberChar).filter fun c => c != other).map fun c => if c = dec then '.' else c

/-- The score of a row in the words of the spec: twice the string-like cells, minus one and
a half times the numeric-like cells, minus three times the generic headers, minus the
duplicate penalty (filled cells minus distinct case-insensitive values), plus the filled
cells. -/
def specScore (h : Host) (row : List Cell) : ℚ :=
  let filled := filledCells h row
  let stringCount := filled.countP fun v => !isLikelyNumeric v
  let numericLikeCount := filled.countP isLikelyNumeric
  let genericCount := filled.countP GENERIC_HEADER_PATTERN
  let duplicatePenalty : ℚ := (filled.length : ℚ) - ((filled.map h.toLowerCase).toFinset.card : ℚ)
  2 * (stringCount : ℚ) - 3 / 2 * (numericLikeCount : ℚ) - 3 * (genericCount : ℚ)
    - duplicatePenalty + (filled.length : ℚ)

/-- A matrix whose header row comes second: a numeric row, the header, a numeric row. -/
def headerSecondData : List (List Cell) :=
  [[.num 1, .num 2], [.str "Nome", .str "Valor"], [.num 10, .str "1.500,00"]]

/-- The date bounds in the words of the spec: at or after the start when a valid start is
set, at or before the end of the end day when a valid end is set. -/
def withinDateBounds (h : Host) (filters : FilterSpec) (d : Int) : Bool :=
  (match filters.startDate with
   | some (some s) => decide (s ≤ d)
   | _ => true) &&
  (match filters.endDate with
   | some (some e) => decide (d ≤ h.endOfDay e)
   | _ => true)

/-- A filter specification without its date bounds. -/
def withoutDates (filters : FilterSpec) : FilterSpec :=
  { filters with startDate := none, endDate := none }

/-- Three records with a name and an issue date (2024-01-15, 2024-02-01, none). -/
def sampleRecords : List Record :=
  [[("Data Emissão", .date 1705276800000), ("Nome", .str "Acme")],
   [("Data Emissão", .date 1706745600000), ("Nome", .str "Beta")],
   [("Data Emissão", .null), ("Nome", .null)]]

/-- A filter on the field `Nome` with the given query and date bounds. -/
def nameFilter (query : String) (startDate endDate : Option JSDate) : FilterSpec :=
  { categoryField := some "Nome", valueField := none, dateField := none,
    categoryQuery := query, startDate := startDate, endDate := endDate }

/-- The sum of two numbers of which one may be missing; `none` when one is. -/
def addFinite (a b : Option ℚ) : Option ℚ :=
  match a, b with
  | some x, some y => some (x + y)
  | _, _ => none

/-- The finite number a total is; 0 for a total that is not a finite number. -/
def totalValue (t : Option JSNumber) : ℚ := (finiteNumber t).getD 0

/-- The sum of the totals of all buckets of an aggregation, as a sum of real numbers;
`none` when a total is not a finite number. -/
def sumOfTotals (m : JSMap) : Option ℚ :=
  (m.map fun e => finiteNumber e.2.total).foldr addFinite (some 0)

/-- The sum of the totals of all buckets of an aggregation, added up with the operator `+`
from 0 in the order of the buckets. -/
def binarySumOfTotals (m : JSMap) : Option JSNumber :=
  (m.map fun e => e.2.total).foldl jsAdd (some (.fin 0))

/-- The sum of the counts of all buckets of an aggregation. -/
def sumOfCounts (m : JSMap) : Nat :=
  (m.map fun e => e.2.count).sum

/-- The number a record holds under a field, a null or missing value counted as 0. -/
def fieldNumber (field : String) (r : Record) : ℚ :=
  match r.get field with
  | some (.num x) => x
  | _ => 0

/-- The sum of a field over the records, a null or missing value counted as 0, as a sum of
real numbers. -/
def sumOfField (field : String) (rows : List Record) : ℚ :=
  (rows.map (fieldNumber field)).sum

/-- The sum of the absolute values of a field over the records. -/
def sumOfAbs (field : String) (rows : List Record) : ℚ :=
  (rows.map fun r => |fieldNumber field r|).sum

/-- The sum of a field over the records, a null or missing value counted as 0, added up
with the operator `+` from 0 in the order of the records, as `updateSummary` does. -/
def binarySumOfField (field : String) (rows : List Record) : Option JSNumber :=
  rows.foldl (fun acc row => jsAdd acc (valueOrZero (row.get field))) (some (.fin 0))

/-- The binary64 number a decimal numeral stands for. -/
def nearestDouble (q : ℚ) : ℚ := (finiteNumber (some (roundToDouble q))).getD 0

/-- Three records with a category and an amount in binary64: 0.2 and 0.1 of `A`, 0.3 of
`B` in between. -/
def decimalRecords : List Record :=
  [[("Valor", .num (nearestDouble 0.2)), ("Nome", .str "A")],
   [("Valor", .num (nearestDouble 0.3)), ("Nome", .str "B")],
   [("Valor", .num (nearestDouble 0.1)), ("Nome", .str "A")]]

/-- Three records with a category and an amount: two of `Acme`, one without category. -/
def amountRecords : List Record :=
  [[("Valor", .num 1500), ("Nome", .str "Acme")],
   [("Valor", .null), ("Nome", .null)],
   [("Valor", .num 250), ("Nome", .str "Acme")]]

/-- The sum of the totals of all buckets of a month aggregation, as a sum of real numbers;
`none` when a total is not a finite number. -/
def sumOfMonthTotals (m : MonthMap) : Option ℚ :=
  (m.map fun e => finiteNumber e.2.total).foldr addFinite (some 0)

/-- The sum of the totals of all buckets of a month aggregation, added up with the operator
`+` from 0 in the order of the buckets. -/
def binarySumOfMonthTotals (m : MonthMap) : Option JSNumber :=
  (m.map fun e => e.2.total).foldl jsAdd (some (.fin 0))

/-- Whether a record holds a date under the date field. -/
def hasDate (dateField : String) (r : Record) : Bool :=
  match r.get dateField with
  | some (.date _) => true
  | _ => false

/-- Three records with an amount: two dated January 2024, one without date. -/
def datedRecords : List Record :=
  [[("Valor", .num 1500), ("Data Emissão", .date 1705276800000)],
   [("Valor", .num 250), ("Data Emissão", .null)],
   [("Valor", .num 100), ("Data Emissão", .date 1705708800000)]]

/-- Three dated records with an amount in binary64: 0.2 and 0.1 in January 2024, 0.3 in
February 2024 in between. -/
def decimalDatedRecords : List Record :=
  [[("Valor", .num (nearestDouble 0.2)), ("Data Emissão", .date 1705276800000)],
   [("Valor", .num (nearestDouble 0.3)), ("Data Emissão", .date 1706745600000)],
   [("Valor", .num (nearestDouble 0.1)), ("Data Emissão", .date 1705708800000)]]

/-- The operator `<=` on numbers. -/
def JSNumber.le : JSNumber → JSNumber → Bool
  | .fin a, .fin b => decide (a ≤ b)
  | .negInf, .negInf => true
  | .negInf, .fin _ => true
  | .negInf, .posInf => true
  | .fin _, .posInf => true
  | .posInf, .posInf => true
  | _, _ => false

/-- The list `sorted` is `groups` in descending order of `metric`, groups of equal metric in
the order they have in `groups`. -/
def IsStableDescending {α : Type} (metric : α → JSNumber) (groups sorted : List α) : Prop :=
  sorted.Perm groups ∧ sorted.Pairwise (fun a b => (metric b).le (metric a) = true) ∧
    ∀ v : JSNumber, sorted.filter (fun a => decide (metric a = v)) =
      groups.filter (fun a => decide (metric a = v))

/-- The metric of a group of the category grouping as a number. -/
def groupMetric (valueField : Option String) (e : Value × Bucket) : JSNumber :=
  (bucketMetric valueField e.2).getD .nan

/-- The metric of an entry of the month grouping as a number. -/
def entryMetric (e : TimelineEntry) : JSNumber := e.value.getD .nan

/-- The keys of a list, each at the place of its first occurrence; `seen` are the keys
met before.  Keys are compared as `Map` compares them. -/
def firstOccurrences (seen : List Value) : List Value → List Value
  | [] => []
  | k :: ks =>
    if seen.any (fun s => sameValueZero s k) then firstOccurrences seen ks
    else k :: firstOccurrences (seen ++ [k]) ks

/-- A matrix whose column `Nome Emitente` holds numbers. -/
def numericNameData : List (List Cell) :=
  [[.str "Nome Emitente", .str "Valor Total NF"],
   [.num 5000000, .str "10,00"],
   [.num 5000001, .str "20,00"]]

/-- The controls with `Nome Emitente` as category and the query `5`. -/
def numericNameControls : Controls :=
  { categorySelect := "Nome Emitente", valueSelect := "Valor Total NF", categoryFilter := "5",
    startDate := "", endDate := "" }

/-- Fourteen records of fourteen different categories, the amounts 1 to 14. -/
def manyCategories : List Record :=
  (List.range 14).map fun i =>
    [("Valor", Value.num ((i : ℚ) + 1)), ("Nome", Value.str ("c" ++ toString i))]

/-- A state with no headers. -/
def emptyState : State := { rawRows := [], headers := [], types := [] }

/-- The filters of a chart of `Valor` by `Nome`, with the given date field. -/
def chartFilters (dateField : Option String) : FilterSpec :=
  { categoryField := some "Nome", valueField := some "Valor", dateField := dateField,
    categoryQuery := "", startDate := none, endDate := none }

/-- Whether a header cell is replaced by a placeholder: it is null, blank or a generic
header. -/
def needsPlaceholder (h : Host) (cell : Cell) : Bool :=
  match cell with
  | .null => true
  | .undefined => true
  | c =>
    (jsTrim (cellToString h c)).data.isEmpty || GENERIC_HEADER_PATTERN (jsTrim (cellToString h c))

/-- The header set of a header row: `sanitizeHeaderName` mapped over it with the column
index, as in `processWorkbook`. -/
def headerSet (h : Host) (headerRow : List Cell) : List String :=
  headerRow.enum.map fun p => sanitizeHeaderName h p.2 p.1


/-- Plain decimal notation, the form `String(x)` has without an exponent part: a non-empty
string of digits, periods and minus signs. -/
def isPlainDecimal (s : String) : Bool :=
  !s.data.isEmpty && s.data.all fun c => c.isDigit || c == '.' || c == '-'
/-! # Theorems -/

/-! ## parseNumber: the separator rule -/

theorem filter_dropWhile_of_disjoint {α : Type} (p q : α → Bool)
    (hpq : ∀ a, q a = true → p a = false) (l : List α) :
    (l.dropWhile q).filter p = l.filter p := by
  induction l with
  | nil => rfl
  | cons a l ih =>
    by_cases hq : q a = true
    · simp [List.dropWhile, hq, List.filter, hpq a hq, ih]
    · simp [List.dropWhile, hq]

theorem filter_trimChars (p : Char → Bool) (hp : ∀ c, isJSWhiteSpace c = true → p c = false)
    (l : List Char) : (trimChars l).filter p = l.filter p := by
  unfold trimChars
  rw [List.filter_reverse, filter_dropWhile_of_disjoint p _ hp, List.filter_reverse,
    List.reverse_reverse, filter_dropWhile_of_disjoint p _ hp]

theorem isNumberChar_cases (c : Char) (h : isNumberChar c = true) :
    (48 ≤ c.toNat ∧ c.toNat ≤ 57) ∨ c = ',' ∨ c = '.' ∨ c = '-' := by
  unfold isNumberChar at h
  simp only [Bool.or_eq_true, beq_iff_eq] at h
  rcases h with ((h | h) | h) | h
  · left
    simp only [Char.isDigit, Bool.and_eq_true, decide_eq_true_eq] at h
    exact ⟨h.1, h.2⟩
  · right; left; exact h
  · right; right; left; exact h
  · right; right; right; exact h

theorem not_white_of_isNumberChar (c : Char) (h : isNumberChar c = true) :
    isJSWhiteSpace c = false := by
  rcases isNumberChar_cases c h with h | h | h | h
  · simp only [isJSWhiteSpace, Bool.or_eq_false_iff, Bool.and_eq_false_imp, beq_eq_false_iff_ne,
      decide_eq_true_eq, decide_eq_false_iff_not]
    omega
  · subst h; decide
  · subst h; decide
  · subst h; decide


theorem stripped_eq_filter (l : List Char) :
    ((removeChar (Char.ofNat 0) l).filter
        (fun c => !(c == 'R' || c == 'r' || c == '$' || isJSWhiteSpace c))).filter
      (fun c => c.isDigit || c == ',' || c == '.' || c == '-') = l.filter isNumberChar := by
  unfold removeChar
  rw [List.filter_filter, List.filter_filter]
  apply List.filter_congr
  intro c _
  by_cases h : isNumberChar c = true
  · have hw := not_white_of_isNumberChar c h
    have h1 : (c.isDigit || c == ',' || c == '.' || c == '-') = true := h
    rw [h1, hw]
    rcases isNumberChar_cases c h with hc | hc | hc | hc
    · have e1 : c ≠ 'R' := fun e => by subst e; simp at hc
      have e2 : c ≠ 'r' := fun e => by subst e; simp at hc
      have e3 : c ≠ '$' := fun e => by subst e; simp at hc
      have e4 : c ≠ Char.ofNat 0 := fun e => by subst e; simp at hc
      simp [e1, e2, e3, e4, h]
    · subst hc; decide
    · subst hc; decide
    · subst hc; decide
  · have h1 : (c.isDigit || c == ',' || c == '.' || c == '-') = false := by
      simpa [isNumberChar] using h
    have h2 : isNumberChar c = false := by simpa using h
    rw [h1, h2]; rfl

theorem lastIndexOfAux_append (c x : Char) (l : List Char) (i : Nat) (acc : Int) :
    lastIndexOfAux c (l ++ [x]) i acc =
      if x = c then ((i + l.length : Nat) : Int) else lastIndexOfAux c l i acc := by
  induction l generalizing i acc with
  | nil => simp [lastIndexOfAux]
  | cons a l ih =>
    have e := ih (i + 1) (if a = c then (i : Int) else acc)
    have hl : i + 1 + l.length = i + (l.length + 1) := by omega
    rw [hl] at e
    simpa [lastIndexOfAux] using e

theorem lastIndexOfAux_bounds (c : Char) (l : List Char) (i : Nat) (acc : Int)
    (hacc : acc < i) : lastIndexOfAux c l i acc < ((i + l.length : Nat) : Int) := by
  induction l generalizing i acc with
  | nil => simpa [lastIndexOfAux] using hacc
  | cons a l ih =>
    simp only [lastIndexOfAux, List.length_cons]
    have : i + (l.length + 1) = i + 1 + l.length := by omega
    rw [this]
    apply ih
    split <;> push_cast <;> omega

theorem lastIndexOf_append (c x : Char) (l : List Char) :
    lastIndexOf c (l ++ [x]) = if x = c then (l.length : Int) else lastIndexOf c l := by
  unfold lastIndexOf
  rw [lastIndexOfAux_append]
  simp

theorem lastIndexOf_lt_length (c : Char) (l : List Char) : lastIndexOf c l < (l.length : Int) := by
  have := lastIndexOfAux_bounds c l 0 (-1) (by norm_num)
  simpa [lastIndexOf] using this

/-- The comparison of the two `lastIndexOf` in `parseNumber` says which separator is last. -/
theorem lastIndexOf_comma_gt_iff (l : List Char) :
    lastIndexOf '.' l < lastIndexOf ',' l ↔ lastSeparator l = some ',' := by
  induction l using List.reverseRecOn with
  | nil => simp [lastIndexOf, lastIndexOfAux, lastSeparator]
  | append_singleton l x ih =>
    rw [lastIndexOf_append, lastIndexOf_append]
    by_cases h1 : x = ','
    · subst h1
      have := lastIndexOf_lt_length '.' l
      simp [lastSeparator, List.filter_append, this]
    · by_cases h2 : x = '.'
      · subst h2
        have := lastIndexOf_lt_length ',' l
        simp [lastSeparator, List.filter_append]
        omega
      · have : lastSeparator (l ++ [x]) = lastSeparator l := by
          simp [lastSeparator, List.filter_append, h1, h2]
        rw [this, if_neg h2, if_neg h1]
        exact ih


theorem lastSeparator_filter (cs : List Char) :
    lastSeparator (cs.filter isNumberChar) = lastSeparator cs := by
  unfold lastSeparator
  rw [List.filter_filter]
  congr 1
  apply List.filter_congr
  intro c _
  by_cases h1 : c = ','
  · subst h1; decide
  · by_cases h2 : c = '.'
    · subst h2; decide
    · simp [h1, h2]

theorem lastSeparator_cases (cs : List Char) (h : ',' ∈ cs ∨ '.' ∈ cs) :
    lastSeparator cs = some ',' ∨ lastSeparator cs = some '.' := by
  unfold lastSeparator
  have hne : (cs.filter fun c => c == ',' || c == '.') ≠ [] := by
    intro e
    rcases h with h | h
    · have : ',' ∈ cs.filter fun c => c == ',' || c == '.' := by simp [List.mem_filter, h]
      rw [e] at this; simp at this
    · have : '.' ∈ cs.filter fun c => c == ',' || c == '.' := by simp [List.mem_filter, h]
      rw [e] at this; simp at this
  rw [List.getLast?_eq_getLast _ hne]
  have hm := List.getLast_mem hne
  simp only [List.mem_filter, Bool.or_eq_true, beq_iff_eq] at hm
  rcases hm.2 with e | e
  · left; rw [e]
  · right; rw [e]

theorem map_period_id (l : List Char) : l.map (fun c => if c = '.' then '.' else c) = l := by
  induction l with
  | nil => rfl
  | cons a l ih =>
    simp only [List.map_cons, ih]
    by_cases h : a = '.'
    · simp [h]
    · simp [h]

/-- The separator handling of `parseNumber` computes the canonical numeral of the spec. -/
theorem separators_eq_specCanonical (cs : List Char) :
    (let k := cs.filter isNumberChar
     if k.contains ',' && k.contains '.' then
       if lastIndexOf ',' k > lastIndexOf '.' k then replaceChar ',' '.' (removeChar '.' k)
       else removeChar ',' k
     else if k.contains ',' && !k.contains '.' then replaceChar ',' '.' (removeChar '.' k)
     else removeChar ',' k) = specCanonical cs := by
  have hc : ((cs.filter isNumberChar).contains ',' = true) ↔ ',' ∈ cs := by
    simp [List.mem_filter, isNumberChar]
  have hd : ((cs.filter isNumberChar).contains '.' = true) ↔ '.' ∈ cs := by
    simp [List.mem_filter, isNumberChar]
  have hgt : lastIndexOf ',' (cs.filter isNumberChar) > lastIndexOf '.' (cs.filter isNumberChar)
      ↔ lastSeparator cs = some ',' := by
    rw [gt_iff_lt, lastIndexOf_comma_gt_iff, lastSeparator_filter]
  have hcomma : ((cs.filter isNumberChar).filter fun c => c != '.').map
      (fun c => if c = ',' then '.' else c)
      = replaceChar ',' '.' (removeChar '.' (cs.filter isNumberChar)) := rfl
  have hdot : ((cs.filter isNumberChar).filter fun c => c != ',').map
      (fun c => if c = '.' then '.' else c) = removeChar ',' (cs.filter isNumberChar) := by
    rw [map_period_id]; rfl
  unfold specCanonical specDecimalPoint
  by_cases c1 : ',' ∈ cs
  · by_cases c2 : '.' ∈ cs
    · rcases lastSeparator_cases cs (Or.inl c1) with e | e
      · simp only [hc.mpr c1, hd.mpr c2, hgt.mpr e, c1, c2, e]
        simpa using hcomma.symm
      · have ng : ¬ lastIndexOf ',' (cs.filter isNumberChar) >
            lastIndexOf '.' (cs.filter isNumberChar) := by
          rw [hgt, e]; decide
        simp only [hc.mpr c1, hd.mpr c2, ng, c1, c2, e]
        simpa using hdot.symm
    · have hd2 : (cs.filter isNumberChar).contains '.' = false := by
        simpa using fun h => c2 (hd.mp h)
      simp only [hc.mpr c1, hd2, c1, c2]
      simpa using hcomma.symm
  · have hc2 : (cs.filter isNumberChar).contains ',' = false := by
      simpa using fun h => c1 (hc.mp h)
    simp only [hc2, c1]
    simpa using hdot.symm

/-- C2. `parseNumber` on a string strips everything but digits, comma, period and minus,
takes as decimal point the separator the spec names (the last one when both occur, the
comma when only commas occur, the period otherwise), removes the other separator and
converts the result; a blank string and a non-finite result give `NaN`. -/
theorem parseNumber_separator_rule :
    (∀ s : String, parseNumber (.str s) =
      if (trimChars s.data).isEmpty then JSNumber.nan
      else if (charsToNumber (specCanonical s.data)).isFinite then
        charsToNumber (specCanonical s.data)
      else JSNumber.nan) ∧
    parseNumber (.str "1.234,56") = .fin 1234.56 ∧
    parseNumber (.str "1,234.56") = .fin 1234.56 ∧
    parseNumber (.str "R$ 10,00") = .fin 10 := by
  refine ⟨?_, by decide!, by decide!, by decide!⟩
  intro s
  unfold parseNumber
  simp only
  split
  · rfl
  · rw [stripped_eq_filter,
      filter_trimChars isNumberChar (fun c hw => by
        by_contra hn
        have := not_white_of_isNumberChar c (by simpa using hn)
        rw [hw] at this; exact absurd this (by decide))]
    have := separators_eq_specCanonical s.data
    simp only at this
    rw [this]

/-! ## findHeaderRow -/


theorem foldl_countCell (l : List String) (acc : CellCounts) :
    l.foldl countCell acc =
      ⟨acc.stringCount + l.countP (fun v => !isLikelyNumeric v),
       acc.numericLikeCount + l.countP isLikelyNumeric,
       acc.genericCount + l.countP GENERIC_HEADER_PATTERN⟩ := by
  induction l generalizing acc with
  | nil => simp
  | cons a l ih =>
    rw [List.foldl_cons, ih]
    by_cases hg : GENERIC_HEADER_PATTERN a = true <;> by_cases hn : isLikelyNumeric a = true <;>
      simp [countCell, hg, hn, List.countP_cons] <;> omega

theorem setInsert_nodup (seen : List String) (x : String) (hs : seen.Nodup) :
    (setInsert seen x).Nodup := by
  unfold setInsert
  split
  · exact hs
  · rename_i hx
    have : x ∉ seen := by simpa using hx
    exact List.Nodup.append hs (List.nodup_singleton x) (by simpa using this)

theorem setInsert_toFinset (seen : List String) (x : String) :
    (setInsert seen x).toFinset = insert x seen.toFinset := by
  unfold setInsert
  split
  · rename_i hx
    have : x ∈ seen := by simpa using hx
    ext y; simp only [List.mem_toFinset, Finset.mem_insert]
    constructor
    · exact fun hy => Or.inr hy
    · rintro (rfl | hy)
      · exact this
      · exact hy
  · ext y; simp only [List.toFinset_append, List.toFinset_cons, List.toFinset_nil,
      Finset.mem_union, List.mem_toFinset, Finset.mem_insert, Finset.mem_singleton,
      insert_emptyc_eq]
    tauto

theorem foldl_setInsert (xs seen : List String) (hs : seen.Nodup) :
    (xs.foldl setInsert seen).Nodup ∧
      (xs.foldl setInsert seen).toFinset = seen.toFinset ∪ xs.toFinset := by
  induction xs generalizing seen with
  | nil => simp [hs]
  | cons a xs ih =>
    rw [List.foldl_cons]
    obtain ⟨h1, h2⟩ := ih (setInsert seen a) (setInsert_nodup seen a hs)
    refine ⟨h1, ?_⟩
    rw [h2, setInsert_toFinset]
    ext y; simp only [Finset.mem_union, Finset.mem_insert, List.mem_toFinset, List.toFinset_cons]
    tauto

/-- The size of the `Set` is the number of distinct values. -/
theorem setSize_eq_card (xs : List String) : setSize xs = xs.toFinset.card := by
  obtain ⟨h1, h2⟩ := foldl_setInsert xs [] List.nodup_nil
  unfold setSize
  rw [← List.toFinset_card_of_nodup h1, h2]
  simp

/-- The score the code computes is the score of the spec, for the rows it does not skip. -/
theorem rowScore_eq_specScore (h : Host) (row : List Cell) :
    rowScore h row = if (filledCells h row).length < 2 then none else some (specScore h row) := by
  unfold rowScore specScore
  simp only [foldl_countCell, setSize_eq_card]
  split
  · rfl
  · congr 1
    simp only [Nat.zero_add]
    ring


theorem findHeaderRowLoop_append (h : Host) (l : List (List Cell)) (row : List Cell) (i : Nat)
    (best : Nat × Option ℚ) :
    findHeaderRowLoop h (l ++ [row]) i best =
      match rowScore h row with
      | none => findHeaderRowLoop h l i best
      | some score =>
        if beatsBest score (findHeaderRowLoop h l i best).2 then (i + l.length, some score)
        else findHeaderRowLoop h l i best := by
  induction l generalizing i best with
  | nil =>
    cases hrs : rowScore h row <;> simp [findHeaderRowLoop, hrs]
  | cons a l ih =>
    have hl : i + (a :: l).length = i + 1 + l.length := by
      simp only [List.length_cons]; omega
    rw [hl]
    simp only [List.cons_append, findHeaderRowLoop]
    cases rowScore h a with
    | none => simp only; exact ih _ _
    | some sc =>
      simp only
      split
      · exact ih _ _
      · exact ih _ _

theorem getElem?_snoc_cases {α : Type} (l : List α) (a r : α) (j : Nat)
    (hj : (l ++ [a])[j]? = some r) : l[j]? = some r ∨ (j = l.length ∧ r = a) := by
  by_cases hlt : j < l.length
  · left
    rw [List.getElem?_append_left hlt] at hj
    exact hj
  · right
    have hle : l.length ≤ j := Nat.le_of_not_lt hlt
    rw [List.getElem?_append_right hle] at hj
    by_cases h0 : j - l.length = 0
    · rw [h0] at hj
      simp at hj
      exact ⟨by omega, hj.symm⟩
    · obtain ⟨k, hk⟩ := Nat.exists_eq_succ_of_ne_zero h0
      rw [hk] at hj
      simp at hj

theorem lt_length_of_getElem? {α : Type} (l : List α) (r : α) (j : Nat) (hj : l[j]? = some r) :
    j < l.length := by
  by_contra hn
  rw [List.getElem?_eq_none (Nat.le_of_not_lt hn)] at hj
  exact absurd hj (by simp)

/-- What the loop of `findHeaderRow` has found after the rows `rows`: nothing if it skipped
them all, else the first row of maximal score. -/
theorem findHeaderRowLoop_inv (h : Host) (rows : List (List Cell)) :
    ((findHeaderRowLoop h rows 0 (0, none)).2 = none ∧
        (findHeaderRowLoop h rows 0 (0, none)).1 = 0 ∧
        ∀ (j : Nat) (row : List Cell), rows[j]? = some row → rowScore h row = none) ∨
    (∃ s row, (findHeaderRowLoop h rows 0 (0, none)).2 = some s ∧
        rows[(findHeaderRowLoop h rows 0 (0, none)).1]? = some row ∧
        rowScore h row = some s ∧
        ∀ (j : Nat) (r : List Cell) (x : ℚ), rows[j]? = some r → rowScore h r = some x →
          x ≤ s ∧ (j < (findHeaderRowLoop h rows 0 (0, none)).1 → x < s)) := by
  induction rows using List.reverseRecOn with
  | nil =>
    left
    simp [findHeaderRowLoop]
  | append_singleton l a ih =>
    rw [findHeaderRowLoop_append]
    cases hsa : rowScore h a with
    | none =>
      simp only
      rcases ih with ⟨h1, h2, h3⟩ | ⟨s, row, h1, h2, h3, h4⟩
      · left
        refine ⟨h1, h2, ?_⟩
        intro j r hj
        rcases getElem?_snoc_cases l a r j hj with hj | ⟨_, rfl⟩
        · exact h3 j r hj
        · exact hsa
      · right
        refine ⟨s, row, h1, ?_, h3, ?_⟩
        · rw [List.getElem?_append_left (lt_length_of_getElem? l row _ h2)]
          exact h2
        · intro j r x hj hx
          rcases getElem?_snoc_cases l a r j hj with hj | ⟨_, rfl⟩
          · exact h4 j r x hj hx
          · rw [hsa] at hx; exact absurd hx (by simp)
    | some sc =>
      simp only [Nat.zero_add]
      rcases ih with ⟨h1, h2, h3⟩ | ⟨s, row, h1, h2, h3, h4⟩
      · right
        rw [h1]
        simp only [beatsBest, if_true]
        refine ⟨sc, a, rfl, by simp, hsa, ?_⟩
        intro j r x hj hx
        rcases getElem?_snoc_cases l a r j hj with hj | ⟨hjl, rfl⟩
        · rw [h3 j r hj] at hx; exact absurd hx (by simp)
        · rw [hsa] at hx
          have : x = sc := by simpa using hx.symm
          subst this
          exact ⟨le_refl _, fun hlt => absurd hlt (by omega)⟩
      · right
        rw [h1]
        by_cases hlt : s < sc
        · simp only [beatsBest, hlt, decide_True, if_true]
          refine ⟨sc, a, rfl, by simp, hsa, ?_⟩
          intro j r x hj hx
          rcases getElem?_snoc_cases l a r j hj with hj | ⟨hjl, rfl⟩
          · have := (h4 j r x hj hx).1
            exact ⟨le_of_lt (lt_of_le_of_lt this hlt), fun _ => lt_of_le_of_lt this hlt⟩
          · rw [hsa] at hx
            have : x = sc := by simpa using hx.symm
            subst this
            exact ⟨le_refl _, fun hlt => absurd hlt (by omega)⟩
        · simp only [beatsBest, hlt, decide_False, Bool.false_eq_true, if_false]
          have hb := lt_length_of_getElem? l row _ h2
          refine ⟨s, row, h1, ?_, h3, ?_⟩
          · rw [List.getElem?_append_left hb]
            exact h2
          · intro j r x hj hx
            rcases getElem?_snoc_cases l a r j hj with hj | ⟨hjl, rfl⟩
            · exact h4 j r x hj hx
            · rw [hsa] at hx
              have : x = sc := by simpa using hx.symm
              subst this
              exact ⟨not_lt.mp hlt, fun hlt2 => absurd hlt2 (by omega)⟩


theorem getElem?_take_eq_some {α : Type} (l : List α) (n j : Nat) (r : α) :
    (l.take n)[j]? = some r ↔ j < n ∧ l[j]? = some r := by
  rw [List.getElem?_take]
  split
  · rename_i hlt; simp [hlt]
  · rename_i hlt; simp [hlt]

/-- The row `findHeaderRow` returns: row 0 when every inspected row is skipped, else the
first inspected row of maximal score among those not skipped. -/
theorem findHeaderRow_first_max (h : Host) (data : List (List Cell)) :
    (findHeaderRow h data = 0 ∧
        ∀ (j : Nat) (row : List Cell), j < min data.length 30 → data[j]? = some row →
          (filledCells h row).length < 2) ∨
    (∃ best, findHeaderRow h data < min data.length 30 ∧
        data[findHeaderRow h data]? = some best ∧ 2 ≤ (filledCells h best).length ∧
        ∀ (j : Nat) (row : List Cell), j < min data.length 30 → data[j]? = some row →
          2 ≤ (filledCells h row).length →
          specScore h row ≤ specScore h best ∧
            (j < findHeaderRow h data → specScore h row < specScore h best)) := by
  unfold findHeaderRow
  simp only
  rcases findHeaderRowLoop_inv h (data.take (min data.length 30)) with
    ⟨_, h2, h3⟩ | ⟨s, best, _, h2, h3, h4⟩
  · left
    refine ⟨h2, ?_⟩
    intro j row hj hrow
    have := h3 j row ((getElem?_take_eq_some _ _ _ _).mpr ⟨hj, hrow⟩)
    rw [rowScore_eq_specScore] at this
    by_contra hn
    rw [if_neg hn] at this
    exact absurd this (by simp)
  · right
    obtain ⟨hlt, hbest⟩ := (getElem?_take_eq_some _ _ _ _).mp h2
    rw [rowScore_eq_specScore] at h3
    have hfill : ¬ (filledCells h best).length < 2 := by
      intro hn; rw [if_pos hn] at h3; exact absurd h3 (by simp)
    rw [if_neg hfill] at h3
    have hs : specScore h best = s := by simpa using h3
    refine ⟨best, hlt, hbest, Nat.le_of_not_lt hfill, ?_⟩
    intro j row hj hrow hfr
    have hx : rowScore h row = some (specScore h row) := by
      rw [rowScore_eq_specScore, if_neg (by omega)]
    have := h4 j row (specScore h row) ((getElem?_take_eq_some _ _ _ _).mpr ⟨hj, hrow⟩) hx
    rw [hs]
    exact this

/-- C3. On a non-empty matrix `findHeaderRow` returns an index below the inspection limit
`min(rows, 30)`; it is 0 when no inspected row has two non-blank cells, and otherwise the
earliest inspected row with at least two non-blank cells whose score, as the spec defines
it, is maximal among those rows. -/
theorem findHeaderRow_spec (h : Host) (data : List (List Cell)) (hne : data ≠ []) :
    findHeaderRow h data < min data.length 30 ∧
    ((∀ (j : Nat) (row : List Cell), j < min data.length 30 → data[j]? = some row →
        (filledCells h row).length < 2) → findHeaderRow h data = 0) ∧
    ((∃ (j : Nat) (row : List Cell), j < min data.length 30 ∧ data[j]? = some row ∧
        2 ≤ (filledCells h row).length) →
      ∃ best, data[findHeaderRow h data]? = some best ∧ 2 ≤ (filledCells h best).length ∧
        ∀ (j : Nat) (row : List Cell), j < min data.length 30 → data[j]? = some row →
          2 ≤ (filledCells h row).length →
          specScore h row ≤ specScore h best ∧
            (j < findHeaderRow h data → specScore h row < specScore h best)) := by
  have hpos : 0 < min data.length 30 := by
    have : 0 < data.length := List.length_pos.mpr hne
    omega
  rcases findHeaderRow_first_max h data with ⟨h0, hall⟩ | ⟨best, hlt, hb, hf, hmax⟩
  · refine ⟨by rw [h0]; exact hpos, fun _ => h0, ?_⟩
    rintro ⟨j, row, hj, hrow, hfill⟩
    have := hall j row hj hrow
    omega
  · refine ⟨hlt, ?_, fun _ => ⟨best, hb, hf, hmax⟩⟩
    intro hall
    have := hall _ best hlt hb
    omega

theorem specScore_numeric_row (h : Host) (row : List Cell)
    (hfill : 2 ≤ (filledCells h row).length)
    (hnum : ∀ v ∈ filledCells h row, isLikelyNumeric v = true) : specScore h row < 0 := by
  unfold specScore
  simp only
  have h1 : (filledCells h row).countP (fun v => !isLikelyNumeric v) = 0 := by
    rw [List.countP_eq_zero]
    intro v hv
    simp [hnum v hv]
  have h2 : (filledCells h row).countP isLikelyNumeric = (filledCells h row).length := by
    rw [List.countP_eq_length]
    exact hnum
  have h3 : (((filledCells h row).map h.toLowerCase).toFinset.card : ℚ) ≤
      ((filledCells h row).length : ℚ) := by
    have := List.toFinset_card_le ((filledCells h row).map h.toLowerCase)
    rw [List.length_map] at this
    exact_mod_cast this
  have h4 : (0 : ℚ) ≤ ((filledCells h row).countP GENERIC_HEADER_PATTERN : ℚ) :=
    Nat.cast_nonneg _
  have h5 : (2 : ℚ) ≤ ((filledCells h row).length : ℚ) := by exact_mod_cast hfill
  rw [h1, h2]
  push_cast
  linarith

theorem specScore_header_row (h : Host) (row : List Cell)
    (hfill : 2 ≤ (filledCells h row).length)
    (hdistinct : ((filledCells h row).map h.toLowerCase).Nodup)
    (hnonnum : ∀ v ∈ filledCells h row, isLikelyNumeric v = false)
    (hnongen : ∀ v ∈ filledCells h row, GENERIC_HEADER_PATTERN v = false) :
    0 < specScore h row := by
  unfold specScore
  simp only
  have h1 : (filledCells h row).countP (fun v => !isLikelyNumeric v) =
      (filledCells h row).length := by
    rw [List.countP_eq_length]
    intro v hv
    simp [hnonnum v hv]
  have h2 : (filledCells h row).countP isLikelyNumeric = 0 := by
    rw [List.countP_eq_zero]
    intro v hv
    simp [hnonnum v hv]
  have h3 : (filledCells h row).countP GENERIC_HEADER_PATTERN = 0 := by
    rw [List.countP_eq_zero]
    intro v hv
    simp [hnongen v hv]
  have h4 : ((filledCells h row).map h.toLowerCase).toFinset.card =
      (filledCells h row).length := by
    rw [List.toFinset_card_of_nodup hdistinct, List.length_map]
  have h5 : (2 : ℚ) ≤ ((filledCells h row).length : ℚ) := by exact_mod_cast hfill
  rw [h1, h2, h3, h4]
  push_cast
  linarith

/-- C4. When row `k` (`k < 30`) has at least two non-blank cells, pairwise distinct ignoring
case, none numeric-like and none a generic header, and every other inspected row has only
numeric-like or blank cells, `findHeaderRow` returns `k`. -/
theorem findHeaderRow_single_header (h : Host) (data : List (List Cell)) (k : Nat)
    (header : List Cell) (hk : k < 30) (hrow : data[k]? = some header)
    (hfill : 2 ≤ (filledCells h header).length)
    (hdistinct : ((filledCells h header).map h.toLowerCase).Nodup)
    (hnonnum : ∀ v ∈ filledCells h header, isLikelyNumeric v = false)
    (hnongen : ∀ v ∈ filledCells h header, GENERIC_HEADER_PATTERN v = false)
    (hothers : ∀ (j : Nat) (row : List Cell), j < 30 → j ≠ k → data[j]? = some row →
      ∀ v ∈ filledCells h row, isLikelyNumeric v = true) :
    findHeaderRow h data = k := by
  have hklen : k < data.length := lt_length_of_getElem? data header k hrow
  have hklim : k < min data.length 30 := by omega
  rcases findHeaderRow_first_max h data with ⟨_, hall⟩ | ⟨best, hlt, hb, hf, hmax⟩
  · have := hall k header hklim hrow
    omega
  · by_contra hne
    have hnum := hothers _ best (by omega) hne hb
    have hneg := specScore_numeric_row h best hf hnum
    have hpos := specScore_header_row h header hfill hdistinct hnonnum hnongen
    have := (hmax k header hklim hrow hfill).1
    linarith


/-- Witness of C3 on the matrix of the end-to-end scenario. -/
theorem findHeaderRow_spec_witness :
    scenarioData ≠ [] ∧ findHeaderRow refHost scenarioData < min scenarioData.length 30 :=
  ⟨by decide, (findHeaderRow_spec refHost scenarioData (by decide)).1⟩

/-- Witness of C4: the header in the second row of `headerSecondData` is found. -/
theorem findHeaderRow_single_header_witness :
    headerSecondData[1]? = some [.str "Nome", .str "Valor"] ∧
      findHeaderRow refHost headerSecondData = 1 :=
  ⟨by decide,
   findHeaderRow_single_header refHost headerSecondData 1 [.str "Nome", .str "Valor"]
    (by decide) (by decide) (by decide!) (by decide!) (by decide!) (by decide!)
    (by
      intro j row hj hne hrow
      have hlt : j < headerSecondData.length := lt_length_of_getElem? _ _ _ hrow
      have h3 : j < 3 := hlt
      interval_cases j
      · have : row = [.num 1, .num 2] := by simpa [headerSecondData] using hrow.symm
        subst this; decide!
      · exact absurd rfl hne
      · have : row = [.num 10, .str "1.500,00"] := by simpa [headerSecondData] using hrow.symm
        subst this; decide!)⟩

/-! ## Column types and overrides -/


theorem JSObject.get_set {α : Type} (o : JSObject α) (k k' : String) (v : α) :
    (o.set k v).get k' = if k' = k then some v else o.get k' := by
  unfold JSObject.get JSObject.set
  rw [List.lookup_cons]
  by_cases hk : k' = k
  · simp [hk]
  · have hb : (k' == k) = false := by simpa using hk
    rw [hb, if_neg hk]

/-- An object filled by a `forEach` over the headers holds, under a header, what the last
column with that header wrote. -/
theorem get_enum_foldl_set {α : Type} (f : Nat → String → α) (headers : List String)
    (i : Nat) (k : String) (hi : headers[i]? = some k)
    (hlast : ∀ j : Nat, i < j → headers[j]? ≠ some k) :
    (headers.enum.foldl (fun (o : JSObject α) p => o.set p.2 (f p.1 p.2)) []).get k =
      some (f i k) := by
  induction headers using List.reverseRecOn with
  | nil => simp at hi
  | append_singleton l a ih =>
    rw [List.enum_append, List.foldl_append]
    simp only [List.enumFrom_singleton, List.foldl_cons, List.foldl_nil, JSObject.get_set]
    by_cases hk : k = a
    · subst hk
      rw [if_pos rfl]
      have hil : i = l.length := by
        by_contra hne
        have hlt : i < (l ++ [k]).length := lt_length_of_getElem? _ _ _ hi
        have : i < l.length := by simp at hlt; omega
        exact hlast l.length this (by simp)
      rw [hil]
    · rw [if_neg hk]
      rcases getElem?_snoc_cases l a k i hi with hi' | ⟨_, rfl⟩
      · apply ih hi'
        intro j hj hjk
        have hjl := lt_length_of_getElem? _ _ _ hjk
        exact hlast j hj (by rw [List.getElem?_append_left hjl]; exact hjk)
      · exact absurd rfl hk

theorem get_foldl_step_of_not_mem {α : Type} (g : String → Option α)
    (step : JSObject α → String → JSObject α)
    (hnone : ∀ o a, g a = none → step o a = o)
    (hsome : ∀ o a v, g a = some v → step o a = o.set a v)
    (headers : List String) (o : JSObject α) (k : String) (hk : k ∉ headers) :
    (headers.foldl step o).get k = o.get k := by
  induction headers generalizing o with
  | nil => rfl
  | cons a l ih =>
    have ha : k ≠ a := fun e => hk (by simp [e])
    have hl : k ∉ l := fun e => hk (by simp [e])
    rw [List.foldl_cons, ih _ hl]
    cases hga : g a with
    | none => rw [hnone o a hga]
    | some v => rw [hsome o a v hga, JSObject.get_set, if_neg ha]

theorem get_foldl_step_of_mem {α : Type} (g : String → Option α)
    (step : JSObject α → String → JSObject α)
    (hnone : ∀ o a, g a = none → step o a = o)
    (hsome : ∀ o a v, g a = some v → step o a = o.set a v)
    (headers : List String) (o : JSObject α) (k : String) (hk : k ∈ headers) :
    (headers.foldl step o).get k = (g k).orElse (fun _ => o.get k) := by
  induction headers generalizing o with
  | nil => simp at hk
  | cons a l ih =>
    rw [List.foldl_cons]
    by_cases hl : k ∈ l
    · rw [ih _ hl]
      cases hgk : g k with
      | some v => rfl
      | none =>
        simp only [Option.orElse]
        cases hga : g a with
        | none => rw [hnone o a hga]
        | some v =>
          rw [hsome o a v hga, JSObject.get_set]
          by_cases hka : k = a
          · subst hka; rw [hgk] at hga; exact absurd hga (by simp)
          · rw [if_neg hka]
    · have hka : k = a := by
        rcases List.mem_cons.mp hk with e | e
        · exact e
        · exact absurd e hl
      subst hka
      rw [get_foldl_step_of_not_mem g step hnone hsome l _ k hl]
      cases hgk : g k with
      | none => rw [hnone o k hgk]; rfl
      | some v => rw [hsome o k v hgk, JSObject.get_set, if_pos rfl]; rfl

/-- What `applyTypeOverrides` leaves under a header: the override when the header is in the
list and the table has one for its normalised name, the given type otherwise. -/
theorem applyTypeOverrides_get (headers : List String) (types : JSObject ColumnType)
    (k : String) :
    (applyTypeOverrides headers types).get k =
      if k ∈ headers then
        (TYPE_OVERRIDES.get (normalizeKey k)).orElse (fun _ => types.get k)
      else types.get k := by
  unfold applyTypeOverrides
  have hnone : ∀ (o : JSObject ColumnType) (a : String),
      TYPE_OVERRIDES.get (normalizeKey a) = none →
      (match TYPE_OVERRIDES.get (normalizeKey a) with
        | some override => o.set a override
        | none => o) = o := by
    intro o a ha; rw [ha]
  have hsome : ∀ (o : JSObject ColumnType) (a : String) (v : ColumnType),
      TYPE_OVERRIDES.get (normalizeKey a) = some v →
      (match TYPE_OVERRIDES.get (normalizeKey a) with
        | some override => o.set a override
        | none => o) = o.set a v := by
    intro o a v ha; rw [ha]
  by_cases hk : k ∈ headers
  · rw [if_pos hk]
    exact get_foldl_step_of_mem (fun header => TYPE_OVERRIDES.get (normalizeKey header)) _
      hnone hsome headers types k hk
  · rw [if_neg hk]
    exact get_foldl_step_of_not_mem (fun header => TYPE_OVERRIDES.get (normalizeKey header)) _
      hnone hsome headers types k hk

/-- Every entry of the override table is found under its normalised name with its own
type: no two entries with the same normalised name disagree. -/
theorem TYPE_OVERRIDES_consistent :
    ∀ e ∈ typeOverrideEntries, TYPE_OVERRIDES.get (normalizeKey e.1) = some e.2 := by
  decide!

theorem TYPE_OVERRIDES_keys :
    TYPE_OVERRIDES.map Prod.fst = (typeOverrideEntries.map fun e => normalizeKey e.1).reverse := by
  decide!

theorem TYPE_OVERRIDES_get_none (k : String)
    (hk : ∀ e ∈ typeOverrideEntries, k ≠ normalizeKey e.1) : TYPE_OVERRIDES.get k = none := by
  unfold JSObject.get
  rw [List.lookup_eq_none_iff]
  intro p hp
  have hmem : p.1 ∈ TYPE_OVERRIDES.map Prod.fst := List.mem_map_of_mem _ hp
  rw [TYPE_OVERRIDES_keys] at hmem
  simp only [List.mem_reverse, List.mem_map] at hmem
  obtain ⟨e, he, hek⟩ := hmem
  have := hk e he
  rw [← hek]
  simpa using this


/-- C6. After `applyTypeOverrides`, a header of the list whose normalised name is that of an
entry of the override table has that entry's type, whatever type it had; every other
header keeps its type. -/
theorem applyTypeOverrides_precedence (headers : List String) (types : JSObject ColumnType) :
    (∀ header ∈ headers, ∀ e ∈ typeOverrideEntries, normalizeKey header = normalizeKey e.1 →
        (applyTypeOverrides headers types).get header = some e.2) ∧
    (∀ header ∈ headers, (∀ e ∈ typeOverrideEntries, normalizeKey header ≠ normalizeKey e.1) →
        (applyTypeOverrides headers types).get header = types.get header) ∧
    (∀ header, header ∉ headers →
        (applyTypeOverrides headers types).get header = types.get header) := by
  refine ⟨?_, ?_, ?_⟩
  · intro header hmem e he hkey
    rw [applyTypeOverrides_get, if_pos hmem, hkey, TYPE_OVERRIDES_consistent e he]
    rfl
  · intro header hmem hno
    rw [applyTypeOverrides_get, if_pos hmem, TYPE_OVERRIDES_get_none _ hno]
    rfl
  · intro header hmem
    rw [applyTypeOverrides_get, if_neg hmem]

/-- Witness of C6: an upper-case, accented spelling of an entry is overridden, another
header is not. -/
theorem applyTypeOverrides_precedence_witness :
    (applyTypeOverrides ["SÉRIE", "Qtd"] [("Qtd", .number), ("SÉRIE", .number)]).get "SÉRIE"
        = some ColumnType.string ∧
    (applyTypeOverrides ["SÉRIE", "Qtd"] [("Qtd", .number), ("SÉRIE", .number)]).get "Qtd"
        = some ColumnType.number :=
  ⟨(applyTypeOverrides_precedence ["SÉRIE", "Qtd"] [("Qtd", .number), ("SÉRIE", .number)]).1
      "SÉRIE" (by decide) ("Série", .string) (by decide) (by decide!),
   (applyTypeOverrides_precedence ["SÉRIE", "Qtd"] [("Qtd", .number), ("SÉRIE", .number)]).2.1
      "Qtd" (by decide) (by decide!)⟩

theorem countP_lt_countP {α : Type} (p q : α → Bool) (l : List α)
    (hpq : ∀ a ∈ l, p a = true → q a = true) (a : α) (ha : a ∈ l) (hq : q a = true)
    (hp : p a = false) : l.countP p < l.countP q := by
  induction l with
  | nil => simp at ha
  | cons b l ih =>
    have hmono : l.countP p ≤ l.countP q :=
      List.countP_mono_left fun x hx hpx => hpq x (List.mem_cons_of_mem _ hx) hpx
    rcases List.mem_cons.mp ha with e | e
    · subst e
      simp only [List.countP_cons, hq, hp, if_true, Bool.false_eq_true, if_false]
      omega
    · have := ih (fun x hx => hpq x (List.mem_cons_of_mem _ hx)) e
      simp only [List.countP_cons]
      by_cases hpb : p b = true
      · have hqb := hpq b (List.mem_cons_self _ _) hpb
        simp only [hpb, hqb, if_true]
        omega
      · simp only [hpb, Bool.false_eq_true, if_false]
        split <;> omega

/-- The type `detectColumnTypes` gives a column whose non-empty values are all numbers. -/
theorem detectColumnType_numeric (h : Host) (rows : List (List Cell)) (i : Nat)
    (hnum : ∀ row ∈ rows, cellAt row i = .undefined ∨ cellAt row i = .null ∨
      cellAt row i = .str "" ∨ ∃ x, cellAt row i = .num x) :
    ((∃ row ∈ rows, ∃ x, cellAt row i = .num x ∧ h.parse_date_code x = none) →
        detectColumnType h rows i = .number) ∧
    ((∃ row ∈ rows, ∃ x, cellAt row i = .num x) →
      (∀ row ∈ rows, ∀ x, cellAt row i = .num x → (h.parse_date_code x).isSome = true) →
        detectColumnType h rows i = .date) ∧
    ((∀ row ∈ rows, ∀ x, cellAt row i ≠ .num x) → detectColumnType h rows i = .string) := by
  have hvals : ∀ v ∈ (rows.map fun row => cellAt row i).filter
      (fun value => value != Cell.null && value != Cell.str ""),
      v = .undefined ∨ ∃ x, v = .num x ∧ ∃ row ∈ rows, cellAt row i = .num x := by
    intro v hv
    simp only [List.mem_filter, List.mem_map, Bool.and_eq_true, bne_iff_ne, ne_eq] at hv
    obtain ⟨⟨row, hrow, rfl⟩, hn1, hn2⟩ := hv
    rcases hnum row hrow with e | e | e | ⟨x, e⟩
    · left; exact e
    · exact absurd e hn1
    · exact absurd e hn2
    · right; exact ⟨x, e, row, hrow, e⟩
  have hmem : ∀ row ∈ rows, ∀ x, cellAt row i = .num x →
      Cell.num x ∈ (rows.map fun row => cellAt row i).filter
        (fun value => value != Cell.null && value != Cell.str "") := by
    intro row hrow x hx
    simp only [List.mem_filter, List.mem_map, Bool.and_eq_true, bne_iff_ne, ne_eq]
    exact ⟨⟨row, hrow, hx⟩, by simp, by simp⟩
  have hsub : ∀ v ∈ (rows.map fun row => cellAt row i).filter
      (fun value => value != Cell.null && value != Cell.str ""),
      countsAsDate h v = true → globalIsFinite v = true := by
    intro v hv hd
    rcases hvals v hv with e | ⟨x, e, _⟩
    · subst e; simp [countsAsDate] at hd
    · subst e; rfl
  unfold detectColumnType
  simp only [← List.countP_eq_length_filter]
  refine ⟨?_, ?_, ?_⟩
  · rintro ⟨row, hrow, x, hx, hnone⟩
    have hlt := countP_lt_countP (countsAsDate h) globalIsFinite _ hsub (Cell.num x)
      (hmem row hrow x hx) rfl (by simp [countsAsDate, hnone])
    have h1 : ¬ (List.countP (countsAsDate h) ((rows.map fun row => cellAt row i).filter
        (fun value => value != Cell.null && value != Cell.str "")) ≥
        List.countP globalIsFinite ((rows.map fun row => cellAt row i).filter
        (fun value => value != Cell.null && value != Cell.str ""))) := by omega
    have h2 : List.countP globalIsFinite ((rows.map fun row => cellAt row i).filter
        (fun value => value != Cell.null && value != Cell.str "")) > 0 := by omega
    simp [h1, h2]
  · rintro ⟨row, hrow, x, hx⟩ hall
    have hge : List.countP globalIsFinite ((rows.map fun row => cellAt row i).filter
        (fun value => value != Cell.null && value != Cell.str "")) ≤
        List.countP (countsAsDate h) ((rows.map fun row => cellAt row i).filter
        (fun value => value != Cell.null && value != Cell.str "")) := by
      apply List.countP_mono_left
      intro v hv hf
      rcases hvals v hv with e | ⟨y, e, row', hrow', hy⟩
      · subst e; simp [globalIsFinite] at hf
      · subst e
        simpa [countsAsDate] using hall row' hrow' y hy
    have hpos : 0 < List.countP (countsAsDate h) ((rows.map fun row => cellAt row i).filter
        (fun value => value != Cell.null && value != Cell.str "")) := by
      rw [List.countP_pos_iff]
      exact ⟨Cell.num x, hmem row hrow x hx, by simpa [countsAsDate] using hall row hrow x hx⟩
    simp [hge, hpos]
  · intro hnone
    have hz : ∀ (p : Cell → Bool), (∀ v, p v = true → v ≠ Cell.undefined) →
        List.countP p ((rows.map fun row => cellAt row i).filter
        (fun value => value != Cell.null && value != Cell.str "")) = 0 := by
      intro p hp
      rw [List.countP_eq_zero]
      intro v hv hpv
      rcases hvals v hv with e | ⟨y, _, row', hrow', hy⟩
      · exact hp v (by simpa using hpv) e
      · exact hnone row' hrow' y hy
    rw [hz globalIsFinite (by intro v hv e; subst e; simp [globalIsFinite] at hv),
      hz (countsAsDate h) (by intro v hv e; subst e; simp [countsAsDate] at hv)]
    simp


theorem detectColumnTypes_get (h : Host) (headers : List String) (rows : List (List Cell))
    (i : Nat) (header : String) (hi : headers[i]? = some header)
    (hlast : ∀ j : Nat, i < j → headers[j]? ≠ some header) :
    (detectColumnTypes h headers rows).get header = some (detectColumnType h rows i) :=
  get_enum_foldl_set (fun i _ => detectColumnType h rows i) headers i header hi hlast

theorem mem_of_getElem?_eq_some {α : Type} (l : List α) (i : Nat) (a : α)
    (hi : l[i]? = some a) : a ∈ l := by
  have hlt := lt_length_of_getElem? l a i hi
  rw [List.getElem?_eq_getElem hlt] at hi
  have : l[i] = a := by simpa using hi
  rw [← this]
  exact List.getElem_mem hlt

/-- C5 (amended). For a column (the last one under its header) whose non-empty values are
all numbers, the type after `detectColumnTypes` and `applyTypeOverrides` is the override's
when the table has one for the header's normalised name (`string` for `Série`);
otherwise it is `number` when some value is not a date serial the library decodes, `date`
when there is a value and the library decodes them all, and `string` when there is no
value. -/
theorem numeric_column_type (h : Host) (headers : List String) (rows : List (List Cell))
    (i : Nat) (header : String) (hi : headers[i]? = some header)
    (hlast : ∀ j : Nat, i < j → headers[j]? ≠ some header)
    (hnum : ∀ row ∈ rows, cellAt row i = .undefined ∨ cellAt row i = .null ∨
      cellAt row i = .str "" ∨ ∃ x, cellAt row i = .num x) :
    (∀ t, TYPE_OVERRIDES.get (normalizeKey header) = some t →
      (applyTypeOverrides headers (detectColumnTypes h headers rows)).get header = some t) ∧
    (TYPE_OVERRIDES.get (normalizeKey header) = none →
      ((∃ row ∈ rows, ∃ x, cellAt row i = .num x ∧ h.parse_date_code x = none) →
        (applyTypeOverrides headers (detectColumnTypes h headers rows)).get header
          = some .number) ∧
      ((∃ row ∈ rows, ∃ x, cellAt row i = .num x) →
        (∀ row ∈ rows, ∀ x, cellAt row i = .num x → (h.parse_date_code x).isSome = true) →
        (applyTypeOverrides headers (detectColumnTypes h headers rows)).get header
          = some .date) ∧
      ((∀ row ∈ rows, ∀ x, cellAt row i ≠ .num x) →
        (applyTypeOverrides headers (detectColumnTypes h headers rows)).get header
          = some .string)) ∧
    TYPE_OVERRIDES.get (normalizeKey "Série") = some .string := by
  have hmem : header ∈ headers := mem_of_getElem?_eq_some headers i header hi
  have hget := detectColumnTypes_get h headers rows i header hi hlast
  obtain ⟨d1, d2, d3⟩ := detectColumnType_numeric h rows i hnum
  refine ⟨?_, ?_, by decide!⟩
  · intro t ht
    rw [applyTypeOverrides_get, if_pos hmem, ht]
    rfl
  · intro hnone
    have hplain : (applyTypeOverrides headers (detectColumnTypes h headers rows)).get header =
        some (detectColumnType h rows i) := by
      rw [applyTypeOverrides_get, if_pos hmem, hnone, ← hget]
      rfl
    rw [hplain]
    exact ⟨fun hx => by rw [d1 hx], fun hx hall => by rw [d2 hx hall], fun hx => by rw [d3 hx]⟩

/-- Witness of C5 (amended): a column of serial-like numbers under `Série` is typed
`string`. -/
theorem numeric_column_type_witness :
    ["Série", "Qtd"][0]? = some "Série" ∧
    (applyTypeOverrides ["Série", "Qtd"]
      (detectColumnTypes refHost ["Série", "Qtd"] [[.num 1, .num 5], [.num 2, .null]])).get
        "Série" = some ColumnType.string :=
  ⟨by decide,
   (numeric_column_type refHost ["Série", "Qtd"] [[.num 1, .num 5], [.num 2, .null]] 0 "Série"
      (by decide)
      (by
        intro j hj hjk
        have hlt : j < 2 := lt_length_of_getElem? _ _ _ hjk
        have : j = 1 := by omega
        subst this
        exact absurd hjk (by decide))
      (by
        intro row hrow
        simp only [List.mem_cons, List.mem_singleton, List.not_mem_nil, or_false] at hrow
        rcases hrow with e | e
        · subst e; exact Or.inr (Or.inr (Or.inr ⟨1, by decide⟩))
        · subst e; exact Or.inr (Or.inr (Or.inr ⟨2, by decide⟩)))).1
      ColumnType.string (by decide!)⟩

/-- C5, as stated, fails: a column of the numbers 5 and 12 under a header without override
is typed `date`, not `number`, because the library decodes both as date serials. -/
theorem numeric_column_typed_date :
    ([[Cell.num 5], [Cell.num 12]].map fun row => cellAt row 0) = [Cell.num 5, Cell.num 12] ∧
    TYPE_OVERRIDES.get (normalizeKey "Quantidade") = none ∧
    (applyTypeOverrides ["Quantidade"]
      (detectColumnTypes refHost ["Quantidade"] [[.num 5], [.num 12]])).get "Quantidade"
        = some ColumnType.date := by
  decide!

/-! ## normalizeRows -/


theorem normalizeRow_get (h : Host) (headers : List String) (types : JSObject ColumnType)
    (row : List Cell) (i : Nat) (header : String) (hi : headers[i]? = some header)
    (hlast : ∀ j : Nat, i < j → headers[j]? ≠ some header) :
    (normalizeRow h headers types row).get header =
      some (normalizeCell h (types.get header) (cellAt row i)) :=
  get_enum_foldl_set (fun i header => normalizeCell h (types.get header) (cellAt row i))
    headers i header hi hlast

/-- The value `normalizeRows` stores for a cell, case by case. -/
theorem normalizeCell_spec (h : Host) (type : Option ColumnType) (value : Cell) :
    ((value = .undefined ∨ value = .null ∨ value = .str "") →
        normalizeCell h type value = .null) ∧
    (¬ (value = .undefined ∨ value = .null ∨ value = .str "") → type = some .number →
        (∀ x, parseNumber value = .fin x → normalizeCell h type value = .num x) ∧
        ((parseNumber value).isFinite = false → normalizeCell h type value = .null)) ∧
    (¬ (value = .undefined ∨ value = .null ∨ value = .str "") → type = some .date →
        (∀ t, parseDateCell h value = some t → normalizeCell h type value = .date t) ∧
        (parseDateCell h value = none → normalizeCell h type value = .null)) ∧
    (¬ (value = .undefined ∨ value = .null ∨ value = .str "") → type ≠ some .number →
        type ≠ some .date → normalizeCell h type value = .str (jsTrim (cellToString h value))) := by
  refine ⟨?_, ?_, ?_, ?_⟩
  · intro he
    unfold normalizeCell
    rw [if_pos he]
  · intro hne ht
    subst ht
    unfold normalizeCell
    rw [if_neg hne]
    constructor
    · intro x hx; simp only [hx]
    · intro hf
      cases hp : parseNumber value with
      | fin x => rw [hp] at hf; simp [JSNumber.isFinite] at hf
      | nan => rfl
      | posInf => rfl
      | negInf => rfl
  · intro hne ht
    subst ht
    unfold normalizeCell
    rw [if_neg hne]
    constructor
    · intro t hx; simp only [hx]
    · intro hx; simp only [hx]
  · intro hne h1 h2
    unfold normalizeCell
    rw [if_neg hne]
    cases type with
    | none => rfl
    | some t =>
      cases t with
      | string => rfl
      | number => exact absurd rfl h1
      | date => exact absurd rfl h2

/-- C7. `normalizeRows` is total and returns one record per row, in the order of the rows;
under each header the record holds the value of the cell in the (last) column of that
header: `null` for a missing, null or empty cell; in a number column the finite number
`parseNumber` gives, `null` when it gives none; in a date column the date its parser gives,
`null` when it gives none; otherwise the trimmed string form of the cell. -/
theorem normalizeRows_spec (h : Host) (headers : List String) (types : JSObject ColumnType)
    (rows : List (List Cell)) :
    (normalizeRows h headers rows types).length = rows.length ∧
    ∀ (j : Nat) (row : List Cell), rows[j]? = some row →
      ∃ entry, (normalizeRows h headers rows types)[j]? = some entry ∧
        ∀ (i : Nat) (header : String), headers[i]? = some header →
          (∀ k : Nat, i < k → headers[k]? ≠ some header) →
          ∃ v, entry.get header = some v ∧
            ((cellAt row i = .undefined ∨ cellAt row i = .null ∨ cellAt row i = .str "") →
              v = .null) ∧
            (¬ (cellAt row i = .undefined ∨ cellAt row i = .null ∨ cellAt row i = .str "") →
              types.get header = some .number →
              (∀ x, parseNumber (cellAt row i) = .fin x → v = .num x) ∧
              ((parseNumber (cellAt row i)).isFinite = false → v = .null)) ∧
            (¬ (cellAt row i = .undefined ∨ cellAt row i = .null ∨ cellAt row i = .str "") →
              types.get header = some .date →
              (∀ t, parseDateCell h (cellAt row i) = some t → v = .date t) ∧
              (parseDateCell h (cellAt row i) = none → v = .null)) ∧
            (¬ (cellAt row i = .undefined ∨ cellAt row i = .null ∨ cellAt row i = .str "") →
              types.get header ≠ some .number → types.get header ≠ some .date →
              v = .str (jsTrim (cellToString h (cellAt row i)))) := by
  refine ⟨by simp [normalizeRows], ?_⟩
  intro j row hj
  refine ⟨normalizeRow h headers types row, by simp [normalizeRows, hj], ?_⟩
  intro i header hi hlast
  exact ⟨_, normalizeRow_get h headers types row i header hi hlast,
    normalizeCell_spec h (types.get header) (cellAt row i)⟩

theorem nodup_getElem?_ne {α : Type} (l : List α) (hnd : l.Nodup) (i k : Nat) (a : α)
    (hi : l[i]? = some a) (hik : i < k) : l[k]? ≠ some a := by
  intro hk
  have h1 := lt_length_of_getElem? l a i hi
  have h2 := lt_length_of_getElem? l a k hk
  rw [List.getElem?_eq_getElem h1] at hi
  rw [List.getElem?_eq_getElem h2] at hk
  have e : l[i] = l[k] := by
    have e1 : l[i] = a := by simpa using hi
    have e2 : l[k] = a := by simpa using hk
    rw [e1, e2]
  have := (List.Nodup.getElem_inj_iff hnd).mp e
  omega

/-- Witness of C7: a row with a parseable amount, an unparseable date and a padded name. -/
theorem normalizeRows_spec_witness :
    ∃ entry,
      (normalizeRows refHost ["Nome", "Valor", "Data"]
        [[.str " Acme ", .str "1.500,00", .str "n/d"]]
        [("Data", .date), ("Valor", .number), ("Nome", .string)])[0]? = some entry ∧
      entry.get "Valor" = some (.num 1500) ∧ entry.get "Data" = some .null ∧
      entry.get "Nome" = some (.str "Acme") := by
  obtain ⟨entry, he, hcells⟩ :=
    (normalizeRows_spec refHost ["Nome", "Valor", "Data"]
      [("Data", .date), ("Valor", .number), ("Nome", .string)]
      [[.str " Acme ", .str "1.500,00", .str "n/d"]]).2 0
      [.str " Acme ", .str "1.500,00", .str "n/d"] (by decide)
  have hnd : ["Nome", "Valor", "Data"].Nodup := by decide
  refine ⟨entry, he, ?_, ?_, ?_⟩
  · obtain ⟨v, hv, -, hn, -, -⟩ := hcells 1 "Valor" (by decide)
      (fun k hk => nodup_getElem?_ne _ hnd 1 k "Valor" (by decide) hk)
    rw [hv, (hn (by decide) (by decide)).1 1500 (by decide!)]
  · obtain ⟨v, hv, -, -, hd, -⟩ := hcells 2 "Data" (by decide)
      (fun k hk => nodup_getElem?_ne _ hnd 2 k "Data" (by decide) hk)
    rw [hv, (hd (by decide) (by decide)).2 (by decide!)]
  · obtain ⟨v, hv, -, -, -, hs⟩ := hcells 0 "Nome" (by decide)
      (fun k hk => nodup_getElem?_ne _ hnd 0 k "Nome" (by decide) hk)
    rw [hv, hs (by decide) (by decide) (by decide)]
    decide!

/-! ## applyFilters -/


theorem dropLeading_isSome_iff (p cs : List Char) : (dropLeading p cs).isSome = true ↔ p <+: cs := by
  induction p generalizing cs with
  | nil => simp [dropLeading]
  | cons a p ih =>
    cases cs with
    | nil => simp [dropLeading]
    | cons c cs =>
      simp only [dropLeading]
      by_cases hac : a = c
      · subst hac
        rw [if_pos rfl, ih]
        constructor
        · rintro ⟨t, rfl⟩; exact ⟨t, rfl⟩
        · rintro ⟨t, ht⟩
          exact ⟨t, by simpa using ht⟩
      · rw [if_neg hac]
        constructor
        · intro hf; simp at hf
        · rintro ⟨t, ht⟩
          simp at ht
          exact absurd ht.1 hac

/-- The model of `includes` is the substring relation. -/
theorem includesChars_iff (text pat : List Char) :
    includesChars text pat = true ↔ pat <:+: text := by
  induction text with
  | nil =>
    simp only [includesChars, List.infix_nil, List.isEmpty_iff]
  | cons c cs ih =>
    simp only [includesChars, Bool.or_eq_true, dropLeading_isSome_iff, ih]
    exact List.infix_cons_iff.symm

theorem filterThrowing_total {α : Type} (p : α → Bool) (l : List α) :
    filterThrowing (fun a => some (p a)) l = some (l.filter p) := by
  induction l with
  | nil => rfl
  | cons a l ih =>
    simp only [filterThrowing, ih, List.filter_cons]

theorem filterThrowing_congr {α : Type} (p q : α → Option Bool) (l : List α)
    (hpq : ∀ a ∈ l, p a = q a) : filterThrowing p l = filterThrowing q l := by
  induction l with
  | nil => rfl
  | cons a l ih =>
    simp only [filterThrowing]
    rw [hpq a (List.mem_cons_self _ _), ih fun b hb => hpq b (List.mem_cons_of_mem _ hb)]

theorem filterThrowing_and {α : Type} (c : α → Option Bool) (d : α → Bool) (l : List α) :
    filterThrowing (fun a => (c a).map fun b => b && d a) l =
      (filterThrowing c l).map (List.filter d) := by
  induction l with
  | nil => rfl
  | cons a l ih =>
    simp only [filterThrowing, ih]
    cases hc : c a with
    | none => rfl
    | some b =>
      cases hl : filterThrowing c l with
      | none => rfl
      | some ys =>
        cases b <;> cases hd : d a <;> simp [List.filter_cons, hd]

theorem dateCheck_withoutDates (h : Host) (headers : List String) (filters : FilterSpec)
    (row : Record) : dateCheck h headers (withoutDates filters) row = true := by
  unfold dateCheck withoutDates
  cases getEmissionField headers <;> rfl

theorem rowPasses_withoutDates (h : Host) (headers : List String) (filters : FilterSpec)
    (row : Record) :
    rowPasses h headers (withoutDates filters) row = categoryCheck h filters row := by
  unfold rowPasses
  rw [dateCheck_withoutDates]
  have : categoryCheck h (withoutDates filters) row = categoryCheck h filters row := rfl
  rw [this]
  cases categoryCheck h filters row with
  | none => rfl
  | some b => cases b <;> rfl

theorem rowPasses_eq (h : Host) (headers : List String) (filters : FilterSpec) (row : Record) :
    rowPasses h headers filters row =
      (categoryCheck h filters row).map fun b => b && dateCheck h headers filters row := by
  unfold rowPasses
  cases categoryCheck h filters row with
  | none => rfl
  | some b => cases b <;> rfl

/-- The date test is a filter applied after the category test. -/
theorem applyFilters_eq_filter_dateCheck (h : Host) (headers : List String)
    (rows : List Record) (filters : FilterSpec) :
    applyFilters h headers rows filters =
      (applyFilters h headers rows (withoutDates filters)).map
        (List.filter (dateCheck h headers filters)) := by
  unfold applyFilters
  rw [filterThrowing_congr _ _ rows fun r _ => rowPasses_eq h headers filters r,
    filterThrowing_and,
    filterThrowing_congr (rowPasses h headers (withoutDates filters)) _ rows
      fun r _ => rowPasses_withoutDates h headers filters r]

theorem withoutDates_eq_self (filters : FilterSpec) (hs : filters.startDate = none)
    (he : filters.endDate = none) : withoutDates filters = filters := by
  cases filters
  simp only at hs he
  subst hs he
  rfl

theorem dateCheck_no_bounds (h : Host) (headers : List String) (filters : FilterSpec)
    (row : Record) (hs : filters.startDate = none) (he : filters.endDate = none) :
    dateCheck h headers filters row = true := by
  have := dateCheck_withoutDates h headers filters row
  rwa [withoutDates_eq_self filters hs he] at this

theorem applyFilters_no_bounds (h : Host) (headers : List String) (rows : List Record)
    (filters : FilterSpec) (hs : filters.startDate = none) (he : filters.endDate = none) :
    applyFilters h headers rows filters = filterThrowing (categoryCheck h filters) rows := by
  unfold applyFilters
  apply filterThrowing_congr
  intro r _
  have := rowPasses_withoutDates h headers filters r
  rwa [withoutDates_eq_self filters hs he] at this

theorem categoryCheck_inactive (h : Host) (filters : FilterSpec) (row : Record)
    (hin : truthyField filters.categoryField = none ∨ filters.categoryQuery = "") :
    categoryCheck h filters row = some true := by
  unfold categoryCheck
  rcases hin with e | e
  · rw [e]
  · cases truthyField filters.categoryField with
    | none => rfl
    | some field => simp [e]

theorem string_eq_empty_of_data (s : String) (hs : s.data = []) : s = "" := by
  have : s = ⟨s.data⟩ := rfl
  rw [this, hs]

theorem categoryCheck_strings (h : Host) (filters : FilterSpec) (row : Record) (field : String)
    (hf : truthyField filters.categoryField = some field) (hq : filters.categoryQuery ≠ "")
    (hv : row.get field = none ∨ row.get field = some .null ∨ ∃ s, row.get field = some (.str s)) :
    categoryCheck h filters row =
      some (match row.get field with
        | some (.str s) =>
          decide (s ≠ "" ∧ filters.categoryQuery.data <:+: (h.toLowerCase s).data)
        | _ => false) := by
  have hq' : filters.categoryQuery.data.isEmpty = false := by
    cases hd : filters.categoryQuery.data with
    | nil => exact absurd (string_eq_empty_of_data _ hd) hq
    | cons a l => rfl
  unfold categoryCheck
  rw [hf]
  simp only [hq', Bool.false_eq_true, if_false]
  rcases hv with e | e | ⟨s, e⟩
  · rw [e]
  · rw [e]
  · rw [e]
    simp only
    by_cases hs : s.data.isEmpty = true
    · rw [if_pos hs]
      have hsempty : s = "" := string_eq_empty_of_data s (List.isEmpty_iff.mp hs)
      simp [hsempty]
    · rw [if_neg hs]
      have hne : s ≠ "" := by
        intro e'; subst e'; exact hs rfl
      congr 1
      rw [Bool.eq_iff_iff, includesChars_iff, decide_eq_true_iff]
      exact ⟨fun hi => ⟨hne, hi⟩, fun hi => hi.2⟩

/-- Where the category test of `applyFilters` does what is asked of it: without date bounds
`applyFilters` returns the whole collection when no category field or no query is set; with
both set, and every record holding a string or null under the category field, it returns,
in order, the records whose value there is a non-empty string whose lower-cased form
contains the query as given (which `collectFilters` supplies lower-cased); when none does,
the empty collection. -/
theorem applyFilters_category (h : Host) (headers : List String) (rows : List Record)
    (filters : FilterSpec) (hs : filters.startDate = none) (he : filters.endDate = none) :
    ((truthyField filters.categoryField = none ∨ filters.categoryQuery = "") →
      applyFilters h headers rows filters = some rows) ∧
    (∀ field, truthyField filters.categoryField = some field → filters.categoryQuery ≠ "" →
      (∀ r ∈ rows, r.get field = none ∨ r.get field = some .null ∨
        ∃ s, r.get field = some (.str s)) →
      applyFilters h headers rows filters = some (rows.filter fun r =>
        match r.get field with
        | some (.str s) =>
          decide (s ≠ "" ∧ filters.categoryQuery.data <:+: (h.toLowerCase s).data)
        | _ => false) ∧
      ((∀ r ∈ rows, ∀ s, r.get field = some (.str s) →
          ¬ filters.categoryQuery.data <:+: (h.toLowerCase s).data) →
        applyFilters h headers rows filters = some [])) := by
  rw [applyFilters_no_bounds h headers rows filters hs he]
  refine ⟨?_, ?_⟩
  · intro hin
    rw [filterThrowing_congr _ (fun _ => some ((fun _ => true) ()))  rows
      fun r _ => categoryCheck_inactive h filters r hin]
    rw [filterThrowing_total (fun _ => true)]
    simp
  · intro field hf hq hv
    have hmain : filterThrowing (categoryCheck h filters) rows = some (rows.filter fun r =>
        match r.get field with
        | some (.str s) =>
          decide (s ≠ "" ∧ filters.categoryQuery.data <:+: (h.toLowerCase s).data)
        | _ => false) := by
      rw [filterThrowing_congr _ _ rows
        fun r hr => categoryCheck_strings h filters r field hf hq (hv r hr)]
      exact filterThrowing_total _ rows
    refine ⟨hmain, ?_⟩
    intro hno
    rw [hmain]
    congr 1
    rw [List.filter_eq_nil_iff]
    intro r hr
    rcases hv r hr with e | e | ⟨s, e⟩
    · rw [e]; simp
    · rw [e]; simp
    · rw [e]
      simp only [decide_eq_true_eq, not_and]
      exact fun _ => hno r hr s e


/-- On records with names the query `ac` keeps the record of `Acme` only. -/
theorem applyFilters_category_witness :
    applyFilters refHost ["Nome", "Data Emissão"] sampleRecords (nameFilter "ac" none none) =
      some [[("Data Emissão", .date 1705276800000), ("Nome", .str "Acme")]] :=
  ((applyFilters_category refHost ["Nome", "Data Emissão"] sampleRecords
      (nameFilter "ac" none none) rfl rfl).2 "Nome" (by decide) (by decide)
      (by
        intro r hr
        simp only [sampleRecords, List.mem_cons, List.mem_singleton, List.not_mem_nil,
          or_false] at hr
        rcases hr with e | e | e
        · subst e; exact Or.inr (Or.inr ⟨"Acme", by decide⟩)
        · subst e; exact Or.inr (Or.inr ⟨"Beta", by decide⟩)
        · subst e; exact Or.inr (Or.inl (by decide)))).1.trans (by decide!)

/-- C8. The category test throws where it is asked to filter: in the sheet
`numericNameData` the column `Nome Emitente` holds numbers, so it is typed `number`, its
records hold numbers, and `populateControls` offers it as category all the same; with the
query `5`, which both numbers contain, `applyFilters` does not return the two records but
throws the TypeError of `value.toLowerCase` (the guard `!value` lets a number through), and
so does `updateAllVisuals`.  Without a query the two records pass. -/
theorem applyFilters_category_type_error :
    (processWorkbook refHost numericNameData).map (fun st => st.headers) =
      some ["Nome Emitente", "Valor Total NF"] ∧
    (processWorkbook refHost numericNameData).map
        (fun st => st.types.get "Nome Emitente") = some (some .number) ∧
    (processWorkbook refHost numericNameData).map (fun st => st.rawRows) =
      some [[("Valor Total NF", .num 10), ("Nome Emitente", .num 5000000)],
            [("Valor Total NF", .num 20), ("Nome Emitente", .num 5000001)]] ∧
    (processWorkbook refHost numericNameData).map
        (fun st => categoryOptions st.headers st.types) = some ["Nome Emitente"] ∧
    (processWorkbook refHost numericNameData).map
        (fun st => (collectFilters refHost st numericNameControls).categoryQuery) = some "5" ∧
    (processWorkbook refHost numericNameData).map
        (fun st => applyFilters refHost st.headers st.rawRows
          (collectFilters refHost st numericNameControls)) = some none ∧
    ((processWorkbook refHost numericNameData).bind
        fun st => updateAllVisuals refHost st numericNameControls).isSome = false ∧
    (processWorkbook refHost numericNameData).map
        (fun st => (applyFilters refHost st.headers st.rawRows
          (collectFilters refHost st { numericNameControls with categoryFilter := "" })).map
            List.length) = some (some 2) := by
  refine ⟨by decide!, by decide!, by decide!, by decide!, by decide!, by decide!, by decide!,
    by decide!⟩

theorem dateCheck_bounds (h : Host) (headers : List String) (filters : FilterSpec)
    (row : Record) (ef : String) (hef : getEmissionField headers = some ef)
    (hb : filters.startDate.isSome = true ∨ filters.endDate.isSome = true) :
    dateCheck h headers filters row =
      (match row.get ef with
       | some (.date d) => withinDateBounds h filters d
       | _ => false) := by
  unfold dateCheck
  rw [hef]
  have hor : (filters.startDate.isSome || filters.endDate.isSome) = true := by
    rcases hb with e | e <;> simp [e]
  simp only [hor, if_true]
  cases hv : row.get ef with
  | none => rfl
  | some v =>
    cases v with
    | date d =>
      simp only [withinDateBounds]
      congr 1
      · cases filters.startDate with
        | none => rfl
        | some s =>
          cases s with
          | none => rfl
          | some s =>
            by_cases hx : d < s
            · simp [hx, not_le.mpr hx]
            · simp [hx, not_lt.mp hx]
      · cases filters.endDate with
        | none => rfl
        | some e =>
          cases e with
          | none => rfl
          | some e =>
            by_cases hx : h.endOfDay e < d
            · simp [hx, not_le.mpr hx]
            · simp [hx, not_lt.mp hx]
    | null => rfl
    | str s => rfl
    | num x => rfl

theorem dateCheck_no_emission (h : Host) (headers : List String) (filters : FilterSpec)
    (row : Record) (hef : getEmissionField headers = none) :
    dateCheck h headers filters row = true := by
  unfold dateCheck
  rw [hef]

/-- C9 (amended). With a start or an end date set, and a header matching an emission
candidate name, `applyFilters` keeps, of the records that pass the category test, exactly
those whose value under that header is a date within the bounds (at or after a valid
start, at or before 23:59:59.999 of the day of a valid end); a null there is excluded.
When no header matches an emission candidate name the bounds are ignored, whatever
column is typed `date`. -/
theorem applyFilters_date_range (h : Host) (headers : List String) (rows : List Record)
    (filters : FilterSpec)
    (hb : filters.startDate.isSome = true ∨ filters.endDate.isSome = true) :
    (∀ ef, getEmissionField headers = some ef →
      applyFilters h headers rows filters =
        (applyFilters h headers rows (withoutDates filters)).map (List.filter fun r =>
          match r.get ef with
          | some (.date d) => withinDateBounds h filters d
          | _ => false) ∧
      ((truthyField filters.categoryField = none ∨ filters.categoryQuery = "") →
        applyFilters h headers rows filters = some (rows.filter fun r =>
          match r.get ef with
          | some (.date d) => withinDateBounds h filters d
          | _ => false))) ∧
    (getEmissionField headers = none →
      applyFilters h headers rows filters = applyFilters h headers rows (withoutDates filters)) := by
  have hwd : (truthyField filters.categoryField = none ∨ filters.categoryQuery = "") →
      applyFilters h headers rows (withoutDates filters) = some rows := by
    intro hin
    unfold applyFilters
    rw [filterThrowing_congr _ (fun _ => some ((fun _ => true) ())) rows
      fun r _ => (rowPasses_withoutDates h headers filters r).trans
        (categoryCheck_inactive h filters r hin)]
    rw [filterThrowing_total (fun _ => true)]
    simp
  refine ⟨?_, ?_⟩
  · intro ef hef
    have hfun : dateCheck h headers filters = fun r =>
        match r.get ef with
        | some (.date d) => withinDateBounds h filters d
        | _ => false := by
      funext r
      exact dateCheck_bounds h headers filters r ef hef hb
    have hmain := applyFilters_eq_filter_dateCheck h headers rows filters
    rw [hfun] at hmain
    refine ⟨hmain, ?_⟩
    intro hin
    rw [hmain, hwd hin]
    rfl
  · intro hef
    have hfun : dateCheck h headers filters = fun _ => true := by
      funext r
      exact dateCheck_no_emission h headers filters r hef
    rw [applyFilters_eq_filter_dateCheck h headers rows filters, hfun]
    cases applyFilters h headers rows (withoutDates filters) with
    | none => rfl
    | some l => simp

/-- Witness of C9 (amended): from 2024-01-20 on, only the record of 2024-02-01 is kept. -/
theorem applyFilters_date_range_witness :
    getEmissionField ["Nome", "Data Emissão"] = some "Data Emissão" ∧
    applyFilters refHost ["Nome", "Data Emissão"] sampleRecords
        (nameFilter "" (some (some 1705708800000)) none) =
      some [[("Data Emissão", .date 1706745600000), ("Nome", .str "Beta")]] :=
  ⟨by decide!,
   (((applyFilters_date_range refHost ["Nome", "Data Emissão"] sampleRecords
      (nameFilter "" (some (some 1705708800000)) none) (Or.inl rfl)).1
      "Data Emissão" (by decide!)).2 (Or.inr rfl)).trans (by decide!)⟩

/-- C9, as stated, fails: with no emission header the date field resolves to the first
column typed `date`, yet `applyFilters` keeps a record dated before the start bound. -/
theorem applyFilters_date_fallback_counterexample :
    getTimelineDateField ["Vencimento"] [("Vencimento", .date)] = some "Vencimento" ∧
    applyFilters refHost ["Vencimento"] [[("Vencimento", .date 0)]]
        { categoryField := none, valueField := none, dateField := some "Vencimento",
          categoryQuery := "", startDate := some (some 86400000), endDate := none } =
      some [[("Vencimento", .date 0)]] := by
  decide!

/-! ## Binary64 addition -/

theorem bitLength_zero (fuel : Nat) : bitLength fuel 0 = 0 := by
  cases fuel <;> simp [bitLength]

theorem bitLength_spec (fuel n : Nat) (hn : n < 2 ^ fuel) (h0 : n ≠ 0) :
    ∃ j, bitLength fuel n = j + 1 ∧ 2 ^ j ≤ n ∧ n < 2 ^ (j + 1) := by
  induction fuel generalizing n with
  | zero =>
    simp at hn
    exact absurd hn h0
  | succ fuel ih =>
    simp only [bitLength, h0, if_false]
    by_cases h2 : n / 2 = 0
    · refine ⟨0, by rw [h2, bitLength_zero], ?_, ?_⟩ <;> omega
    · have hlt : n / 2 < 2 ^ fuel := by
        rw [pow_succ] at hn
        omega
      obtain ⟨j, hj, h1, h3⟩ := ih (n / 2) hlt h2
      refine ⟨j + 1, by rw [hj], ?_, ?_⟩
      · rw [pow_succ]
        omega
      · rw [pow_succ] at h3 ⊢
        omega

theorem roundPositive_nat (n : Nat) (h0 : 0 < n) (hn : n < 2 ^ 53) :
    roundPositive n 1 = (n : ℚ) := by
  obtain ⟨j, hj, h1, h2⟩ := bitLength_spec (n + 1) n
    (lt_trans (Nat.lt_two_pow n) (Nat.pow_lt_pow_right (by norm_num) (Nat.lt_succ_self n)))
    (by omega)
  have hj53 : j < 53 := by
    by_contra hge
    have : 2 ^ 53 ≤ 2 ^ j := Nat.pow_le_pow_right (by norm_num) (by omega)
    omega
  have hone : bitLength (1 + 1) 1 = 1 := by decide
  unfold roundPositive
  simp only [hj, hone]
  have he0 : ((j + 1 : Nat) : Int) - ((1 : Nat) : Int) = (j : Int) := by
    push_cast
    ring
  rw [he0]
  have ht1 : (j : Int).toNat = j := Int.toNat_natCast j
  have ht2 : (-(j : Int)).toNat = 0 := Int.toNat_neg_nat j
  simp only [ht1, ht2, pow_zero, mul_one, one_mul, h1, if_true]
  have hmax : max (j : Int) (-1022) = (j : Int) := max_eq_left (by omega)
  rw [hmax]
  have hk1 : (-((j : Int) - 52)).toNat = 52 - j := by omega
  have hk2 : ((j : Int) - 52).toNat = 0 := by omega
  simp only [hk1, hk2, pow_zero, mul_one]
  have hr : roundHalfEven (n * 2 ^ (52 - j)) 1 = n * 2 ^ (52 - j) := by
    simp [roundHalfEven, Nat.mod_one]
  rw [hr]
  push_cast
  field_simp

theorem roundToDouble_intCast (n : ℤ) (hn : |n| < 2 ^ 53) :
    roundToDouble (n : ℚ) = .fin (n : ℚ) := by
  by_cases h0 : n = 0
  · subst h0
    simp [roundToDouble]
  · have hq : ((n : ℚ) = 0) = False := by simp [h0]
    have habs : n.natAbs < 2 ^ 53 := by
      zify
      exact hn
    have hpos : 0 < n.natAbs := Int.natAbs_pos.mpr h0
    unfold roundToDouble
    simp only [hq, if_false, Rat.num_intCast, Rat.den_intCast, roundPositive_nat _ hpos habs]
    have hlt : ¬ ((2 : ℚ) ^ 1024 ≤ (n.natAbs : ℚ)) := by
      rw [not_le]
      have h1 : (n.natAbs : ℚ) < 2 ^ 53 := by exact_mod_cast habs
      have h2 : (2 : ℚ) ^ 53 ≤ 2 ^ 1024 := pow_le_pow_right₀ (by norm_num) (by norm_num)
      linarith
    rw [if_neg hlt]
    have hcast : ((n.natAbs : ℤ) : ℚ) = (n.natAbs : ℚ) := Int.cast_natCast _
    by_cases hneg : (n : ℚ) < 0
    · rw [if_pos hneg]
      have hn' : n < 0 := by exact_mod_cast hneg
      have e : (n.natAbs : ℤ) = -n := by omega
      rw [← hcast, e, Int.cast_neg, neg_neg]
    · rw [if_neg hneg]
      have hn' : 0 ≤ n := by
        rw [not_lt] at hneg
        exact_mod_cast hneg
      have e : (n.natAbs : ℤ) = n := by omega
      rw [← hcast, e]

/-! ## Sums that do not round -/

theorem jsAdd_intCast (a b : ℤ) (hab : |(a : ℚ)| + |(b : ℚ)| < 2 ^ 53) :
    jsAdd (some (.fin (a : ℚ))) (some (.fin (b : ℚ))) = some (.fin (((a + b : ℤ)) : ℚ)) := by
  have h1 : |((a + b : ℤ) : ℚ)| < 2 ^ 53 := by
    push_cast
    exact lt_of_le_of_lt (abs_add _ _) hab
  have h2 : |a + b| < 2 ^ 53 := by exact_mod_cast h1
  have h3 := roundToDouble_intCast (a + b) h2
  simp only [jsAdd, JSNumber.add]
  rw [← h3]
  push_cast
  rfl

theorem totalValue_fin (q : ℚ) : totalValue (some (.fin q)) = q := rfl

/-- A left fold of `+` over whole numbers whose absolute values stay below 2^53 in sum is
their sum. -/
theorem foldl_jsAdd_exact (ts : List (Option JSNumber)) (a : ℤ)
    (hts : ∀ t ∈ ts, ∃ n : ℤ, t = some (.fin (n : ℚ)))
    (hb : |(a : ℚ)| + (ts.map fun t => |totalValue t|).sum < 2 ^ 53) :
    ts.foldl jsAdd (some (.fin (a : ℚ))) = some (.fin ((a : ℚ) + (ts.map totalValue).sum)) := by
  induction ts generalizing a with
  | nil => simp
  | cons t ts ih =>
    obtain ⟨n, hn⟩ := hts t (List.mem_cons_self _ _)
    subst hn
    simp only [List.map_cons, List.sum_cons, totalValue_fin] at hb
    have hnn : 0 ≤ (ts.map fun t => |totalValue t|).sum :=
      List.sum_nonneg (by
        intro x hx
        obtain ⟨t, _, rfl⟩ := List.mem_map.mp hx
        exact abs_nonneg _)
    simp only [List.foldl_cons, List.map_cons, List.sum_cons, totalValue_fin]
    rw [jsAdd_intCast a n (by linarith),
      ih (a + n) (fun t ht => hts t (List.mem_cons_of_mem _ ht)) (by
        push_cast
        have := abs_add (a : ℚ) (n : ℚ)
        linarith)]
    push_cast
    congr 2
    ring

/-- When every total is a finite number, the sum of the totals is the sum of their values. -/
theorem foldr_addFinite_eq (ts : List (Option JSNumber))
    (hts : ∀ t ∈ ts, ∃ q : ℚ, t = some (.fin q)) :
    (ts.map finiteNumber).foldr addFinite (some 0) = some ((ts.map totalValue).sum) := by
  induction ts with
  | nil => rfl
  | cons t ts ih =>
    obtain ⟨q, hq⟩ := hts t (List.mem_cons_self _ _)
    subst hq
    simp only [List.map_cons, List.foldr_cons, List.sum_cons,
      ih (fun t ht => hts t (List.mem_cons_of_mem _ ht))]
    rfl

/-! ## Aggregation by category -/

theorem jsMap_mem_of_set (m : JSMap) (key : Value) (b : Bucket) (e : Value × Bucket)
    (he : e ∈ m.set key b) : e ∈ m ∨ e.2 = b := by
  induction m with
  | nil =>
    simp only [JSMap.set, List.mem_singleton] at he
    right; rw [he]
  | cons x rest ih =>
    simp only [JSMap.set] at he
    split at he
    · rcases List.mem_cons.mp he with e1 | e1
      · right; rw [e1]
      · left; exact List.mem_cons_of_mem _ e1
    · rcases List.mem_cons.mp he with e1 | e1
      · left; rw [e1]; exact List.mem_cons_self _ _
      · rcases ih e1 with h1 | h1
        · left; exact List.mem_cons_of_mem _ h1
        · right; exact h1

theorem jsMap_get_mem (m : JSMap) (key : Value) (b : Bucket) (hg : m.get key = some b) :
    ∃ e ∈ m, e.2 = b := by
  unfold JSMap.get at hg
  cases hf : m.find? (fun e => sameValueZero e.1 key) with
  | none => rw [hf] at hg; simp at hg
  | some e =>
    rw [hf] at hg
    exact ⟨e, List.mem_of_find?_eq_some hf, by simpa using hg⟩

theorem jsMap_sum_set (f : Bucket → ℚ) (m : JSMap) (key : Value) (b : Bucket) :
    ((m.set key b).map fun e => f e.2).sum =
      (m.map fun e => f e.2).sum - ((m.get key).map f).getD 0 + f b := by
  induction m with
  | nil => simp [JSMap.set, JSMap.get]
  | cons e rest ih =>
    by_cases hk : sameValueZero e.1 key = true
    · have hget : JSMap.get (e :: rest) key = some e.2 := by
        simp [JSMap.get, List.find?_cons, hk]
      rw [hget]
      simp only [JSMap.set, hk, if_true, List.map_cons, List.sum_cons, Option.map_some',
        Option.getD_some]
      ring
    · have hget : JSMap.get (e :: rest) key = JSMap.get rest key := by
        simp [JSMap.get, List.find?_cons, hk]
      rw [hget]
      simp only [JSMap.set, hk, Bool.false_eq_true, if_false, List.map_cons, List.sum_cons, ih]
      ring

theorem jsMap_count_set (m : JSMap) (key : Value) (total : Option JSNumber) :
    sumOfCounts (m.set key
        { total := total,
          count := ((m.get key).getD { total := some (.fin 0), count := 0 }).count + 1 }) =
      sumOfCounts m + 1 := by
  induction m with
  | nil => simp [JSMap.get, JSMap.set, sumOfCounts]
  | cons e rest ih =>
    by_cases hk : sameValueZero e.1 key = true
    · have hget : JSMap.get (e :: rest) key = some e.2 := by
        simp [JSMap.get, List.find?_cons, hk]
      rw [hget]
      simp only [JSMap.set, hk, if_true, Option.getD_some, sumOfCounts, List.map_cons,
        List.sum_cons]
      omega
    · have hget : JSMap.get (e :: rest) key = JSMap.get rest key := by
        simp [JSMap.get, List.find?_cons, hk]
      rw [hget]
      simp only [JSMap.set, hk, Bool.false_eq_true, if_false]
      simp only [sumOfCounts, List.map_cons, List.sum_cons] at ih ⊢
      rw [ih]
      omega

theorem aggregateByField_counts (field : String) (valueField : Option String)
    (rows : List Record) (m : JSMap) :
    sumOfCounts (rows.foldl (aggregateStep field valueField) m) = sumOfCounts m + rows.length := by
  induction rows generalizing m with
  | nil => simp
  | cons r rows ih =>
    simp only [List.foldl_cons, List.length_cons]
    rw [ih, aggregateStep, jsMap_count_set]
    omega

theorem abs_totalValue_le_sum (ts : List (Option JSNumber)) (t : Option JSNumber)
    (ht : t ∈ ts) : |totalValue t| ≤ (ts.map fun t => |totalValue t|).sum :=
  List.single_le_sum
    (by
      intro x hx
      obtain ⟨t, _, rfl⟩ := List.mem_map.mp hx
      exact abs_nonneg _)
    _ (List.mem_map.mpr ⟨t, ht, rfl⟩)

/-- One step of the aggregation in which nothing rounds: the totals stay whole numbers, their
sum grows by the operand and the sum of their absolute values by at most its absolute
value. -/
theorem jsMap_set_exact (m : JSMap) (key : Value) (v : ℤ)
    (hm : ∀ e ∈ m, ∃ n : ℤ, e.2.total = some (.fin (n : ℚ)))
    (hA : (m.map fun e => |totalValue e.2.total|).sum + |(v : ℚ)| < 2 ^ 53) :
    (∀ e ∈ m.set key
        { total := jsAdd ((m.get key).getD { total := some (.fin 0), count := 0 }).total
            (some (.fin (v : ℚ))),
          count := ((m.get key).getD { total := some (.fin 0), count := 0 }).count + 1 },
      ∃ n : ℤ, e.2.total = some (.fin (n : ℚ))) ∧
    ((m.set key
        { total := jsAdd ((m.get key).getD { total := some (.fin 0), count := 0 }).total
            (some (.fin (v : ℚ))),
          count := ((m.get key).getD { total := some (.fin 0), count := 0 }).count + 1 }).map
        fun e => totalValue e.2.total).sum =
      (m.map fun e => totalValue e.2.total).sum + (v : ℚ) ∧
    ((m.set key
        { total := jsAdd ((m.get key).getD { total := some (.fin 0), count := 0 }).total
            (some (.fin (v : ℚ))),
          count := ((m.get key).getD { total := some (.fin 0), count := 0 }).count + 1 }).map
        fun e => |totalValue e.2.total|).sum ≤
      (m.map fun e => |totalValue e.2.total|).sum + |(v : ℚ)| := by
  have hcur : ∃ t : ℤ,
      ((m.get key).getD { total := some (.fin 0), count := 0 }).total = some (.fin (t : ℚ)) ∧
      |(t : ℚ)| ≤ (m.map fun e => |totalValue e.2.total|).sum ∧
      ((m.get key).map fun b => totalValue b.total).getD 0 = (t : ℚ) ∧
      ((m.get key).map fun b => |totalValue b.total|).getD 0 = |(t : ℚ)| := by
    cases hg : m.get key with
    | none =>
      refine ⟨0, by simp, ?_, by simp, by simp⟩
      simp only [Int.cast_zero, abs_zero]
      exact List.sum_nonneg (by
        intro x hx
        obtain ⟨t, _, rfl⟩ := List.mem_map.mp hx
        exact abs_nonneg _)
    | some b0 =>
      obtain ⟨e, he, heb⟩ := jsMap_get_mem m key b0 hg
      obtain ⟨n, hn⟩ := hm e he
      rw [heb] at hn
      refine ⟨n, by simpa using hn, ?_, by simp [hn, totalValue_fin], by simp [hn, totalValue_fin]⟩
      have h1 := abs_totalValue_le_sum (m.map fun e => e.2.total) e.2.total
        (List.mem_map.mpr ⟨e, he, rfl⟩)
      rw [heb, hn, totalValue_fin, List.map_map] at h1
      exact h1
  obtain ⟨t, ht, htA, hs1, hs2⟩ := hcur
  have hadd : jsAdd ((m.get key).getD { total := some (.fin 0), count := 0 }).total
      (some (.fin (v : ℚ))) = some (.fin (((t + v : ℤ)) : ℚ)) := by
    rw [ht]
    exact jsAdd_intCast t v (by linarith)
  rw [hadd]
  refine ⟨?_, ?_, ?_⟩
  · intro e he
    rcases jsMap_mem_of_set m key _ e he with h1 | h1
    · exact hm e h1
    · exact ⟨t + v, by rw [h1]⟩
  · rw [jsMap_sum_set (fun b => totalValue b.total), hs1, totalValue_fin]
    push_cast
    ring
  · rw [jsMap_sum_set (fun b => |totalValue b.total|), hs2, totalValue_fin]
    push_cast
    have := abs_add (t : ℚ) (v : ℚ)
    linarith

theorem foldl_aggregateStep_exact (field : String) (valueField : Option String)
    (v : Record → ℤ) (rows : List Record) (m : JSMap)
    (hop : ∀ r ∈ rows, metricOperand valueField r = some (.fin (v r : ℚ)))
    (hm : ∀ e ∈ m, ∃ n : ℤ, e.2.total = some (.fin (n : ℚ)))
    (hA : (m.map fun e => |totalValue e.2.total|).sum + (rows.map fun r => |(v r : ℚ)|).sum
      < 2 ^ 53) :
    (∀ e ∈ rows.foldl (aggregateStep field valueField) m,
      ∃ n : ℤ, e.2.total = some (.fin (n : ℚ))) ∧
    ((rows.foldl (aggregateStep field valueField) m).map fun e => totalValue e.2.total).sum =
      (m.map fun e => totalValue e.2.total).sum + (rows.map fun r => (v r : ℚ)).sum ∧
    ((rows.foldl (aggregateStep field valueField) m).map fun e => |totalValue e.2.total|).sum ≤
      (m.map fun e => |totalValue e.2.total|).sum + (rows.map fun r => |(v r : ℚ)|).sum := by
  induction rows generalizing m with
  | nil => simpa using hm
  | cons r rows ih =>
    simp only [List.map_cons, List.sum_cons] at hA
    have hnn : 0 ≤ (rows.map fun r => |(v r : ℚ)|).sum :=
      List.sum_nonneg (by
        intro x hx
        obtain ⟨t, _, rfl⟩ := List.mem_map.mp hx
        exact abs_nonneg _)
    have hstep : aggregateStep field valueField m r =
        m.set (categoryKey r field)
          { total := jsAdd
              ((m.get (categoryKey r field)).getD { total := some (.fin 0), count := 0 }).total
              (some (.fin (v r : ℚ))),
            count :=
              ((m.get (categoryKey r field)).getD { total := some (.fin 0), count := 0 }).count
                + 1 } := by
      unfold aggregateStep
      rw [hop r (List.mem_cons_self _ _)]
    obtain ⟨s1, s2, s3⟩ := jsMap_set_exact m (categoryKey r field) (v r) hm (by linarith)
    rw [← hstep] at s1 s2 s3
    obtain ⟨i1, i2, i3⟩ := ih (aggregateStep field valueField m r)
      (fun x hx => hop x (List.mem_cons_of_mem _ hx)) s1 (by linarith)
    simp only [List.foldl_cons, List.map_cons, List.sum_cons]
    refine ⟨i1, ?_, ?_⟩
    · rw [i2, s2]
      ring
    · linarith

theorem valueOrZero_whole (vf : String) (r : Record)
    (hr : r.get vf = none ∨ r.get vf = some .null ∨ ∃ n : ℤ, r.get vf = some (.num (n : ℚ))) :
    valueOrZero (r.get vf) = some (.fin ((⌊fieldNumber vf r⌋ : ℤ) : ℚ)) ∧
    ((⌊fieldNumber vf r⌋ : ℤ) : ℚ) = fieldNumber vf r := by
  unfold fieldNumber
  rcases hr with e | e | ⟨n, e⟩
  · rw [e]; simp [valueOrZero]
  · rw [e]; simp [valueOrZero]
  · rw [e]; simp [valueOrZero]

theorem map_whole_eq (vf : String) (rows : List Record)
    (hnum : ∀ r ∈ rows, r.get vf = none ∨ r.get vf = some .null ∨
      ∃ n : ℤ, r.get vf = some (.num (n : ℚ))) :
    (rows.map fun r => ((⌊fieldNumber vf r⌋ : ℤ) : ℚ)) = rows.map (fieldNumber vf) ∧
    (rows.map fun r => |((⌊fieldNumber vf r⌋ : ℤ) : ℚ)|) = rows.map fun r => |fieldNumber vf r| := by
  constructor
  · exact List.map_congr_left fun r hr => (valueOrZero_whole vf r (hnum r hr)).2
  · exact List.map_congr_left fun r hr => by rw [(valueOrZero_whole vf r (hnum r hr)).2]

/-- The sums of an aggregation in which nothing rounds. -/
theorem aggregateByField_exact (field : String) (valueField : Option String)
    (v : Record → ℤ) (rows : List Record)
    (hop : ∀ r ∈ rows, metricOperand valueField r = some (.fin (v r : ℚ)))
    (hA : (rows.map fun r => |(v r : ℚ)|).sum < 2 ^ 53) :
    sumOfTotals (aggregateByField field valueField rows) =
      some ((rows.map fun r => (v r : ℚ)).sum) ∧
    binarySumOfTotals (aggregateByField field valueField rows) =
      some (.fin ((rows.map fun r => (v r : ℚ)).sum)) := by
  obtain ⟨h1, h2, h3⟩ := foldl_aggregateStep_exact field valueField v rows [] hop
    (by simp) (by simpa using hA)
  simp only [List.map_nil, List.sum_nil, zero_add] at h2 h3
  have hts : ∀ t ∈ (aggregateByField field valueField rows).map (fun e => e.2.total),
      ∃ n : ℤ, t = some (.fin (n : ℚ)) := by
    intro t ht
    obtain ⟨e, he, rfl⟩ := List.mem_map.mp ht
    exact h1 e he
  constructor
  · have := foldr_addFinite_eq ((aggregateByField field valueField rows).map fun e => e.2.total)
      (fun t ht => by
        obtain ⟨n, hn⟩ := hts t ht
        exact ⟨n, hn⟩)
    rw [List.map_map, List.map_map] at this
    unfold sumOfTotals
    rw [show (fun e : Value × Bucket => finiteNumber e.2.total) =
      finiteNumber ∘ fun e => e.2.total from rfl, this]
    congr 1
  · have := foldl_jsAdd_exact ((aggregateByField field valueField rows).map fun e => e.2.total)
      0 hts (by
        rw [List.map_map]
        simp only [Int.cast_zero, abs_zero, zero_add]
        exact lt_of_le_of_lt h3 hA)
    rw [List.map_map] at this
    unfold binarySumOfTotals
    simp only [Int.cast_zero, zero_add] at this
    rw [this]
    congr 2

theorem binarySumOfField_exact (vf : String) (rows : List Record)
    (hnum : ∀ r ∈ rows, r.get vf = none ∨ r.get vf = some .null ∨
      ∃ n : ℤ, r.get vf = some (.num (n : ℚ)))
    (hA : sumOfAbs vf rows < 2 ^ 53) :
    binarySumOfField vf rows = some (.fin (sumOfField vf rows)) := by
  have hts : ∀ t ∈ rows.map (fun r => valueOrZero (r.get vf)),
      ∃ n : ℤ, t = some (.fin (n : ℚ)) := by
    intro t ht
    obtain ⟨r, hr, rfl⟩ := List.mem_map.mp ht
    exact ⟨_, (valueOrZero_whole vf r (hnum r hr)).1⟩
  have hval : (rows.map fun r => valueOrZero (r.get vf)).map totalValue =
      rows.map (fieldNumber vf) := by
    rw [List.map_map]
    exact List.map_congr_left fun r hr => by
      simp only [Function.comp]
      rw [(valueOrZero_whole vf r (hnum r hr)).1, totalValue_fin,
        (valueOrZero_whole vf r (hnum r hr)).2]
  have habs : (rows.map fun r => valueOrZero (r.get vf)).map (fun t => |totalValue t|) =
      rows.map fun r => |fieldNumber vf r| := by
    rw [List.map_map]
    exact List.map_congr_left fun r hr => by
      simp only [Function.comp]
      rw [(valueOrZero_whole vf r (hnum r hr)).1, totalValue_fin,
        (valueOrZero_whole vf r (hnum r hr)).2]
  have := foldl_jsAdd_exact (rows.map fun r => valueOrZero (r.get vf)) 0 hts (by
    rw [habs]
    simpa using hA)
  rw [List.foldl_map, hval] at this
  unfold binarySumOfField sumOfField
  simp only [Int.cast_zero, zero_add] at this
  exact this

/-- C10 (amended). Grouping records by a category field (as `updateCategoryChart` and the
fallback branch of `updateTimelineChart` do) puts a record with a missing, null or blank
category in the bucket `(Sem valor)`, and over all buckets the counts add up to the number of
records.  The totals are binary64 sums: they add up to the number of records when no value
field is chosen (and there are fewer than 2^53 records), and to the sum of the value field,
null counted as 0, when one is chosen and holds whole numbers or null whose absolute values
add up to less than 2^53, so that no addition rounds; this for the sums taken as sums of
real numbers and for the sums taken with `+` alike. -/
theorem aggregateByField_sums (field : String) (valueField : Option String)
    (rows : List Record) :
    sumOfCounts (aggregateByField field valueField rows) = rows.length ∧
    (truthyField valueField = none → rows.length < 2 ^ 53 →
      sumOfTotals (aggregateByField field valueField rows) = some (rows.length : ℚ) ∧
      binarySumOfTotals (aggregateByField field valueField rows) =
        some (.fin (rows.length : ℚ))) ∧
    (∀ vf, truthyField valueField = some vf →
      (∀ r ∈ rows, r.get vf = none ∨ r.get vf = some .null ∨
        ∃ n : ℤ, r.get vf = some (.num (n : ℚ))) →
      sumOfAbs vf rows < 2 ^ 53 →
      sumOfTotals (aggregateByField field valueField rows) = some (sumOfField vf rows) ∧
      binarySumOfTotals (aggregateByField field valueField rows) =
        some (.fin (sumOfField vf rows)) ∧
      binarySumOfField vf rows = some (.fin (sumOfField vf rows))) ∧
    (∀ r ∈ rows, (r.get field = none ∨ r.get field = some .null ∨
        r.get field = some (.str "")) → categoryKey r field = .str "(Sem valor)") ∧
    (∀ filters : FilterSpec, truthyField filters.categoryField = some field →
      filters.valueField = valueField →
      updateCategoryChart rows filters =
        (aggregateByField field valueField rows).map fun e =>
          (e.1, bucketMetric valueField e.2)) ∧
    (∀ (st : State) (filters : FilterSpec), truthyField filters.dateField = none →
      timelineFallbackField st filters = some field → filters.valueField = valueField →
      timelineFallbackAggregation st rows filters =
        some (aggregateByField field valueField rows)) := by
  refine ⟨?_, ?_, ?_, ?_, ?_, ?_⟩
  · have := aggregateByField_counts field valueField rows []
    unfold aggregateByField
    rw [this]
    simp [sumOfCounts]
  · intro hnone hlen
    have hsum : (rows.map fun _ => (((1 : ℤ) : ℚ))).sum = (rows.length : ℚ) := by
      simp
    have hop : ∀ r ∈ rows, metricOperand valueField r = some (.fin (((1 : ℤ)) : ℚ)) := by
      intro r _
      simp [metricOperand, hnone]
    have hA : (rows.map fun _ => |(((1 : ℤ)) : ℚ)|).sum < 2 ^ 53 := by
      have : (rows.map fun _ => |(((1 : ℤ)) : ℚ)|).sum = (rows.length : ℚ) := by simp
      rw [this]
      exact_mod_cast hlen
    have := aggregateByField_exact field valueField (fun _ => 1) rows hop hA
    rw [hsum] at this
    exact this
  · intro vf hvf hnum hA
    obtain ⟨e1, e2⟩ := map_whole_eq vf rows hnum
    have hop : ∀ r ∈ rows,
        metricOperand valueField r = some (.fin ((⌊fieldNumber vf r⌋ : ℤ) : ℚ)) := by
      intro r hr
      simp only [metricOperand, hvf]
      exact (valueOrZero_whole vf r (hnum r hr)).1
    have := aggregateByField_exact field valueField (fun r => ⌊fieldNumber vf r⌋) rows hop
      (by rw [e2]; exact hA)
    rw [e1] at this
    exact ⟨this.1, this.2, binarySumOfField_exact vf rows hnum hA⟩
  · intro r _ hr
    unfold categoryKey
    rcases hr with e | e | e
    · rw [e]
    · rw [e]
    · rw [e]; rfl
  · intro filters hcf hvf
    unfold updateCategoryChart
    rw [hcf, hvf]
  · intro st filters hdf hfb hvf
    unfold timelineFallbackAggregation
    rw [hdf, hfb, hvf]

/-- Witness of C10 (amended): two records of `Acme` and one without category, whole amounts,
1750 in total. -/
theorem aggregateByField_sums_witness :
    truthyField (some "Valor") = some "Valor" ∧
    sumOfAbs "Valor" amountRecords < 2 ^ 53 ∧
    sumOfTotals (aggregateByField "Nome" (some "Valor") amountRecords) = some 1750 ∧
    aggregateByField "Nome" (some "Valor") amountRecords =
      [(.str "Acme", { total := some (.fin 1750), count := 2 }),
       (.str "(Sem valor)", { total := some (.fin 0), count := 1 })] :=
  ⟨by decide, by decide!,
   ((aggregateByField_sums "Nome" (some "Valor") amountRecords).2.2.1 "Valor" (by decide)
      (by
        intro r hr
        simp only [amountRecords, List.mem_cons, List.mem_singleton, List.not_mem_nil,
          or_false] at hr
        rcases hr with e | e | e
        · subst e; exact Or.inr (Or.inr ⟨1500, by decide!⟩)
        · subst e; exact Or.inr (Or.inl (by decide))
        · subst e; exact Or.inr (Or.inr ⟨250, by decide!⟩))
      (by decide!)).1.trans (by decide!),
   by decide!⟩

/-- C10, as stated, fails: with the binary64 amounts 0.2 and 0.1 in the bucket `A` and 0.3
in the bucket `B` between them, the total of `A` is 0.30000000000000004; the totals add up
to 0.6000000000000001 with `+` and the amounts of the records to 0.6 (the double below it),
as `updateSummary` shows, and as sums of real numbers the two differ as well. -/
theorem aggregateByField_counterexample :
    nearestDouble 0.2 = 3602879701896397 / 18014398509481984 ∧
    nearestDouble 0.3 = 5404319552844595 / 18014398509481984 ∧
    nearestDouble 0.1 = 3602879701896397 / 36028797018963968 ∧
    aggregateByField "Nome" (some "Valor") decimalRecords =
      [(.str "A", { total := some (.fin (1351079888211149 / 4503599627370496)), count := 2 }),
       (.str "B", { total := some (.fin (5404319552844595 / 18014398509481984)), count := 1 })] ∧
    binarySumOfTotals (aggregateByField "Nome" (some "Valor") decimalRecords) =
      some (.fin (1351079888211149 / 2251799813685248)) ∧
    binarySumOfField "Valor" decimalRecords =
      some (.fin (5404319552844595 / 9007199254740992)) ∧
    (updateSummary decimalRecords (some "Valor")).sum =
      some (5404319552844595 / 9007199254740992) ∧
    sumOfTotals (aggregateByField "Nome" (some "Valor") decimalRecords) =
      some (10808639105689191 / 18014398509481984) ∧
    sumOfField "Valor" decimalRecords = 21617278211378381 / 36028797018963968 ∧
    sumOfTotals (aggregateByField "Nome" (some "Valor") decimalRecords) ≠
      some (sumOfField "Valor" decimalRecords) ∧
    binarySumOfTotals (aggregateByField "Nome" (some "Valor") decimalRecords) ≠
      binarySumOfField "Valor" decimalRecords := by
  refine ⟨by decide!, by decide!, by decide!, by decide!, by decide!, by decide!, by decide!,
    by decide!, by decide!, by decide!, by decide!⟩

/-! ## The end-to-end scenario -/

/-- C1. The end-to-end scenario: on the matrix of a header row and three data rows,
`findHeaderRow` selects row 0 and `processWorkbook` keeps the three data rows under the
three headers; with category `Nome Emitente`, value `Valor Total NF` and no filter the
summary is count 3, sum 1750 and average 1750/3 in binary64 (583.33 to two decimals), and
the category chart is `Acme` with 1750 followed by `Beta` with 0. -/
theorem end_to_end_scenario :
    findHeaderRow refHost scenarioData = 0 ∧
    (processWorkbook refHost scenarioData).map (fun st => (st.headers, st.rawRows.length)) =
      some (["Nome Emitente", "Valor Total NF", "Data Emissão"], 3) ∧
    ((processWorkbook refHost scenarioData).bind fun st =>
        updateAllVisuals refHost st scenarioControls).map
      (fun v => (v.filteredRows.length, v.summary, v.categoryChart)) =
      some (3, { count := 3, sum := some 1750,
                 average := finiteNumber (some (roundToDouble (1750 / 3))) },
        [(.str "Acme", some (.fin 1750)), (.str "Beta", some (.fin 0))]) ∧
    roundToDouble (1750 / 3) = .fin (5131054262954667 / 8796093022208) ∧
    ((processWorkbook refHost scenarioData).bind fun st =>
        updateAllVisuals refHost st scenarioControls).map
      (fun v => v.summary.average.map fun a => Rat.floor (a * 100 + 1 / 2)) =
      some (some 58333) := by
  refine ⟨by decide!, by decide!, by decide!, by decide!, by decide!⟩

/-! ## Aggregation by month -/

theorem monthMap_mem_of_set (m : MonthMap) (key : String) (b : MonthBucket)
    (e : String × MonthBucket) (he : e ∈ m.set key b) : e ∈ m ∨ e.2 = b := by
  induction m with
  | nil =>
    simp only [MonthMap.set, List.mem_singleton] at he
    right; rw [he]
  | cons x rest ih =>
    simp only [MonthMap.set] at he
    split at he
    · rcases List.mem_cons.mp he with e1 | e1
      · right; rw [e1]
      · left; exact List.mem_cons_of_mem _ e1
    · rcases List.mem_cons.mp he with e1 | e1
      · left; rw [e1]; exact List.mem_cons_self _ _
      · rcases ih e1 with h1 | h1
        · left; exact List.mem_cons_of_mem _ h1
        · right; exact h1

theorem monthMap_get_mem (m : MonthMap) (key : String) (b : MonthBucket)
    (hg : m.get key = some b) : ∃ e ∈ m, e.2 = b := by
  unfold MonthMap.get at hg
  cases hf : m.find? (fun e => e.1 == key) with
  | none => rw [hf] at hg; simp at hg
  | some e =>
    rw [hf] at hg
    exact ⟨e, List.mem_of_find?_eq_some hf, by simpa using hg⟩

theorem monthMap_sum_set (f : MonthBucket → ℚ) (m : MonthMap) (key : String)
    (b : MonthBucket) :
    ((m.set key b).map fun e => f e.2).sum =
      (m.map fun e => f e.2).sum - ((m.get key).map f).getD 0 + f b := by
  induction m with
  | nil => simp [MonthMap.set, MonthMap.get]
  | cons e rest ih =>
    by_cases hk : (e.1 == key) = true
    · have hget : MonthMap.get (e :: rest) key = some e.2 := by
        simp [MonthMap.get, List.find?_cons, hk]
      rw [hget]
      simp only [MonthMap.set, hk, if_true, List.map_cons, List.sum_cons, Option.map_some',
        Option.getD_some]
      ring
    · have hget : MonthMap.get (e :: rest) key = MonthMap.get rest key := by
        simp [MonthMap.get, List.find?_cons, hk]
      rw [hget]
      simp only [MonthMap.set, hk, Bool.false_eq_true, if_false, List.map_cons, List.sum_cons,
        ih]
      ring

/-- One step of the month aggregation in which nothing rounds. -/
theorem monthMap_set_exact (m : MonthMap) (key : String) (v : ℤ) (d b : MonthBucket)
    (hd : d.total = some (.fin 0))
    (hb : b.total = jsAdd ((m.get key).getD d).total (some (.fin (v : ℚ))))
    (hm : ∀ e ∈ m, ∃ n : ℤ, e.2.total = some (.fin (n : ℚ)))
    (hA : (m.map fun e => |totalValue e.2.total|).sum + |(v : ℚ)| < 2 ^ 53) :
    (∀ e ∈ m.set key b, ∃ n : ℤ, e.2.total = some (.fin (n : ℚ))) ∧
    ((m.set key b).map fun e => totalValue e.2.total).sum =
      (m.map fun e => totalValue e.2.total).sum + (v : ℚ) ∧
    ((m.set key b).map fun e => |totalValue e.2.total|).sum ≤
      (m.map fun e => |totalValue e.2.total|).sum + |(v : ℚ)| := by
  have hcur : ∃ t : ℤ,
      ((m.get key).getD d).total = some (.fin (t : ℚ)) ∧
      |(t : ℚ)| ≤ (m.map fun e => |totalValue e.2.total|).sum ∧
      ((m.get key).map fun b => totalValue b.total).getD 0 = (t : ℚ) ∧
      ((m.get key).map fun b => |totalValue b.total|).getD 0 = |(t : ℚ)| := by
    cases hg : m.get key with
    | none =>
      refine ⟨0, by simp [hd], ?_, by simp, by simp⟩
      simp only [Int.cast_zero, abs_zero]
      exact List.sum_nonneg (by
        intro x hx
        obtain ⟨t, _, rfl⟩ := List.mem_map.mp hx
        exact abs_nonneg _)
    | some b0 =>
      obtain ⟨e, he, heb⟩ := monthMap_get_mem m key b0 hg
      obtain ⟨n, hn⟩ := hm e he
      rw [heb] at hn
      refine ⟨n, by simpa using hn, ?_, by simp [hn, totalValue_fin], by simp [hn, totalValue_fin]⟩
      have h1 := abs_totalValue_le_sum (m.map fun e => e.2.total) e.2.total
        (List.mem_map.mpr ⟨e, he, rfl⟩)
      rw [heb, hn, totalValue_fin, List.map_map] at h1
      exact h1
  obtain ⟨t, ht, htA, hs1, hs2⟩ := hcur
  have hadd : b.total = some (.fin (((t + v : ℤ)) : ℚ)) := by
    rw [hb, ht]
    exact jsAdd_intCast t v (by linarith)
  refine ⟨?_, ?_, ?_⟩
  · intro e he
    rcases monthMap_mem_of_set m key _ e he with h1 | h1
    · exact hm e h1
    · exact ⟨t + v, by rw [h1, hadd]⟩
  · rw [monthMap_sum_set (fun b => totalValue b.total), hs1, hadd, totalValue_fin]
    push_cast
    ring
  · rw [monthMap_sum_set (fun b => |totalValue b.total|), hs2, hadd, totalValue_fin]
    push_cast
    have := abs_add (t : ℚ) (v : ℚ)
    linarith

/-- A step of the month aggregation passes over a record without a date and puts a record
with one in the bucket of a key. -/
theorem monthStep_cases (h : Host) (dateField : String) (valueField : Option String)
    (m : MonthMap) (row : Record) :
    (hasDate dateField row = false ∧ monthStep h dateField valueField m row = m) ∨
    (hasDate dateField row = true ∧ ∃ (key : String) (d b : MonthBucket),
      d.total = some (.fin 0) ∧
      b.total = jsAdd ((m.get key).getD d).total (metricOperand valueField row) ∧
      monthStep h dateField valueField m row = m.set key b) := by
  unfold monthStep hasDate
  cases hv : row.get dateField with
  | none => left; simp
  | some v =>
    cases v with
    | date t => right; exact ⟨rfl, _, _, _, rfl, rfl, rfl⟩
    | null => left; simp
    | str s => left; simp
    | num x => left; simp

theorem foldl_monthStep_exact (h : Host) (dateField : String) (valueField : Option String)
    (v : Record → ℤ) (rows : List Record) (m : MonthMap)
    (hop : ∀ r ∈ rows, hasDate dateField r = true →
      metricOperand valueField r = some (.fin (v r : ℚ)))
    (hm : ∀ e ∈ m, ∃ n : ℤ, e.2.total = some (.fin (n : ℚ)))
    (hA : (m.map fun e => |totalValue e.2.total|).sum +
      ((rows.filter (hasDate dateField)).map fun r => |(v r : ℚ)|).sum < 2 ^ 53) :
    (∀ e ∈ rows.foldl (monthStep h dateField valueField) m,
      ∃ n : ℤ, e.2.total = some (.fin (n : ℚ))) ∧
    ((rows.foldl (monthStep h dateField valueField) m).map fun e => totalValue e.2.total).sum =
      (m.map fun e => totalValue e.2.total).sum +
        ((rows.filter (hasDate dateField)).map fun r => (v r : ℚ)).sum ∧
    ((rows.foldl (monthStep h dateField valueField) m).map
        fun e => |totalValue e.2.total|).sum ≤
      (m.map fun e => |totalValue e.2.total|).sum +
        ((rows.filter (hasDate dateField)).map fun r => |(v r : ℚ)|).sum := by
  induction rows generalizing m with
  | nil => simpa using hm
  | cons r rows ih =>
    rcases monthStep_cases h dateField valueField m r with ⟨hd, hstep⟩ | ⟨hd, key, d, b, h0, hb, hstep⟩
    · simp only [List.filter_cons, hd, Bool.false_eq_true, if_false] at hA ⊢
      simp only [List.foldl_cons, hstep]
      exact ih m (fun x hx => hop x (List.mem_cons_of_mem _ hx)) hm hA
    · simp only [List.filter_cons, hd, if_true, List.map_cons, List.sum_cons] at hA ⊢
      have hnn : 0 ≤ ((rows.filter (hasDate dateField)).map fun r => |(v r : ℚ)|).sum :=
        List.sum_nonneg (by
          intro x hx
          obtain ⟨t, _, rfl⟩ := List.mem_map.mp hx
          exact abs_nonneg _)
      rw [hop r (List.mem_cons_self _ _) hd] at hb
      obtain ⟨s1, s2, s3⟩ := monthMap_set_exact m key (v r) d b h0 hb hm (by linarith)
      rw [← hstep] at s1 s2 s3
      obtain ⟨i1, i2, i3⟩ := ih (monthStep h dateField valueField m r)
        (fun x hx => hop x (List.mem_cons_of_mem _ hx)) s1 (by linarith)
      simp only [List.foldl_cons]
      refine ⟨i1, ?_, ?_⟩
      · rw [i2, s2]
        ring
      · linarith

/-- The sums of a month aggregation in which nothing rounds. -/
theorem aggregateByMonth_exact (h : Host) (dateField : String) (valueField : Option String)
    (v : Record → ℤ) (rows : List Record)
    (hop : ∀ r ∈ rows, hasDate dateField r = true →
      metricOperand valueField r = some (.fin (v r : ℚ)))
    (hA : ((rows.filter (hasDate dateField)).map fun r => |(v r : ℚ)|).sum < 2 ^ 53) :
    sumOfMonthTotals (aggregateByMonth h dateField valueField rows) =
      some (((rows.filter (hasDate dateField)).map fun r => (v r : ℚ)).sum) ∧
    binarySumOfMonthTotals (aggregateByMonth h dateField valueField rows) =
      some (.fin (((rows.filter (hasDate dateField)).map fun r => (v r : ℚ)).sum)) := by
  obtain ⟨h1, h2, h3⟩ := foldl_monthStep_exact h dateField valueField v rows [] hop
    (by simp) (by simpa using hA)
  simp only [List.map_nil, List.sum_nil, zero_add] at h2 h3
  have hts : ∀ t ∈ (aggregateByMonth h dateField valueField rows).map (fun e => e.2.total),
      ∃ n : ℤ, t = some (.fin (n : ℚ)) := by
    intro t ht
    obtain ⟨e, he, rfl⟩ := List.mem_map.mp ht
    exact h1 e he
  constructor
  · have := foldr_addFinite_eq
      ((aggregateByMonth h dateField valueField rows).map fun e => e.2.total)
      (fun t ht => by
        obtain ⟨n, hn⟩ := hts t ht
        exact ⟨n, hn⟩)
    rw [List.map_map, List.map_map] at this
    unfold sumOfMonthTotals
    rw [show (fun e : String × MonthBucket => finiteNumber e.2.total) =
      finiteNumber ∘ fun e => e.2.total from rfl, this]
    congr 1
  · have := foldl_jsAdd_exact
      ((aggregateByMonth h dateField valueField rows).map fun e => e.2.total)
      0 hts (by
        rw [List.map_map]
        simp only [Int.cast_zero, abs_zero, zero_add]
        exact lt_of_le_of_lt h3 hA)
    rw [List.map_map] at this
    unfold binarySumOfMonthTotals
    simp only [Int.cast_zero, zero_add] at this
    rw [this]
    congr 2

/-- C11 (amended). Grouping records by the month of the date field, as `updateTimelineChart`
does, passes over the records that hold no date there.  The totals are binary64 sums: over
all buckets they add up to the number of the records that hold a date when no value field
is chosen (and there are fewer than 2^53 of them), and to the sum of the value field over
those records, null counted as 0, when one is chosen and holds, in those records, whole
numbers or null whose absolute values add up to less than 2^53, so that no addition rounds;
this for the sums taken as sums of real numbers and for the sums taken with `+` alike. -/
theorem aggregateByMonth_sums (h : Host) (dateField : String) (valueField : Option String)
    (rows : List Record) :
    (truthyField valueField = none → (rows.filter (hasDate dateField)).length < 2 ^ 53 →
      sumOfMonthTotals (aggregateByMonth h dateField valueField rows) =
        some ((rows.filter (hasDate dateField)).length : ℚ) ∧
      binarySumOfMonthTotals (aggregateByMonth h dateField valueField rows) =
        some (.fin ((rows.filter (hasDate dateField)).length : ℚ))) ∧
    (∀ vf, truthyField valueField = some vf →
      (∀ r ∈ rows, hasDate dateField r = true →
        (r.get vf = none ∨ r.get vf = some .null ∨
          ∃ n : ℤ, r.get vf = some (.num (n : ℚ)))) →
      sumOfAbs vf (rows.filter (hasDate dateField)) < 2 ^ 53 →
      sumOfMonthTotals (aggregateByMonth h dateField valueField rows) =
        some (sumOfField vf (rows.filter (hasDate dateField))) ∧
      binarySumOfMonthTotals (aggregateByMonth h dateField valueField rows) =
        some (.fin (sumOfField vf (rows.filter (hasDate dateField)))) ∧
      binarySumOfField vf (rows.filter (hasDate dateField)) =
        some (.fin (sumOfField vf (rows.filter (hasDate dateField))))) := by
  refine ⟨?_, ?_⟩
  · intro hnone hlen
    have hsum : ((rows.filter (hasDate dateField)).map fun _ => (((1 : ℤ) : ℚ))).sum =
        ((rows.filter (hasDate dateField)).length : ℚ) := by
      simp
    have hop : ∀ r ∈ rows, hasDate dateField r = true →
        metricOperand valueField r = some (.fin (((1 : ℤ)) : ℚ)) := by
      intro r _ _
      simp [metricOperand, hnone]
    have hA : ((rows.filter (hasDate dateField)).map fun _ => |(((1 : ℤ)) : ℚ)|).sum
        < 2 ^ 53 := by
      have : ((rows.filter (hasDate dateField)).map fun _ => |(((1 : ℤ)) : ℚ)|).sum =
          ((rows.filter (hasDate dateField)).length : ℚ) := by simp
      rw [this]
      exact_mod_cast hlen
    have := aggregateByMonth_exact h dateField valueField (fun _ => 1) rows hop hA
    rw [hsum] at this
    exact this
  · intro vf hvf hnum hA
    have hnum' : ∀ r ∈ rows.filter (hasDate dateField),
        r.get vf = none ∨ r.get vf = some .null ∨ ∃ n : ℤ, r.get vf = some (.num (n : ℚ)) :=
      fun r hr => hnum r (List.mem_filter.mp hr).1 (List.mem_filter.mp hr).2
    obtain ⟨e1, e2⟩ := map_whole_eq vf (rows.filter (hasDate dateField)) hnum'
    have hop : ∀ r ∈ rows, hasDate dateField r = true →
        metricOperand valueField r = some (.fin ((⌊fieldNumber vf r⌋ : ℤ) : ℚ)) := by
      intro r hr hd
      simp only [metricOperand, hvf]
      exact (valueOrZero_whole vf r (hnum r hr hd)).1
    have := aggregateByMonth_exact h dateField valueField (fun r => ⌊fieldNumber vf r⌋) rows
      hop (by rw [e2]; exact hA)
    rw [e1] at this
    exact ⟨this.1, this.2, binarySumOfField_exact vf _ hnum' hA⟩

/-- Witness of C11 (amended): of three records the two dated ones are grouped, 1600 in
total. -/
theorem aggregateByMonth_sums_witness :
    truthyField (some "Valor") = some "Valor" ∧
    sumOfAbs "Valor" (datedRecords.filter (hasDate "Data Emissão")) < 2 ^ 53 ∧
    sumOfMonthTotals (aggregateByMonth refHost "Data Emissão" (some "Valor") datedRecords) =
      some 1600 :=
  ⟨by decide, by decide!,
   ((aggregateByMonth_sums refHost "Data Emissão" (some "Valor") datedRecords).2 "Valor"
      (by decide)
      (by
        intro r hr _
        simp only [datedRecords, List.mem_cons, List.mem_singleton, List.not_mem_nil,
          or_false] at hr
        rcases hr with e | e | e
        · subst e; exact Or.inr (Or.inr ⟨1500, by decide!⟩)
        · subst e; exact Or.inr (Or.inr ⟨250, by decide!⟩)
        · subst e; exact Or.inr (Or.inr ⟨100, by decide!⟩))
      (by decide!)).1.trans (by decide!)⟩

/-- C11, as stated, fails twice.  The record without a date is in no month, so the totals
of the buckets add up to 1600 while the value field adds up to 1850 over all records.  And
with the binary64 amounts 0.2 and 0.1 in January and 0.3 in February between them, all
dated, the total of January is 0.30000000000000004; the totals add up to 0.6000000000000001
with `+` and the amounts of the records to 0.6 (the double below it), and as sums of real
numbers the two differ as well. -/
theorem aggregateByMonth_counterexample :
    aggregateByMonth refHost "Data Emissão" (some "Valor") datedRecords =
      [("2024-01", { total := some (.fin 1600), count := 2, date := 1705708800000 })] ∧
    sumOfMonthTotals (aggregateByMonth refHost "Data Emissão" (some "Valor") datedRecords) =
      some 1600 ∧
    sumOfField "Valor" datedRecords = 1850 ∧
    decimalDatedRecords.filter (hasDate "Data Emissão") = decimalDatedRecords ∧
    (aggregateByMonth refHost "Data Emissão" (some "Valor") decimalDatedRecords).map
        (fun e => (e.1, e.2.total)) =
      [("2024-01", some (.fin (1351079888211149 / 4503599627370496))),
       ("2024-02", some (.fin (5404319552844595 / 18014398509481984)))] ∧
    binarySumOfMonthTotals
        (aggregateByMonth refHost "Data Emissão" (some "Valor") decimalDatedRecords) =
      some (.fin (1351079888211149 / 2251799813685248)) ∧
    binarySumOfField "Valor" decimalDatedRecords =
      some (.fin (5404319552844595 / 9007199254740992)) ∧
    sumOfMonthTotals
        (aggregateByMonth refHost "Data Emissão" (some "Valor") decimalDatedRecords) =
      some (10808639105689191 / 18014398509481984) ∧
    sumOfField "Valor" decimalDatedRecords = 21617278211378381 / 36028797018963968 := by
  refine ⟨by decide!, by decide!, by decide!, by decide!, by decide!, by decide!, by decide!,
    by decide!, by decide!⟩

/-! ## The ranking of the timeline chart -/

theorem insertDescending_perm {α : Type} (value : α → Option JSNumber) (a : α) (l : List α) :
    (insertDescending value a l).Perm (a :: l) := by
  induction l with
  | nil => exact List.Perm.refl _
  | cons b rest ih =>
    unfold insertDescending
    split
    · exact List.Perm.refl _
    · exact (List.Perm.cons b ih).trans (List.Perm.swap a b rest)

theorem sortDescending_perm {α : Type} (value : α → Option JSNumber) (l : List α) :
    (sortDescending value l).Perm l := by
  induction l with
  | nil => exact List.Perm.refl _
  | cons a rest ih =>
    unfold sortDescending
    exact (insertDescending_perm value a _).trans (List.Perm.cons a ih)

theorem jsNumber_le_of_lt_eq_false (a b : JSNumber) (ha : a ≠ .nan) (hb : b ≠ .nan)
    (h : a.lt b = false) : b.le a = true := by
  cases a <;> cases b <;> simp_all [JSNumber.lt, JSNumber.le]

theorem jsNumber_le_of_lt (a b : JSNumber) (h : a.lt b = true) : a.le b = true := by
  cases a <;> cases b <;> simp_all [JSNumber.lt, JSNumber.le]
  exact le_of_lt h

theorem jsNumber_ne_of_lt (a b : JSNumber) (h : a.lt b = true) : a ≠ b := by
  intro e
  subst e
  cases a <;> simp_all [JSNumber.lt]

theorem jsNumber_le_trans (a b c : JSNumber) (hab : a.le b = true) (hbc : b.le c = true) :
    a.le c = true := by
  cases a <;> cases b <;> cases c <;> simp_all [JSNumber.le]
  exact le_trans hab hbc

theorem keepsBefore_some (a b : JSNumber) : keepsBefore (some a) (some b) = !(a.lt b) := rfl

theorem insertDescending_pairwise {α : Type} (value : α → Option JSNumber) (m : α → JSNumber)
    (a : α) (l : List α) (hv : ∀ x ∈ a :: l, value x = some (m x) ∧ m x ≠ .nan)
    (hl : l.Pairwise fun x y => (m y).le (m x) = true) :
    (insertDescending value a l).Pairwise fun x y => (m y).le (m x) = true := by
  induction l with
  | nil => simp [insertDescending]
  | cons b rest ih =>
    have ha := hv a (List.mem_cons_self _ _)
    have hb := hv b (List.mem_cons_of_mem _ (List.mem_cons_self _ _))
    obtain ⟨hbrest, hrest⟩ := List.pairwise_cons.mp hl
    unfold insertDescending
    rw [ha.1, hb.1, keepsBefore_some]
    cases hlt : (m a).lt (m b) with
    | false =>
      simp only [Bool.not_false, if_true]
      have hle := jsNumber_le_of_lt_eq_false _ _ ha.2 hb.2 hlt
      refine List.pairwise_cons.mpr ⟨?_, hl⟩
      intro y hy
      rcases List.mem_cons.mp hy with e | e
      · rw [e]; exact hle
      · exact jsNumber_le_trans _ _ _ (hbrest y e) hle
    | true =>
      simp only [Bool.not_true, Bool.false_eq_true, if_false]
      refine List.pairwise_cons.mpr ⟨?_, ?_⟩
      · intro y hy
        have hy' : y ∈ a :: rest := (insertDescending_perm value a rest).subset hy
        rcases List.mem_cons.mp hy' with e | e
        · rw [e]; exact jsNumber_le_of_lt _ _ hlt
        · exact hbrest y e
      · apply ih _ hrest
        intro x hx
        rcases List.mem_cons.mp hx with e | e
        · rw [e]; exact ha
        · exact hv x (List.mem_cons_of_mem _ (List.mem_cons_of_mem _ e))

theorem sortDescending_pairwise {α : Type} (value : α → Option JSNumber) (m : α → JSNumber)
    (l : List α) (hv : ∀ x ∈ l, value x = some (m x) ∧ m x ≠ .nan) :
    (sortDescending value l).Pairwise fun x y => (m y).le (m x) = true := by
  induction l with
  | nil => simp [sortDescending]
  | cons a rest ih =>
    unfold sortDescending
    apply insertDescending_pairwise value m a _ _
      (ih fun x hx => hv x (List.mem_cons_of_mem _ hx))
    intro x hx
    rcases List.mem_cons.mp hx with e | e
    · rw [e]; exact hv a (List.mem_cons_self _ _)
    · exact hv x (List.mem_cons_of_mem _ ((sortDescending_perm value rest).subset e))

theorem insertDescending_filter {α : Type} (value : α → Option JSNumber) (m : α → JSNumber)
    (a : α) (l : List α) (hv : ∀ x ∈ a :: l, value x = some (m x) ∧ m x ≠ .nan)
    (v : JSNumber) :
    (insertDescending value a l).filter (fun x => decide (m x = v)) =
      (a :: l).filter (fun x => decide (m x = v)) := by
  induction l with
  | nil => rfl
  | cons b rest ih =>
    have ha := hv a (List.mem_cons_self _ _)
    have hb := hv b (List.mem_cons_of_mem _ (List.mem_cons_self _ _))
    unfold insertDescending
    rw [ha.1, hb.1, keepsBefore_some]
    cases hlt : (m a).lt (m b) with
    | false => simp only [Bool.not_false, if_true]
    | true =>
      simp only [Bool.not_true, Bool.false_eq_true, if_false]
      have ih' := ih (by
        intro x hx
        rcases List.mem_cons.mp hx with e | e
        · rw [e]; exact ha
        · exact hv x (List.mem_cons_of_mem _ (List.mem_cons_of_mem _ e)))
      rw [List.filter_cons, ih']
      have hne : m a ≠ m b := jsNumber_ne_of_lt _ _ hlt
      by_cases hav : m a = v
      · have hbv : ¬ m b = v := by rw [← hav]; exact fun e => hne e.symm
        simp [List.filter_cons, hav, hbv]
      · by_cases hbv : m b = v
        · simp [List.filter_cons, hav, hbv]
        · simp [List.filter_cons, hav, hbv]

theorem sortDescending_filter {α : Type} (value : α → Option JSNumber) (m : α → JSNumber)
    (l : List α) (hv : ∀ x ∈ l, value x = some (m x) ∧ m x ≠ .nan) (v : JSNumber) :
    (sortDescending value l).filter (fun x => decide (m x = v)) =
      l.filter (fun x => decide (m x = v)) := by
  induction l with
  | nil => rfl
  | cons a rest ih =>
    unfold sortDescending
    rw [insertDescending_filter value m a _ _ v, List.filter_cons, List.filter_cons,
      ih fun x hx => hv x (List.mem_cons_of_mem _ hx)]
    intro x hx
    rcases List.mem_cons.mp hx with e | e
    · rw [e]; exact hv a (List.mem_cons_self _ _)
    · exact hv x (List.mem_cons_of_mem _ ((sortDescending_perm value rest).subset e))

/-- On values that are numbers the model of `sort` returns the stable descending order. -/
theorem sortDescending_stable {α : Type} (value : α → Option JSNumber) (m : α → JSNumber)
    (l : List α) (hv : ∀ x ∈ l, value x = some (m x) ∧ m x ≠ .nan) :
    IsStableDescending m l (sortDescending value l) :=
  ⟨sortDescending_perm value l, sortDescending_pairwise value m l hv,
    sortDescending_filter value m l hv⟩

theorem roundToDouble_ne_nan (q : ℚ) : roundToDouble q ≠ .nan := by
  unfold roundToDouble
  split
  · exact fun e => JSNumber.noConfusion e
  · simp only
    split
    · split <;> exact fun e => JSNumber.noConfusion e
    · exact fun e => JSNumber.noConfusion e

/-- Adding a finite number to a number gives a number. -/
theorem jsAdd_number (a : Option JSNumber) (q : ℚ) (ha : ∃ t, a = some t ∧ t ≠ .nan) :
    ∃ t, jsAdd a (some (.fin q)) = some t ∧ t ≠ .nan := by
  obtain ⟨t, rfl, ht⟩ := ha
  cases t with
  | nan => exact absurd rfl ht
  | posInf => exact ⟨.posInf, rfl, fun e => JSNumber.noConfusion e⟩
  | negInf => exact ⟨.negInf, rfl, fun e => JSNumber.noConfusion e⟩
  | fin x => exact ⟨roundToDouble (x + q), rfl, roundToDouble_ne_nan _⟩

theorem metricOperand_fin (valueField : Option String) (rows : List Record)
    (hnum : ∀ vf, truthyField valueField = some vf → ∀ r ∈ rows,
      r.get vf = none ∨ r.get vf = some .null ∨ ∃ x, r.get vf = some (.num x)) :
    ∀ r ∈ rows, ∃ q : ℚ, metricOperand valueField r = some (.fin q) := by
  intro r hr
  unfold metricOperand
  cases hvf : truthyField valueField with
  | none => exact ⟨1, rfl⟩
  | some vf =>
    simp only
    rcases hnum vf hvf r hr with e | e | ⟨x, e⟩
    · rw [e]; exact ⟨0, rfl⟩
    · rw [e]; exact ⟨0, rfl⟩
    · rw [e]; exact ⟨x, rfl⟩

theorem aggregateByField_totals_number (field : String) (valueField : Option String)
    (rows : List Record)
    (hop : ∀ r ∈ rows, ∃ q : ℚ, metricOperand valueField r = some (.fin q)) :
    ∀ e ∈ aggregateByField field valueField rows, ∃ t, e.2.total = some t ∧ t ≠ .nan := by
  unfold aggregateByField
  have key : ∀ (m : JSMap), (∀ e ∈ m, ∃ t, e.2.total = some t ∧ t ≠ .nan) →
      ∀ e ∈ rows.foldl (aggregateStep field valueField) m,
        ∃ t, e.2.total = some t ∧ t ≠ .nan := by
    induction rows with
    | nil => intro m hm; exact hm
    | cons r rows ih =>
      intro m hm
      rw [List.foldl_cons]
      apply ih (fun x hx => hop x (List.mem_cons_of_mem _ hx))
      intro e he
      unfold aggregateStep at he
      rcases jsMap_mem_of_set _ _ _ e he with h1 | h1
      · exact hm e h1
      · rw [h1]
        obtain ⟨q, hq⟩ := hop r (List.mem_cons_self _ _)
        simp only [hq]
        apply jsAdd_number
        cases hg : JSMap.get m (categoryKey r field) with
        | none => exact ⟨.fin 0, rfl, fun e => JSNumber.noConfusion e⟩
        | some b =>
          obtain ⟨e0, he0, hb⟩ := jsMap_get_mem m _ b hg
          simp only [Option.getD_some]
          rw [← hb]
          exact hm e0 he0
  exact key [] (by simp)

theorem aggregateByMonth_totals_number (h : Host) (dateField : String)
    (valueField : Option String) (rows : List Record)
    (hop : ∀ r ∈ rows, ∃ q : ℚ, metricOperand valueField r = some (.fin q)) :
    ∀ e ∈ aggregateByMonth h dateField valueField rows, ∃ t, e.2.total = some t ∧ t ≠ .nan := by
  unfold aggregateByMonth
  have key : ∀ (m : MonthMap), (∀ e ∈ m, ∃ t, e.2.total = some t ∧ t ≠ .nan) →
      ∀ e ∈ rows.foldl (monthStep h dateField valueField) m,
        ∃ t, e.2.total = some t ∧ t ≠ .nan := by
    induction rows with
    | nil => intro m hm; exact hm
    | cons r rows ih =>
      intro m hm
      rw [List.foldl_cons]
      apply ih (fun x hx => hop x (List.mem_cons_of_mem _ hx))
      intro e he
      rcases monthStep_cases h dateField valueField m r with
        ⟨_, hstep⟩ | ⟨_, key, d, b, h0, hb, hstep⟩
      · rw [hstep] at he
        exact hm e he
      · rw [hstep] at he
        rcases monthMap_mem_of_set _ _ _ e he with h1 | h1
        · exact hm e h1
        · rw [h1, hb]
          obtain ⟨q, hq⟩ := hop r (List.mem_cons_self _ _)
          rw [hq]
          apply jsAdd_number
          cases hg : MonthMap.get m key with
          | none => exact ⟨.fin 0, by simpa using h0, fun e => JSNumber.noConfusion e⟩
          | some b0 =>
            obtain ⟨e0, he0, hb0⟩ := monthMap_get_mem m _ b0 hg
            simp only [Option.getD_some]
            rw [← hb0]
            exact hm e0 he0
  exact key [] (by simp)

theorem option_eq_some_getD (o : Option JSNumber) (ho : ∃ t, o = some t ∧ t ≠ .nan) :
    o = some (o.getD .nan) ∧ o.getD .nan ≠ .nan := by
  obtain ⟨t, rfl, ht⟩ := ho
  exact ⟨rfl, ht⟩

theorem bucketMetric_eq_groupMetric (valueField : Option String) (rows : List Record)
    (field : String)
    (hnum : ∀ vf, truthyField valueField = some vf → ∀ r ∈ rows,
      r.get vf = none ∨ r.get vf = some .null ∨ ∃ x, r.get vf = some (.num x)) :
    ∀ e ∈ aggregateByField field valueField rows,
      bucketMetric valueField e.2 = some (groupMetric valueField e) ∧
        groupMetric valueField e ≠ .nan := by
  intro e he
  unfold groupMetric
  apply option_eq_some_getD
  unfold bucketMetric
  cases truthyField valueField with
  | none => exact ⟨_, rfl, fun e => JSNumber.noConfusion e⟩
  | some vf =>
    exact aggregateByField_totals_number field valueField rows
      (metricOperand_fin valueField rows hnum) e he

theorem monthEntries_value (h : Host) (valueField : Option String) (rows : List Record)
    (dateField : String)
    (hnum : ∀ vf, truthyField valueField = some vf → ∀ r ∈ rows,
      r.get vf = none ∨ r.get vf = some .null ∨ ∃ x, r.get vf = some (.num x)) :
    ∀ e ∈ monthEntries h valueField (aggregateByMonth h dateField valueField rows),
      e.value = some (entryMetric e) ∧ entryMetric e ≠ .nan := by
  intro e he
  unfold entryMetric
  apply option_eq_some_getD
  unfold monthEntries at he
  obtain ⟨b, hb, rfl⟩ := List.mem_map.mp he
  simp only
  cases truthyField valueField with
  | none => exact ⟨_, rfl, fun e => JSNumber.noConfusion e⟩
  | some vf =>
    exact aggregateByMonth_totals_number h dateField valueField rows
      (metricOperand_fin valueField rows hnum) b hb

/-- C12. With a value field that holds numbers or null (or none chosen), the chart of
`updateTimelineChart` is, in both of its groupings, the first `min(12, number of groups)`
groups of the grouping sorted descending by the metric (total with a value field, count
without), groups of equal metric in the order in which they were first met. -/
theorem updateTimelineChart_ranking (h : Host) (st : State) (rows : List Record)
    (filters : FilterSpec)
    (hnum : ∀ vf, truthyField filters.valueField = some vf → ∀ r ∈ rows,
      r.get vf = none ∨ r.get vf = some .null ∨ ∃ x, r.get vf = some (.num x)) :
    (∀ fb, truthyField filters.dateField = none → timelineFallbackField st filters = some fb →
      ∃ sorted,
        IsStableDescending (groupMetric filters.valueField)
          (aggregateByField fb filters.valueField rows) sorted ∧
        updateTimelineChart h st rows filters =
          (sorted.take 12).map (fun e => (e.1, bucketMetric filters.valueField e.2)) ∧
        (∀ e ∈ sorted, bucketMetric filters.valueField e.2 =
          some (groupMetric filters.valueField e) ∧ groupMetric filters.valueField e ≠ .nan) ∧
        (updateTimelineChart h st rows filters).length =
          min 12 (aggregateByField fb filters.valueField rows).length) ∧
    (∀ df, truthyField filters.dateField = some df →
      ∃ sorted,
        IsStableDescending entryMetric
          (monthEntries h filters.valueField (aggregateByMonth h df filters.valueField rows))
          sorted ∧
        updateTimelineChart h st rows filters =
          (sorted.take 12).map (fun e => (Value.str e.label, e.value)) ∧
        (∀ e ∈ sorted, e.value = some (entryMetric e) ∧ entryMetric e ≠ .nan) ∧
        (updateTimelineChart h st rows filters).length =
          min 12 (aggregateByMonth h df filters.valueField rows).length) := by
  refine ⟨?_, ?_⟩
  · intro fb hdf hfb
    have hv := bucketMetric_eq_groupMetric filters.valueField rows fb hnum
    have hst := sortDescending_stable (fun e => bucketMetric filters.valueField e.2)
      (groupMetric filters.valueField) (aggregateByField fb filters.valueField rows) hv
    have hout : updateTimelineChart h st rows filters =
        ((sortDescending (fun e => bucketMetric filters.valueField e.2)
          (aggregateByField fb filters.valueField rows)).take 12).map
          (fun e => (e.1, bucketMetric filters.valueField e.2)) := by
      unfold updateTimelineChart
      rw [hdf, hfb]
      rfl
    refine ⟨_, hst, hout, ?_, ?_⟩
    · intro e he
      exact hv e (hst.1.subset he)
    · rw [hout, List.length_map, List.length_take, hst.1.length_eq]
  · intro df hdf
    have hv := monthEntries_value h filters.valueField rows df hnum
    have hst := sortDescending_stable (fun e : TimelineEntry => e.value) entryMetric
      (monthEntries h filters.valueField (aggregateByMonth h df filters.valueField rows)) hv
    have hout : updateTimelineChart h st rows filters =
        ((sortDescending (fun e : TimelineEntry => e.value)
          (monthEntries h filters.valueField
            (aggregateByMonth h df filters.valueField rows))).take 12).map
          (fun e => (Value.str e.label, e.value)) := by
      unfold updateTimelineChart
      rw [hdf]
      simp only
      split
      · rename_i hempty
        have hnil : aggregateByMonth h df filters.valueField rows = [] :=
          List.isEmpty_iff.mp hempty
        rw [hnil]
        rfl
      · rfl
    refine ⟨_, hst, hout, ?_, ?_⟩
    · intro e he
      exact hv e (hst.1.subset he)
    · rw [hout, List.length_map, List.length_take, hst.1.length_eq]
      simp [monthEntries]

/-- Witness of C12: of fourteen categories with the amounts 1 to 14 the chart keeps twelve,
the largest first. -/
theorem updateTimelineChart_ranking_witness :
    timelineFallbackField emptyState (chartFilters none) = some "Nome" ∧
    (updateTimelineChart refHost emptyState manyCategories (chartFilters none)).length = 12 ∧
    (updateTimelineChart refHost emptyState manyCategories (chartFilters none)).head? =
      some (Value.str "c13", some (.fin 14)) := by
  have hw := (updateTimelineChart_ranking refHost emptyState manyCategories (chartFilters none)
    (by
      intro vf hvf r hr
      have hvf' : vf = "Valor" := by
        have : truthyField (chartFilters none).valueField = some "Valor" := by decide
        rw [this] at hvf
        exact (Option.some.inj hvf).symm
      subst hvf'
      simp only [manyCategories, List.mem_map, List.mem_range] at hr
      obtain ⟨i, _, rfl⟩ := hr
      exact Or.inr (Or.inr ⟨(i : ℚ) + 1, rfl⟩))).1 "Nome" (by decide) (by decide)
  obtain ⟨sorted, _, _, _, hlen⟩ := hw
  refine ⟨by decide, ?_, by decide!⟩
  rw [hlen]
  decide!

/-! ## The size of the category chart -/


theorem sameValueZero_eq (a b : Value) (hab : sameValueZero a b = true) : a = b := by
  cases a <;> cases b <;> simp_all [sameValueZero]

/-- The keys of a map after `set`: unchanged when the key is there, the key added at the
end when it is not. -/
theorem JSMap.keys_set (m : JSMap) (key : Value) (b : Bucket) :
    (m.set key b).map Prod.fst =
      if m.any (fun e => sameValueZero e.1 key) then m.map Prod.fst
      else m.map Prod.fst ++ [key] := by
  induction m with
  | nil => rfl
  | cons e rest ih =>
    simp only [JSMap.set, List.any_cons]
    by_cases hk : sameValueZero e.1 key = true
    · simp [hk]
    · have hk' : sameValueZero e.1 key = false := by simpa using hk
      simp only [hk', Bool.false_eq_true, if_false, List.map_cons, ih, Bool.false_or]
      split <;> rfl

/-- The labels of the category grouping: no two are the same key, each is the key of a
record, the key of each record is among them, and there are at most as many as records. -/
theorem aggregateByField_keys (field : String) (valueField : Option String)
    (rows : List Record) :
    ((aggregateByField field valueField rows).map Prod.fst).Pairwise
        (fun a b => sameValueZero a b = false) ∧
    (∀ r ∈ rows, categoryKey r field ∈ (aggregateByField field valueField rows).map Prod.fst) ∧
    (∀ label ∈ (aggregateByField field valueField rows).map Prod.fst,
        ∃ r ∈ rows, categoryKey r field = label) ∧
    (aggregateByField field valueField rows).length ≤ rows.length := by
  unfold aggregateByField
  have key : ∀ (m : JSMap) (seen : List Record),
      (m.map Prod.fst).Pairwise (fun a b => sameValueZero a b = false) →
      (∀ r ∈ seen, categoryKey r field ∈ m.map Prod.fst) →
      (∀ label ∈ m.map Prod.fst, ∃ r ∈ seen, categoryKey r field = label) →
      m.length ≤ seen.length →
      ((rows.foldl (aggregateStep field valueField) m).map Prod.fst).Pairwise
          (fun a b => sameValueZero a b = false) ∧
      (∀ r ∈ seen ++ rows,
          categoryKey r field ∈ (rows.foldl (aggregateStep field valueField) m).map Prod.fst) ∧
      (∀ label ∈ (rows.foldl (aggregateStep field valueField) m).map Prod.fst,
          ∃ r ∈ seen ++ rows, categoryKey r field = label) ∧
      (rows.foldl (aggregateStep field valueField) m).length ≤ (seen ++ rows).length := by
    induction rows with
    | nil =>
      intro m seen h1 h2 h3 h4
      simp only [List.foldl_nil, List.append_nil]
      exact ⟨h1, h2, h3, h4⟩
    | cons r rows ih =>
      intro m seen h1 h2 h3 h4
      have hkeys := JSMap.keys_set m (categoryKey r field)
        { total := jsAdd ((m.get (categoryKey r field)).getD
            { total := some (.fin 0), count := 0 }).total (metricOperand valueField r)
          count := ((m.get (categoryKey r field)).getD
            { total := some (.fin 0), count := 0 }).count + 1 }
      have hstep : (aggregateStep field valueField m r).map Prod.fst =
          if m.any (fun e => sameValueZero e.1 (categoryKey r field)) then m.map Prod.fst
          else m.map Prod.fst ++ [categoryKey r field] := hkeys
      have hlen : (aggregateStep field valueField m r).length =
          ((aggregateStep field valueField m r).map Prod.fst).length := by simp
      have := ih (aggregateStep field valueField m r) (seen ++ [r]) ?_ ?_ ?_ ?_
      · simpa [List.append_assoc] using this
      · rw [hstep]
        split
        · exact h1
        · rename_i hany
          rw [List.pairwise_append]
          refine ⟨h1, by simp, ?_⟩
          intro a ha b hb
          have hb' : b = categoryKey r field := by simpa using hb
          subst hb'
          obtain ⟨e, he, rfl⟩ := List.mem_map.mp ha
          by_contra hne
          apply hany
          rw [List.any_eq_true]
          exact ⟨e, he, by simpa using hne⟩
      · intro x hx
        rw [hstep]
        rcases List.mem_append.mp hx with hx | hx
        · have := h2 x hx
          split
          · exact this
          · exact List.mem_append_left _ this
        · have hxr : x = r := by simpa using hx
          subst hxr
          split
          · rename_i hany
            rw [List.any_eq_true] at hany
            obtain ⟨e, he, hs⟩ := hany
            rw [← sameValueZero_eq _ _ hs]
            exact List.mem_map_of_mem _ he
          · simp
      · intro label hl
        rw [hstep] at hl
        split at hl
        · obtain ⟨x, hx, hxl⟩ := h3 label hl
          exact ⟨x, List.mem_append_left _ hx, hxl⟩
        · rcases List.mem_append.mp hl with hl | hl
          · obtain ⟨x, hx, hxl⟩ := h3 label hl
            exact ⟨x, List.mem_append_left _ hx, hxl⟩
          · have hlr : label = categoryKey r field := by simpa using hl
            exact ⟨r, by simp, hlr.symm⟩
      · rw [hlen, hstep]
        split
        · simp; omega
        · simp; omega
  simpa using key [] [] (by simp) (by simp) (by simp) (by simp)

theorem any_keys (m : JSMap) (key : Value) :
    (m.map Prod.fst).any (fun s => sameValueZero s key) =
      m.any (fun e => sameValueZero e.1 key) := by
  induction m with
  | nil => rfl
  | cons e rest ih => simp only [List.map_cons, List.any_cons, ih]

/-- The keys of the category grouping are the keys of the records, each at the place of its
first occurrence. -/
theorem aggregateByField_firstOccurrences (field : String) (valueField : Option String)
    (rows : List Record) (m : JSMap) :
    (rows.foldl (aggregateStep field valueField) m).map Prod.fst =
      m.map Prod.fst ++
        firstOccurrences (m.map Prod.fst) (rows.map fun r => categoryKey r field) := by
  induction rows generalizing m with
  | nil => simp [firstOccurrences]
  | cons r rows ih =>
    have hkeys : (aggregateStep field valueField m r).map Prod.fst =
        if m.any (fun e => sameValueZero e.1 (categoryKey r field)) then m.map Prod.fst
        else m.map Prod.fst ++ [categoryKey r field] := JSMap.keys_set m _ _
    have hany := any_keys m (categoryKey r field)
    simp only [List.foldl_cons, List.map_cons, firstOccurrences]
    rw [ih, hkeys, hany]
    cases m.any (fun e => sameValueZero e.1 (categoryKey r field)) with
    | true => simp
    | false => simp

/-- C13 (amended). The chart of `updateCategoryChart` is an ordered sequence of label and
value pairs with one pair per distinct category key of the records, a missing, null or
blank category under the key `(Sem valor)`, in the order in which the keys first occur:
no two labels are the same key, every record's key is a label and every label is a
record's key, so it has at most as many pairs as there are records; it is not cut to 12. -/
theorem updateCategoryChart_labels (rows : List Record) (filters : FilterSpec)
    (categoryField : String) (hcf : truthyField filters.categoryField = some categoryField) :
    (updateCategoryChart rows filters).map Prod.fst =
      firstOccurrences [] (rows.map fun r => categoryKey r categoryField) ∧
    ((updateCategoryChart rows filters).map Prod.fst).Pairwise
        (fun a b => sameValueZero a b = false) ∧
    (∀ r ∈ rows, categoryKey r categoryField ∈ (updateCategoryChart rows filters).map Prod.fst) ∧
    (∀ label ∈ (updateCategoryChart rows filters).map Prod.fst,
        ∃ r ∈ rows, categoryKey r categoryField = label) ∧
    (updateCategoryChart rows filters).length ≤ rows.length ∧
    (∀ r ∈ rows, (r.get categoryField = none ∨ r.get categoryField = some .null ∨
        r.get categoryField = some (.str "")) →
      categoryKey r categoryField = .str "(Sem valor)") := by
  have hmap : (updateCategoryChart rows filters).map Prod.fst =
      (aggregateByField categoryField filters.valueField rows).map Prod.fst := by
    unfold updateCategoryChart
    rw [hcf]
    simp [List.map_map, Function.comp_def]
  have hlen : (updateCategoryChart rows filters).length =
      (aggregateByField categoryField filters.valueField rows).length := by
    have := congrArg List.length hmap
    simpa using this
  have hfirst := aggregateByField_firstOccurrences categoryField filters.valueField rows []
  obtain ⟨k1, k2, k3, k4⟩ := aggregateByField_keys categoryField filters.valueField rows
  rw [hmap, hlen]
  refine ⟨by simpa [aggregateByField] using hfirst, k1, k2, k3, k4, ?_⟩
  intro r _ hr
  unfold categoryKey
  rcases hr with e | e | e
  · rw [e]
  · rw [e]
  · rw [e]; rfl

/-- Witness of C13 (amended): fourteen records of fourteen categories give fourteen
distinct labels, in the order of the records. -/
theorem updateCategoryChart_labels_witness :
    truthyField (chartFilters none).categoryField = some "Nome" ∧
    (updateCategoryChart manyCategories (chartFilters none)).map Prod.fst =
      (List.range 14).map (fun i => Value.str ("c" ++ toString i)) ∧
    ((updateCategoryChart manyCategories (chartFilters none)).map Prod.fst).Pairwise
        (fun a b => sameValueZero a b = false) ∧
    (updateCategoryChart manyCategories (chartFilters none)).length ≤ 14 :=
  ⟨by decide,
   (updateCategoryChart_labels manyCategories (chartFilters none) "Nome"
      (by decide)).1.trans (by decide!),
   (updateCategoryChart_labels manyCategories (chartFilters none) "Nome" (by decide)).2.1,
   (updateCategoryChart_labels manyCategories (chartFilters none) "Nome" (by decide)).2.2.2.2.1⟩

/-- C13, as stated, fails: fourteen records of fourteen categories give a chart of fourteen
pairs. -/
theorem updateCategoryChart_counterexample :
    (updateCategoryChart manyCategories (chartFilters none)).length = 14 ∧
    ¬ (updateCategoryChart manyCategories (chartFilters none)).length ≤ 12 := by
  decide!

/-! ## The header set -/

theorem digitChar_spec (k : Nat) (hk : k < 10) :
    (Nat.digitChar k).toNat - 48 = k ∧ (Nat.digitChar k).isDigit = true ∧
      isJSWhiteSpace (Nat.digitChar k) = false := by
  interval_cases k <;> decide

theorem digitsValue_append (xs : List Char) (d : Char) :
    digitsValue (xs ++ [d]) = 10 * digitsValue xs + (d.toNat - 48) := by
  simp [digitsValue, List.foldl_append]

theorem toDigitsCore_append (fuel n : Nat) (ds : List Char) :
    Nat.toDigitsCore 10 fuel n ds = Nat.toDigitsCore 10 fuel n [] ++ ds := by
  induction fuel generalizing n ds with
  | zero => simp [Nat.toDigitsCore]
  | succ fuel ih =>
    simp only [Nat.toDigitsCore]
    split
    · simp
    · rw [ih (n / 10) (Nat.digitChar (n % 10) :: ds), ih (n / 10) [Nat.digitChar (n % 10)]]
      simp

theorem toDigitsCore_spec (fuel n : Nat) (hn : n < fuel) :
    digitsValue (Nat.toDigitsCore 10 fuel n []) = n ∧
      (Nat.toDigitsCore 10 fuel n []).all Char.isDigit = true ∧
      Nat.toDigitsCore 10 fuel n [] ≠ [] := by
  induction fuel generalizing n with
  | zero => omega
  | succ fuel ih =>
    have hd := digitChar_spec (n % 10) (Nat.mod_lt _ (by norm_num))
    simp only [Nat.toDigitsCore]
    split
    · rename_i h0
      refine ⟨?_, by simp [hd.2.1], by simp⟩
      have : digitsValue [Nat.digitChar (n % 10)] = (Nat.digitChar (n % 10)).toNat - 48 := by
        simp [digitsValue]
      rw [this, hd.1]
      omega
    · rename_i h0
      rw [toDigitsCore_append]
      have hlt : n / 10 < fuel := by omega
      obtain ⟨i1, i2, i3⟩ := ih (n / 10) hlt
      refine ⟨?_, ?_, by simp⟩
      · rw [digitsValue_append, i1, hd.1]
        omega
      · rw [List.all_append, i2]
        simp [hd.2.1]

/-- The decimal numeral of a natural number: digits only, at least one, with the number
as value. -/
theorem toString_nat_spec (n : Nat) :
    digitsValue (toString n).data = n ∧ (toString n).data.all Char.isDigit = true ∧
      (toString n).data ≠ [] := by
  have h : (toString n).data = Nat.toDigitsCore 10 (n + 1) n [] := rfl
  rw [h]
  exact toDigitsCore_spec (n + 1) n (by omega)

theorem toString_nat_injective (a b : Nat) (hab : toString a = toString b) : a = b := by
  rw [← (toString_nat_spec a).1, ← (toString_nat_spec b).1, hab]

theorem placeholder_injective (a b : Nat)
    (hab : "Coluna " ++ toString (a + 1) = "Coluna " ++ toString (b + 1)) : a = b := by
  have h1 : ("Coluna " ++ toString (a + 1)).data = ("Coluna " ++ toString (b + 1)).data := by
    rw [hab]
  rw [String.data_append, String.data_append] at h1
  have h2 := List.append_cancel_left h1
  have h3 : toString (a + 1) = toString (b + 1) := by
    have e1 : toString (a + 1) = ⟨(toString (a + 1)).data⟩ := rfl
    have e2 : toString (b + 1) = ⟨(toString (b + 1)).data⟩ := rfl
    rw [e1, e2, h2]
  have := toString_nat_injective _ _ h3
  omega

theorem asciiLowerChar_digit (c : Char) (hc : c.isDigit = true) : asciiLowerChar c = c := by
  unfold asciiLowerChar
  have : ¬ (65 ≤ c.toNat ∧ c.toNat ≤ 90) := by
    simp only [Char.isDigit, Bool.and_eq_true, decide_eq_true_eq] at hc
    have h2 : c.toNat ≤ 57 := hc.2
    omega
  rw [if_neg this]

theorem map_asciiLowerChar_digits (ds : List Char) (hd : ds.all Char.isDigit = true) :
    ds.map asciiLowerChar = ds := by
  induction ds with
  | nil => rfl
  | cons d ds ih =>
    simp only [List.all_cons, Bool.and_eq_true] at hd
    rw [List.map_cons, asciiLowerChar_digit d hd.1, ih hd.2]

theorem not_white_of_isDigit (c : Char) (hc : c.isDigit = true) : isJSWhiteSpace c = false :=
  not_white_of_isNumberChar c (by simp [isNumberChar, hc])

/-- A placeholder name is itself a generic header. -/
theorem placeholder_generic (n : Nat) :
    GENERIC_HEADER_PATTERN ("Coluna " ++ toString n) = true := by
  obtain ⟨_, hall, hne⟩ := toString_nat_spec n
  unfold GENERIC_HEADER_PATTERN
  simp only [String.data_append, List.map_append, map_asciiLowerChar_digits _ hall]
  have hlow : "Coluna ".data.map asciiLowerChar = "coluna ".data := by decide
  rw [hlow]
  have hdrop : dropLeading "coluna".data ("coluna ".data ++ (toString n).data) =
      some (' ' :: (toString n).data) := by
    simp [dropLeading]
  simp only [List.any_cons, hdrop]
  have htail : matchesSpacesDigitsEnd (' ' :: (toString n).data) = true := by
    unfold matchesSpacesDigitsEnd
    have hsp : isJSWhiteSpace ' ' = true := by decide
    rw [List.dropWhile_cons, if_pos hsp]
    cases hds : (toString n).data with
    | nil => exact absurd hds hne
    | cons d ds =>
      rw [hds] at hall
      have hd : d.isDigit = true := by
        simp only [List.all_cons, Bool.and_eq_true] at hall
        exact hall.1
      rw [List.dropWhile_cons, not_white_of_isDigit d hd]
      simp only [Bool.false_eq_true, if_false]
      unfold isDecimalDigits
      rw [hall]
      rfl
  rw [htail]
  rfl

theorem sanitizeHeaderName_eq (h : Host) (cell : Cell) (i : Nat) :
    sanitizeHeaderName h cell i =
      if needsPlaceholder h cell then "Coluna " ++ toString (i + 1)
      else jsTrim (cellToString h cell) := by
  cases cell <;> simp [sanitizeHeaderName, needsPlaceholder]

theorem kept_not_generic (h : Host) (cell : Cell) (hk : needsPlaceholder h cell = false) :
    GENERIC_HEADER_PATTERN (jsTrim (cellToString h cell)) = false := by
  cases cell <;> simp_all [needsPlaceholder]

theorem headerSet_getElem? (h : Host) (headerRow : List Cell) (i : Nat) :
    (headerSet h headerRow)[i]? = (headerRow[i]?).map fun cell => sanitizeHeaderName h cell i := by
  unfold headerSet
  rw [List.getElem?_map, List.getElem?_enum]
  cases headerRow[i]? <;> rfl

theorem headerSet_length (h : Host) (headerRow : List Cell) :
    (headerSet h headerRow).length = headerRow.length := by
  simp [headerSet]

theorem sanitizeHeaderName_ne (h : Host) (ci cj : Cell) (i j : Nat) (hij : i < j)
    (hkept : needsPlaceholder h ci = false → needsPlaceholder h cj = false →
      jsTrim (cellToString h ci) ≠ jsTrim (cellToString h cj)) :
    sanitizeHeaderName h ci i ≠ sanitizeHeaderName h cj j := by
  rw [sanitizeHeaderName_eq, sanitizeHeaderName_eq]
  cases hi : needsPlaceholder h ci <;> cases hj : needsPlaceholder h cj
  · simpa using hkept hi hj
  · simp only [Bool.false_eq_true, if_false, if_true]
    intro heq
    have h1 := kept_not_generic h ci hi
    rw [heq, placeholder_generic] at h1
    exact Bool.noConfusion h1
  · simp only [Bool.false_eq_true, if_false, if_true]
    intro heq
    have h1 := kept_not_generic h cj hj
    rw [← heq, placeholder_generic] at h1
    exact Bool.noConfusion h1
  · simp only [if_true]
    intro heq
    have := placeholder_injective i j heq
    omega

/-- C14 (amended). The header set has one name per column index: the placeholder
"Coluna i+1" for a null, blank or generic header cell at index `i`, the trimmed text of
the cell otherwise. `sanitizeHeaderName` does not rename repeated texts: the names are
pairwise distinct exactly when no two cells that keep their text have the same trimmed
text. `processWorkbook` stores this header set of the detected header row. -/
theorem headerSet_spec (h : Host) (headerRow : List Cell) :
    (headerSet h headerRow).length = headerRow.length ∧
    (∀ (i : Nat) (cell : Cell), headerRow[i]? = some cell →
      (headerSet h headerRow)[i]? =
        some (if needsPlaceholder h cell then "Coluna " ++ toString (i + 1)
              else jsTrim (cellToString h cell))) ∧
    ((headerSet h headerRow).Nodup ↔
      ∀ (i j : Nat) (ci cj : Cell), i < j → headerRow[i]? = some ci → headerRow[j]? = some cj →
        needsPlaceholder h ci = false → needsPlaceholder h cj = false →
        jsTrim (cellToString h ci) ≠ jsTrim (cellToString h cj)) ∧
    (∀ (data : List (List Cell)) (st : State), processWorkbook h data = some st →
      st.headers = headerSet h (data.getD (findHeaderRow h data) [])) := by
  refine ⟨headerSet_length h headerRow, ?_, ?_, ?_⟩
  · intro i cell hc
    rw [headerSet_getElem?, hc, Option.map_some', sanitizeHeaderName_eq]
  · rw [List.nodup_iff_getElem?_ne_getElem?]
    constructor
    · intro hnd i j ci cj hij hi hj hki hkj heq
      have hjl : j < (headerSet h headerRow).length := by
        rw [headerSet_length]
        exact lt_length_of_getElem? _ _ _ hj
      apply hnd i j hij hjl
      rw [headerSet_getElem?, headerSet_getElem?, hi, hj, Option.map_some', Option.map_some',
        sanitizeHeaderName_eq, sanitizeHeaderName_eq, hki, hkj]
      simp [heq]
    · intro hcond i j hij hjl
      rw [headerSet_length] at hjl
      have hil : i < headerRow.length := by omega
      rw [headerSet_getElem?, headerSet_getElem?, List.getElem?_eq_getElem hil,
        List.getElem?_eq_getElem hjl, Option.map_some', Option.map_some']
      intro heq
      exact sanitizeHeaderName_ne h _ _ i j hij
        (hcond i j _ _ hij (List.getElem?_eq_getElem hil) (List.getElem?_eq_getElem hjl))
        (Option.some.inj heq)
  · intro data st hp
    unfold processWorkbook at hp
    split at hp
    · exact Option.noConfusion hp
    · simp only at hp
      split at hp
      · exact Option.noConfusion hp
      · rw [← Option.some.inj hp]
        rfl

/-- The header row " Nome ", null, "Column 7", "Valor" gives the names "Nome", "Coluna 2",
"Coluna 3", "Valor", which are pairwise distinct. -/
theorem headerSet_spec_witness :
    headerSet refHost [.str " Nome ", .null, .str "Column 7", .str "Valor"] =
      ["Nome", "Coluna 2", "Coluna 3", "Valor"] ∧
    (headerSet refHost [.str " Nome ", .null, .str "Column 7", .str "Valor"])[2]? =
      some "Coluna 3" ∧
    jsTrim (cellToString refHost (.str " Nome ")) ≠ jsTrim (cellToString refHost (.str "Valor")) :=
  ⟨by decide,
   (headerSet_spec refHost [.str " Nome ", .null, .str "Column 7", .str "Valor"]).2.1 2
      (.str "Column 7") rfl,
   (headerSet_spec refHost [.str " Nome ", .null, .str "Column 7", .str "Valor"]).2.2.1.mp
      (by decide) 0 3 (.str " Nome ") (.str "Valor") (by decide) rfl rfl (by decide)
      (by decide)⟩

/-- Two header cells with the text "A" give the name "A" twice: the names of a header set
need not be pairwise distinct. -/
theorem headerSet_counterexample :
    headerSet refHost [.str "A", .str "A"] = ["A", "A"] ∧
    ¬ (headerSet refHost [.str "A", .str "A"]).Nodup ∧
    (processWorkbook refHost [[.str "A", .str "A"], [.num 1, .num 2]]).map (fun st => st.headers) =
      some ["A", "A"] := by
  refine ⟨by decide, by decide, by decide!⟩

/-! ## parseNumber on the canonical string of a number -/

theorem dropWhile_eq_self_of_forall {α : Type} (p : α → Bool) (l : List α)
    (hl : ∀ a ∈ l, p a = false) : l.dropWhile p = l := by
  cases l with
  | nil => rfl
  | cons a l => simp [List.dropWhile, hl a (List.mem_cons_self a l)]

theorem trimChars_eq_self (l : List Char) (hl : ∀ c ∈ l, isJSWhiteSpace c = false) :
    trimChars l = l := by
  unfold trimChars
  rw [dropWhile_eq_self_of_forall _ l hl,
    dropWhile_eq_self_of_forall _ l.reverse (fun c hc => hl c (List.mem_reverse.mp hc)),
    List.reverse_reverse]

theorem isPlainDecimal_spec (s : String) (hp : isPlainDecimal s = true) :
    s.data ≠ [] ∧ ∀ c ∈ s.data, isNumberChar c = true ∧ c ≠ ',' := by
  unfold isPlainDecimal at hp
  simp only [Bool.and_eq_true, Bool.not_eq_true', List.all_eq_true, Bool.or_eq_true,
    beq_iff_eq] at hp
  refine ⟨fun he => by simp [he] at hp, ?_⟩
  intro c hc
  have h1 := hp.2 c hc
  constructor
  · unfold isNumberChar
    rcases h1 with (h1 | h1) | h1
    · simp [h1]
    · simp [h1]
    · simp [h1]
  · intro he
    subst he
    revert h1
    decide

/-- On a string in plain decimal notation `parseNumber` is `Number`, with `NaN` for a result
that is not finite. -/
theorem parseNumber_plain (s : String) (hp : isPlainDecimal s = true) :
    parseNumber (.str s) =
      if (stringToNumber s).isFinite then stringToNumber s else JSNumber.nan := by
  obtain ⟨hne, hall⟩ := isPlainDecimal_spec s hp
  have htrim : trimChars s.data = s.data :=
    trimChars_eq_self _ (fun c hc => not_white_of_isNumberChar c (hall c hc).1)
  have hstrip : ((removeChar (Char.ofNat 0) s.data).filter
        (fun c => !(c == 'R' || c == 'r' || c == '$' || isJSWhiteSpace c))).filter
      (fun c => c.isDigit || c == ',' || c == '.' || c == '-') = s.data := by
    rw [stripped_eq_filter]
    exact List.filter_eq_self.mpr (fun c hc => (hall c hc).1)
  have hcomma : removeChar ',' s.data = s.data := by
    unfold removeChar
    exact List.filter_eq_self.mpr (fun c hc => by simp [(hall c hc).2])
  have hcont : s.data.contains ',' = false := by
    rw [Bool.eq_false_iff]
    intro hc
    have hm : ',' ∈ s.data := by simpa using hc
    exact (hall ',' hm).2 rfl
  have hemp : s.data.isEmpty = false := by
    cases hd : s.data with
    | nil => exact absurd hd hne
    | cons a l => rfl
  unfold parseNumber
  simp only [htrim, hstrip, hcont, hcomma, hemp, Bool.false_and, Bool.false_eq_true, if_false]
  rfl

/-- C15 (amended). `parseNumber` returns a number unchanged, and on a string in plain
decimal notation (digits, periods and minus signs only) it is `Number`; so for every finite
number `x` whose canonical string `String(x)` is in plain decimal notation and converts
back to `x`, `parseNumber (String(x))` is `x`. -/
theorem parseNumber_canonical_string (h : Host) (x : ℚ) :
    parseNumber (.num x) = .fin x ∧
    (∀ s : String, isPlainDecimal s = true →
      parseNumber (.str s) =
        if (stringToNumber s).isFinite then stringToNumber s else JSNumber.nan) ∧
    (isPlainDecimal (h.numberToString x) = true →
      stringToNumber (h.numberToString x) = .fin x →
      parseNumber (.str (h.numberToString x)) = .fin x) := by
  refine ⟨rfl, parseNumber_plain, ?_⟩
  intro hp hr
  rw [parseNumber_plain _ hp, hr]
  rfl

/-- The canonical string of 1234.56 is "1234.56", in plain decimal notation, and
`parseNumber` gives 1234.56 back; the same for -2.5 and 0.05. -/
theorem parseNumber_canonical_string_witness :
    refHost.numberToString 1234.56 = "1234.56" ∧
    parseNumber (.str (refHost.numberToString 1234.56)) = .fin 1234.56 ∧
    parseNumber (.str (refHost.numberToString (-2.5))) = .fin (-2.5) ∧
    parseNumber (.str (refHost.numberToString 0.05)) = .fin 0.05 :=
  ⟨by decide!,
   (parseNumber_canonical_string refHost 1234.56).2.2 (by decide!) (by decide!),
   (parseNumber_canonical_string refHost (-2.5)).2.2 (by decide!) (by decide!),
   (parseNumber_canonical_string refHost 0.05).2.2 (by decide!) (by decide!)⟩

/-- The canonical string of the number 10^21 is "1e+21", which `Number` converts back to
10^21; `parseNumber` strips the `e` and the `+` and returns 121. The canonical string of
10^-7 is "1e-7", for which `parseNumber` returns `NaN`. -/
theorem parseNumber_exponent_counterexample :
    refHost.numberToString (10 ^ 21) = "1e+21" ∧
    stringToNumber "1e+21" = .fin (10 ^ 21) ∧
    parseNumber (.str (refHost.numberToString (10 ^ 21))) = .fin 121 ∧
    parseNumber (.str (refHost.numberToString (10 ^ 21))) ≠ .fin (10 ^ 21) ∧
    refHost.numberToString (1 / 10 ^ 7) = "1e-7" ∧
    parseNumber (.str (refHost.numberToString (1 / 10 ^ 7))) = .nan := by
  refine ⟨by decide!, by decide!, by decide!, by decide!, by decide!, by decide!⟩
end EntradaNF
